import Mathlib

/-!
# FirmwareSender: the SysEx firmware upload framing

A shallow embedding of `Source/FirmwareSender.cpp`.

* Bytes are natural numbers; a byte read from memory is taken modulo 256.
* `int` variables are integers.  The conversions the source performs between
  integer types (`int64 → int` for the image size, `int → uint32_t` at the
  calls of `encodeInt`, `uint32_t → uint8_t` inside it) are modelled as the
  modular conversions they are.  The `int` product `blockSize*7` of `run()` is
  a 32-bit product: it is reduced to the range of `int` (two's complement), as
  the compiled program does.  The counters `i += len` and `packageIndex++` are
  taken exactly; `packageIndex` is only ever read through its conversion to
  `uint32_t`.
* The send loop is run with a fuel bound, and the `running` flag is given as
  the value that each evaluation of the loop condition reads from it.
-/

namespace FirmwareSender

/-! ## Constants -/

/-- The `MESSAGE_SIZE` macro. -/
def MESSAGE_SIZE : Int := 8

/-- The `DEFAULT_BLOCK_SIZE` macro. -/
def DEFAULT_BLOCK_SIZE : Int := 250 - MESSAGE_SIZE

/-- The `DEFAULT_BLOCK_DELAY` macro, in milliseconds. -/
def DEFAULT_BLOCK_DELAY : Int := 20

/-- Modelled from the spec: the start-of-exclusive delimiter `SYSEX` of the
missing `MidiStatus.h`, which the spec gives as `0xF0`. -/
def SYSEX : Nat := 0xF0

/-- Modelled from the spec: the end-of-exclusive delimiter `SYSEX_EOX` of the
missing `MidiStatus.h`, which the spec gives as `0xF7`. -/
def SYSEX_EOX : Nat := 0xF7

/-- The three header bytes `MIDI_SYSEX_MANUFACTURER`, `MIDI_SYSEX_DEVICE` and
`SYSEX_FIRMWARE_UPLOAD`; their values live in the missing
`OpenWareMidiControl.h` and are a parameter of the model. -/
structure PackageHeader where
  manufacturer : Nat
  device : Nat
  command : Nat
deriving DecidableEq

/-- The array `header[]` of `run()`. -/
def PackageHeader.bytes (h : PackageHeader) : List Nat :=
  [h.manufacturer, h.device, h.command]

/-! ## Byte Packer -/

/-- Modelled from the spec: the "MSB byte" of a group, whose bit `i` is bit 7
of input byte `i` (part of `data_to_sysex` of the missing `sysex.c`). -/
def msbByte : List Nat → Nat
  | [] => 0
  | b :: bs => (b % 256) / 128 + 2 * msbByte bs

/-- Modelled from the spec: the group transform of `data_to_sysex` (missing
`sysex.c`) on one group of `k ≤ 7` raw bytes: the MSB byte followed by the `k`
input bytes with bit 7 cleared. -/
def encodeGroup (g : List Nat) : List Nat :=
  msbByte g :: g.map (fun b => b % 128)

/-- Modelled from the spec: the groups of `data_to_sysex`, at most `groups` of
them: each group of at most 7 raw bytes is transformed by `encodeGroup`. -/
def packGroups : Nat → List Nat → List Nat
  | 0, _ => []
  | _, [] => []
  | groups + 1, b :: bs =>
    encodeGroup ((b :: bs).take 7) ++ packGroups groups ((b :: bs).drop 7)

/-- Modelled from the spec: `data_to_sysex` of the missing `sysex.c`.  The
input is processed in groups of at most 7 raw bytes, the last possibly
shorter; the returned list is the content of the `sysex` buffer and its length
the returned `int`. -/
def data_to_sysex (data : List Nat) : List Nat := packGroups data.length data

/-- Modelled from the spec: one byte folded into the raw CRC-32 register
(reflected polynomial `0xEDB88320`), bit by bit. -/
def crc32Byte (reg byte : Nat) : Nat :=
  (fun c : Nat => if c % 2 = 1 then (c >>> 1) ^^^ 0xEDB88320 else c >>> 1)^[8]
    (reg ^^^ (byte % 256))

/-- Modelled from the spec: `crc32(buf, size, crc)` of the missing `crc32.h`,
taken to be the standard CRC-32 continued from the accumulator `crc` (the
register is the complement of the accumulator).  The theorems take the
checksum function as a parameter; this one instantiates it. -/
def crc32 (buf : List Nat) (crc : Nat) : Nat :=
  (buf.foldl crc32Byte ((crc % 2 ^ 32) ^^^ 0xFFFFFFFF)) ^^^ 0xFFFFFFFF

/-- Modelled from the spec: the bytes of a group put back together by the
receiver, given the (remaining bits of the) MSB byte `m`: the lowest bit of `m`
becomes bit 7 of the first byte. -/
def decodeBytes : Nat → List Nat → List Nat
  | _, [] => []
  | m, b :: bs => (b + 128 * (m % 2)) :: decodeBytes (m / 2) bs

/-- Modelled from the spec: the inverse of the group transform, which the
receiver applies (the spec's `decode`): bit `i` of the MSB byte is put back as
bit 7 of byte `i`. -/
def decodeGroup : List Nat → List Nat
  | [] => []
  | m :: bs => decodeBytes m bs

/-- Conversion of an `int` argument to `uint32_t`. -/
def toUInt32 (x : Int) : Nat := (x % 2 ^ 32).toNat

/-- Reduction of an integer to the range of the 32-bit `int` (two's
complement): the conversion of a 64-bit file size to `int`, and the value an
`int` operation leaves when its exact result does not fit. -/
def toInt32 (x : Int) : Int := (x + 2 ^ 31) % 2 ^ 32 - 2 ^ 31

/-- The array `in[4]` of `encodeInt`, for the `uint32_t` argument `data`. -/
def encodeInt.input (data : Nat) : List Nat :=
  let in3 := (data % 256) &&& 0xff
  let in2 := ((data >>> 8) % 256) &&& 0xff
  let in1 := ((data >>> 16) % 256) &&& 0xff
  let in0 := ((data >>> 24) % 256) &&& 0xff
  [in0, in1, in2, in3]

/-- The method `encodeInt(MemoryBlock& block, uint32_t data)`: the new content
of `block`, or the cause of the `CommandLineException` thrown. -/
def encodeInt (block : List Nat) (data : Nat) : Except String (List Nat) :=
  let out := data_to_sysex (encodeInt.input (data % 2 ^ 32))
  if out.length ≠ 5 then
    .error "Error in sysex conversion"
  else
    .ok (block ++ out)

/-- Modelled from the spec: decoding of a 5-byte integer field by the
receiver: undo the group transform and read the 4 bytes most-significant
first. -/
def decodeInt (field : List Nat) : Option Nat :=
  match decodeGroup field with
  | [b0, b1, b2, b3] => some (((b0 * 256 + b1) * 256 + b2) * 256 + b3)
  | _ => none

/-! ## Transfer session -/

/-- The data members of the class `FirmwareSender` that `configure` sets and
`run` reads.  `midiout` holds the index of the opened MIDI output, `fileout`
and `input` the file names; `none` is the `NULL` pointer. -/
structure Sender where
  verbose : Bool := true
  midiout : Option Nat := none
  fileout : Option String := none
  input : Option String := none
  blockDelay : Int := DEFAULT_BLOCK_DELAY
  blockSize : Int := DEFAULT_BLOCK_SIZE
deriving DecidableEq

/-- What a run has done to its surroundings.
* `sent`: the buffers passed to `send`, in call order;
* `file`: the bytes written to the output stream `out`;
* `flushed`: the content of `file` at the last `flush`;
* `midi`: the buffers handed to `midiout` as SysEx messages;
* `waited`: the delays waited for, in milliseconds;
* `checksums`: one entry for each execution of the last-block branch of the
  send loop: the position in `sent` of the package sent there, and the
  checksum appended to it;
* `stops`: the number of calls of `stop()`. -/
structure World where
  sent : List (List Nat) := []
  file : List Nat := []
  flushed : List Nat := []
  midi : List (List Nat) := []
  waited : List Int := []
  checksums : List (Nat × Nat) := []
  stops : Nat := 0
deriving DecidableEq

/-- The method `send(unsigned char* data, int size)`.  The stream `out` is the
one `run()` creates when `fileout` is set, so `out != NULL` is `fileout` being
set; `sent` records the call itself. -/
def send (s : Sender) (data : List Nat) (w : World) : World :=
  let w := { w with sent := w.sent ++ [data] }
  let w :=
    if s.fileout.isSome then
      let file := w.file ++ [SYSEX] ++ data ++ [SYSEX_EOX]
      { w with file := file, flushed := file }
    else w
  if s.midiout.isSome then { w with midi := w.midi ++ [data] } else w

/-- The method `stop()`: the MIDI background thread is stopped and `out` is
flushed. -/
def stop (s : Sender) (w : World) : World :=
  let w := { w with stops := w.stops + 1 }
  if s.fileout.isSome then { w with flushed := w.file } else w

/-- The local `binblock` of `run()`: `(int)floor(blockSize*7/8)`.  The product
`blockSize*7` is a product of two `int`s and is kept in 32 bits; the argument
of `floor` is an `int` division, which truncates. -/
def binblock (blockSize : Int) : Int := Int.tdiv (toInt32 (blockSize * 7)) 8

/-- The call `in->read(buffer, maxBytesToRead)` on a stream with the unread
bytes `stream`: the bytes read and the bytes left. -/
def read (stream : List Nat) (maxBytesToRead : Int) : List Nat × List Nat :=
  (stream.take maxBytesToRead.toNat, stream.drop maxBytesToRead.toNat)

/-- The variables of `run()` that the send loop changes; `input` is the
unread rest of the stream `in`. -/
structure Loop where
  i : Int
  packageIndex : Int
  checksum : Nat
  block : List Nat
  input : List Nat
deriving DecidableEq

/-- How far a run got: `returned` when `run()` returned (after `stop()`),
`thrown` when it left with an exception, `looping` when the fuel ran out
inside the send loop. -/
inductive Outcome where
  | returned (w : World)
  | thrown (cause : String) (w : World)
  | looping (w : World)
deriving DecidableEq

/-- The world an outcome leaves. -/
def Outcome.world : Outcome → World
  | .returned w => w
  | .thrown _ w => w
  | .looping w => w

/-- The delay at the end of an iteration of the send loop:
`if(blockDelay > 0) waitForMillisecondCounter(...)`. -/
def delay (s : Sender) (w : World) : World :=
  if s.blockDelay > 0 then { w with waited := w.waited ++ [s.blockDelay] } else w

/-- The result of one iteration of the send loop: the next values of the loop
variables, or the cause of an exception thrown. -/
inductive Step where
  | next (l : Loop) (w : World)
  | thrown (cause : String) (w : World)
deriving DecidableEq

/-- The body of the send loop of `run()`.  `crc` is the function
`crc32` of the missing `crc32.h`. -/
def loopBody (hdr : PackageHeader) (crc : List Nat → Nat → Nat) (s : Sender) (size : Int)
    (l : Loop) (w : World) : Step :=
  let (buffer, rest) := read l.input (binblock s.blockSize)
  let len : Int := buffer.length
  let checksum := crc buffer l.checksum
  let i := l.i + len
  let sysex := data_to_sysex buffer
  let block := l.block ++ sysex
  if i = size then
    -- last block
    match encodeInt block checksum with
    | .error cause => .thrown cause w
    | .ok block =>
      let w := send s block w
      let w := { w with checksums := w.checksums ++ [(w.sent.length - 1, checksum)] }
      .next { i := i, packageIndex := l.packageIndex, checksum := checksum, block := block,
              input := rest } (delay s w)
  else
    let w := send s block w
    match encodeInt hdr.bytes (toUInt32 l.packageIndex) with
    | .error cause => .thrown cause w
    | .ok block =>
      .next { i := i, packageIndex := l.packageIndex + 1, checksum := checksum, block := block,
              input := rest } (delay s w)

/-- The send loop of `run()`, `for(int i=0; i < size && running;)`, followed
by `stop()`.  `running k` is what the loop condition reads from the flag
`running` when it is evaluated after `k` iterations; `fuel` bounds the number
of iterations. -/
def runLoop (hdr : PackageHeader) (crc : List Nat → Nat → Nat) (s : Sender) (size : Int)
    (running : Nat → Bool) : Nat → Nat → Loop → World → Outcome
  | fuel, k, l, w =>
    if l.i < size ∧ running k = true then
      match fuel with
      | 0 => .looping w
      | fuel + 1 =>
        match loopBody hdr crc s size l w with
        | .thrown cause w => .thrown cause w
        | .next l w => runLoop hdr crc s size running fuel (k + 1) l w
    else
      .returned (stop s w)

/-- The loop variables and the world at the evaluation of the loop condition
after `k` iterations of the send loop with the flag `running` set, or at the
evaluation that ended the loop when it ended before. -/
def atCheck (hdr : PackageHeader) (crc : List Nat → Nat → Nat) (s : Sender) (size : Int) :
    Nat → Loop → World → Loop × World
  | 0, l, w => (l, w)
  | k + 1, l, w =>
    if l.i < size then
      match loopBody hdr crc s size l w with
      | .thrown _ _ => (l, w)
      | .next l w => atCheck hdr crc s size k l w
    else
      (l, w)

/-- The method `run()` on an input file with the content `image`, from the
point where the streams are created. -/
def run (hdr : PackageHeader) (crc : List Nat → Nat → Nat) (s : Sender) (image : List Nat)
    (running : Nat → Bool) (fuel : Nat) : Outcome :=
  let w : World := {}
  let packageIndex : Int := 0
  match encodeInt hdr.bytes (toUInt32 packageIndex) with
  | .error cause => .thrown cause w
  | .ok block =>
    let packageIndex := packageIndex + 1
    let size : Int := toInt32 image.length
    match encodeInt block (toUInt32 size) with
    | .error cause => .thrown cause w
    | .ok block =>
      let w := send s block w
      match encodeInt hdr.bytes (toUInt32 packageIndex) with
      | .error cause => .thrown cause w
      | .ok block =>
        let packageIndex := packageIndex + 1
        runLoop hdr crc s size running fuel 0
          { i := 0, packageIndex := packageIndex, checksum := 0, block := block, input := image } w

/-! ## Configuration -/

/-- What `configure` sees of its surroundings: the JUCE calls it makes.
* `fileExists name`: `juce::File(name).exists()`;
* `getIntValue text`: `juce::String(text).getIntValue()`;
* `outputs`: `MidiOutput::getDevices()`;
* `matchesWildcard device name`: `device.trim().matchesWildcard(name, true)`;
* `canOpen i`: whether `MidiOutput::openDevice(i)` returns a device. -/
structure Env where
  fileExists : String → Bool
  getIntValue : String → Int
  outputs : List String
  matchesWildcard : String → String → Bool
  canOpen : Nat → Bool

/-- What `configure` does to its surroundings. -/
inductive Effect where
  | usage
  | listDevices
  | startMidi (device : Nat)
  | deleteFile (name : String)
  | createFile (name : String)
deriving DecidableEq

/-- The search loop of `openMidiOutput`: the index of the first device whose
name matches, counted from `i`. -/
def findOutput (isMatch : String → Bool) : List String → Nat → Option Nat
  | [], _ => none
  | device :: devices, i => if isMatch device then some i else findOutput isMatch devices (i + 1)

/-- The method `openMidiOutput(name)`: the device opened, or `none` for `NULL`. -/
def openMidiOutput (env : Env) (name : String) : Option Nat :=
  match findOutput (fun device => env.matchesWildcard device name) env.outputs 0 with
  | none => none
  | some i => if env.canOpen i then some i else none

/-- How `configure` ends: it returns, or throws a `CommandLineException`. -/
inductive Configured where
  | ok (s : Sender) (effects : List Effect)
  | thrown (cause : String) (s : Sender) (effects : List Effect)
deriving DecidableEq

/-- The branch of the argument loop of `configure` for an argument `arg`
that is followed by `value`, given the continuation `next` on the arguments
after `value`: the options tested with `&& ++i < argc`. -/
def configureOption (env : Env) (arg value : String) (s : Sender) (fx : List Effect)
    (next : Sender → List Effect → Configured) : Configured :=
  if arg = "-d" then
    next { s with blockDelay := env.getIntValue value } fx
  else if arg = "-s" then
    next { s with blockSize := env.getIntValue value - MESSAGE_SIZE } fx
  else if arg = "-in" then
    if env.fileExists value then
      next { s with input := some value } fx
    else
      .thrown ("No such file: " ++ value) { s with input := some value } fx
  else if arg = "-out" then
    match openMidiOutput env value with
    | none => next { s with midiout := none } fx
    | some i => next { s with midiout := some i } (fx ++ [.startMidi i])
  else if arg = "-save" then
    next { s with fileout := some value } (fx ++ [.deleteFile value, .createFile value])
  else
    .thrown "" s (fx ++ [.usage])

/-- The argument loop of `configure`, on the arguments `argv[i..]` still to be
read.  An option that takes a value and is the last argument (`++i < argc`
fails) reaches the final `else`, as an unknown argument does. -/
def configureArgs (env : Env) : List String → Sender → List Effect → Configured
  | [], s, fx => .ok s fx
  | arg :: rest, s, fx =>
    if arg = "-h" ∨ arg = "--help" then
      .thrown "" s (fx ++ [.usage])
    else if arg = "-q" ∨ arg = "--quiet" then
      configureArgs env rest { s with verbose := false } fx
    else if arg = "-v" ∨ arg = "--verbose" then
      configureArgs env rest { s with verbose := true } fx
    else if arg = "-l" ∨ arg = "--list" then
      .thrown "" s (fx ++ [.listDevices])
    else
      match rest with
      | [] => .thrown "" s (fx ++ [.usage])
      | value :: rest => configureOption env arg value s fx (configureArgs env rest)

/-- The method `configure(argc, argv)` on the arguments `argv[1..]`, from the
initial values of the data members. -/
def configure (env : Env) (args : List String) : Configured :=
  match configureArgs env args {} [] with
  | .thrown cause s fx => .thrown cause s fx
  | .ok s fx =>
    if s.input = none ∨ (s.midiout = none ∧ s.fileout = none) then
      .thrown "" s (fx ++ [.usage])
    else if s.midiout = none ∧ s.blockDelay = DEFAULT_BLOCK_DELAY then
      .ok { s with blockDelay := 0 } fx
    else
      .ok s fx

/-- The effects an execution of `configure` has had. -/
def Configured.effects : Configured → List Effect
  | .ok _ fx => fx
  | .thrown _ _ fx => fx

/-- Whether an effect modifies the file system. -/
def Effect.isFileOp : Effect → Bool
  | .deleteFile _ => true
  | .createFile _ => true
  | _ => false

/-- The files named by the `-save` options among arguments that the argument
loop of `configure` reads to their end, in order: `-q`, `--quiet`, `-v` and
`--verbose` are one argument each, every other option is followed by its
value. -/
def savedNames : List String → List String
  | [] => []
  | arg :: rest =>
    if arg = "-q" ∨ arg = "--quiet" ∨ arg = "-v" ∨ arg = "--verbose" then
      savedNames rest
    else
      match rest with
      | [] => []
      | value :: rest => if arg = "-save" then value :: savedNames rest else savedNames rest

/-- The arguments at which the argument loop of `configure` throws, `arg` being
the argument it reads as an option and `tail` the arguments after it: the help
and the list option, an argument that is no option, an option that takes a
value and is the last argument, and `-in` followed by the name of a file that
does not exist. -/
def AbortsOn (env : Env) (arg : String) (tail : List String) : Prop :=
  arg ∈ ["-h", "--help", "-l", "--list"] ∨
  arg ∉ ["-h", "--help", "-q", "--quiet", "-v", "--verbose", "-l", "--list", "-d", "-s",
    "-in", "-out", "-save"] ∨
  (arg ∈ ["-d", "-s", "-in", "-out", "-save"] ∧ tail = []) ∨
  (arg = "-in" ∧ ∃ value rest, tail = value :: rest ∧ env.fileExists value = false)

/-- The function `main`, with `content name` the bytes of the file `name`:
the exit status (`none` while `run()` has not returned) and, when `run()` was
called, how far it got.  `configure` returns only with `input` set, so `run()`
never finds it `NULL`. -/
def main (env : Env) (hdr : PackageHeader) (crc : List Nat → Nat → Nat)
    (content : String → List Nat) (args : List String) (running : Nat → Bool) (fuel : Nat) :
    Option Int × Option Outcome :=
  match configure env args with
  | .thrown _ _ _ => (some (-1), none)
  | .ok s _ =>
    match s.input with
    | none => (none, none)
    | some name =>
      match run hdr crc s (content name) running fuel with
      | .returned w => (some 0, some (.returned w))
      | .thrown cause w => (some (-1), some (.thrown cause w))
      | .looping w => (none, some (.looping w))

/-! ## The package list in closed form -/

/-- The 5-byte field that `encodeInt` appends for `data`: the group transform
of its four bytes. -/
def enc32 (data : Nat) : List Nat := data_to_sysex (encodeInt.input (data % 2 ^ 32))

/-- The number of data packages for `n` bytes in chunks of `b`: `ceil(n / b)`. -/
def packageCount (n b : Nat) : Nat := (n + b - 1) / b

/-- The chunk of data package `j ≥ 1`: `image[(j-1)*b .. min(j*b, n))`. -/
def chunk (image : List Nat) (b j : Nat) : List Nat :=
  (image.take (min (j * b) image.length)).drop ((j - 1) * b)

/-- The checksum folded over the first `j` chunks in read order, from the
accumulator 0. -/
def checksumAfter (crc : List Nat → Nat → Nat) (image : List Nat) (b : Nat) : Nat → Nat
  | 0 => 0
  | j + 1 => crc (chunk image b (j + 1)) (checksumAfter crc image b j)

/-- The metadata package: header, index 0, image size. -/
def metadataPackage (hdr : PackageHeader) (n : Nat) : List Nat :=
  hdr.bytes ++ enc32 0 ++ enc32 n

/-- The values of the loop variables and the world with which `run()` enters
the send loop: the metadata package is sent and the block of package 1 is
started. -/
def loopEntry (hdr : PackageHeader) (s : Sender) (image : List Nat) : Loop × World :=
  ({ i := 0, packageIndex := 2, checksum := 0, block := hdr.bytes ++ enc32 1, input := image },
   send s (metadataPackage hdr image.length) {})

/-- Data package `j ≥ 1`: header, index `j`, the packed chunk `j`, and on the
last package the checksum. -/
def dataPackage (hdr : PackageHeader) (crc : List Nat → Nat → Nat) (image : List Nat)
    (b j : Nat) : List Nat :=
  hdr.bytes ++ enc32 j ++ data_to_sysex (chunk image b j) ++
    (if j = packageCount image.length b then enc32 (checksumAfter crc image b j) else [])

/-- The package list of a complete transfer: the metadata package, then the
data packages `1 .. ceil(n / b)`. -/
def packages (hdr : PackageHeader) (crc : List Nat → Nat → Nat) (image : List Nat)
    (b : Nat) : List (List Nat) :=
  metadataPackage hdr image.length ::
    (List.range (packageCount image.length b)).map (fun j => dataPackage hdr crc image b (j + 1))

/-- Package `p` is framed as number `k`: the header, the encoded index `k`,
and a payload of 7-bit bytes. -/
def Framed (hdr : PackageHeader) (k : Nat) (p : List Nat) : Prop :=
  ∃ payload, p = hdr.bytes ++ enc32 k ++ payload ∧ ∀ x ∈ payload, x < 128

/-- Every package of the list is framed with its position as index. -/
def AllFramed (hdr : PackageHeader) (sent : List (List Nat)) : Prop :=
  ∀ k p, sent[k]? = some p → Framed hdr k p

/-! ## Theorems -/

/-! ### The Byte Packer -/

theorem data_to_sysex_nil : data_to_sysex [] = [] := rfl

theorem packGroups_more (groups : Nat) :
    ∀ d : List Nat, d.length ≤ groups → packGroups groups d = packGroups d.length d := by
  induction groups using Nat.strong_induction_on with
  | _ groups ih =>
    intro d hd
    cases d with
    | nil => cases groups <;> rfl
    | cons b bs =>
      cases groups with
      | zero => simp at hd
      | succ g =>
        simp only [List.length_cons, packGroups]
        congr 1
        have hlen : ((b :: bs).drop 7).length ≤ bs.length := by
          simp only [List.length_drop, List.length_cons]; omega
        have hg : bs.length ≤ g := by simpa using hd
        rw [ih g (Nat.lt_succ_self g) _ (le_trans hlen hg)]
        by_cases hlt : bs.length < g
        · rw [ih bs.length (by omega) _ hlen]
        · have : bs.length = g := by omega
          rw [this, ih g (Nat.lt_succ_self g) _ (this ▸ hlen)]

theorem data_to_sysex_ne_nil (d : List Nat) (h : d ≠ []) :
    data_to_sysex d = encodeGroup (d.take 7) ++ data_to_sysex (d.drop 7) := by
  cases d with
  | nil => exact absurd rfl h
  | cons b bs =>
    simp only [data_to_sysex, List.length_cons, packGroups]
    congr 1
    apply packGroups_more
    simp only [List.length_drop, List.length_cons]
    omega

theorem encodeGroup_length (g : List Nat) : (encodeGroup g).length = g.length + 1 := by
  simp [encodeGroup]

theorem data_to_sysex_length_aux (n : Nat) :
    ∀ d : List Nat, d.length = n → (data_to_sysex d).length = d.length + (d.length + 6) / 7 := by
  induction n using Nat.strong_induction_on with
  | _ n ih =>
    intro d hd
    by_cases hnil : d = []
    · subst hnil; simp [data_to_sysex_nil]
    · have hpos : 0 < d.length := List.length_pos.mpr hnil
      rw [data_to_sysex_ne_nil d hnil, List.length_append, encodeGroup_length,
        ih (d.drop 7).length (by rw [List.length_drop]; omega) (d.drop 7) rfl]
      simp only [List.length_take, List.length_drop]
      omega

theorem data_to_sysex_length (d : List Nat) :
    (data_to_sysex d).length = d.length + (d.length + 6) / 7 :=
  data_to_sysex_length_aux d.length d rfl

theorem msbByte_lt (g : List Nat) : msbByte g < 2 ^ g.length := by
  induction g with
  | nil => simp [msbByte]
  | cons b bs ih =>
    simp only [msbByte, List.length_cons, pow_succ]
    have : b % 256 / 128 < 2 := by omega
    omega

theorem encodeGroup_lt (g : List Nat) (hg : g.length ≤ 7) : ∀ x ∈ encodeGroup g, x < 128 := by
  intro x hx
  simp only [encodeGroup, List.mem_cons, List.mem_map] at hx
  rcases hx with rfl | ⟨b, _, rfl⟩
  · have h1 := msbByte_lt g
    have h2 : 2 ^ g.length ≤ 2 ^ 7 := Nat.pow_le_pow_right (by norm_num) hg
    omega
  · omega

theorem data_to_sysex_lt_aux (n : Nat) :
    ∀ d : List Nat, d.length = n → ∀ x ∈ data_to_sysex d, x < 128 := by
  induction n using Nat.strong_induction_on with
  | _ n ih =>
    intro d hd x hx
    by_cases hnil : d = []
    · subst hnil; simp [data_to_sysex_nil] at hx
    · have hpos : 0 < d.length := List.length_pos.mpr hnil
      rw [data_to_sysex_ne_nil d hnil, List.mem_append] at hx
      rcases hx with hx | hx
      · exact encodeGroup_lt _ (by simp) x hx
      · exact ih (d.drop 7).length (by rw [List.length_drop]; omega) (d.drop 7) rfl x hx

theorem data_to_sysex_lt (d : List Nat) : ∀ x ∈ data_to_sysex d, x < 128 :=
  data_to_sysex_lt_aux d.length d rfl

theorem enc32_length (v : Nat) : (enc32 v).length = 5 := by
  simp [enc32, data_to_sysex_length, encodeInt.input]

theorem encodeInt_eq (block : List Nat) (v : Nat) : encodeInt block v = .ok (block ++ enc32 v) := by
  have h : (data_to_sysex (encodeInt.input (v % 2 ^ 32))).length = 5 := enc32_length v
  simp only [encodeInt, h, ne_eq, not_true_eq_false, if_false, enc32]

theorem enc32_lt (v : Nat) : ∀ x ∈ enc32 v, x < 128 := data_to_sysex_lt _

theorem encodeInt_input_eq (v : Nat) :
    encodeInt.input v = [v / 2 ^ 24 % 256, v / 2 ^ 16 % 256, v / 2 ^ 8 % 256, v % 256] := by
  have h : ∀ x : Nat, (x % 256) &&& 0xff = x % 256 := by
    intro x
    have := Nat.and_pow_two_sub_one_eq_mod (x % 256) 8
    simpa using this
  simp only [encodeInt.input, h, Nat.shiftRight_eq_div_pow]

theorem decodeBytes_msbByte (g : List Nat) (hg : ∀ b ∈ g, b < 256) :
    decodeBytes (msbByte g) (g.map (fun b => b % 128)) = g := by
  induction g with
  | nil => rfl
  | cons b bs ih =>
    have hb : b < 256 := hg b (List.mem_cons_self _ _)
    have h1 : (b % 256 / 128 + 2 * msbByte bs) % 2 = b / 128 := by omega
    have h2 : (b % 256 / 128 + 2 * msbByte bs) / 2 = msbByte bs := by omega
    simp only [msbByte, List.map_cons, decodeBytes, h1, h2,
      ih (fun x hx => hg x (List.mem_cons_of_mem _ hx))]
    congr 1
    omega

theorem decodeGroup_encodeGroup (g : List Nat) (hg : ∀ b ∈ g, b < 256) :
    decodeGroup (encodeGroup g) = g := by
  simp only [encodeGroup, decodeGroup, decodeBytes_msbByte g hg]

theorem data_to_sysex_short (g : List Nat) (hne : g ≠ []) (hlen : g.length ≤ 7) :
    data_to_sysex g = encodeGroup g := by
  rw [data_to_sysex_ne_nil g hne, List.take_of_length_le hlen, List.drop_of_length_le hlen,
    data_to_sysex_nil, List.append_nil]

theorem decodeInt_four (a b c d : Nat) (ha : a < 256) (hb : b < 256) (hc : c < 256)
    (hd : d < 256) :
    decodeInt (data_to_sysex [a, b, c, d]) = some (((a * 256 + b) * 256 + c) * 256 + d) := by
  rw [data_to_sysex_short _ (by simp) (by simp), decodeInt,
    decodeGroup_encodeGroup _ (by simpa using ⟨ha, hb, hc, hd⟩)]

theorem decodeInt_enc32 (v : Nat) (hv : v < 2 ^ 32) : decodeInt (enc32 v) = some v := by
  rw [enc32, Nat.mod_eq_of_lt hv, encodeInt_input_eq,
    decodeInt_four _ _ _ _ (Nat.mod_lt _ (by norm_num)) (Nat.mod_lt _ (by norm_num))
      (Nat.mod_lt _ (by norm_num)) (Nat.mod_lt _ (by norm_num))]
  congr 1
  omega

/-! ### Integer conversions -/

theorem toUInt32_natCast (k : Nat) : toUInt32 (k : Int) = k % 2 ^ 32 := by
  unfold toUInt32
  omega

theorem toInt32_of_lt (n : Nat) (h : n < 2 ^ 31) : toInt32 (n : Int) = n := by
  unfold toInt32
  omega

theorem toUInt32_toInt32 (n : Nat) : toUInt32 (toInt32 (n : Int)) = n % 2 ^ 32 := by
  unfold toUInt32 toInt32
  omega

theorem enc32_mod (v : Nat) : enc32 (v % 2 ^ 32) = enc32 v := by
  unfold enc32
  rw [Nat.mod_mod]

theorem enc32_toUInt32 (k : Nat) : enc32 (toUInt32 (k : Int)) = enc32 k := by
  rw [toUInt32_natCast, enc32_mod]

/-! ### Effects of `send`, `delay` and `stop` -/

@[simp] theorem send_sent (s : Sender) (d : List Nat) (w : World) :
    (send s d w).sent = w.sent ++ [d] := by
  unfold send
  split <;> split <;> rfl

@[simp] theorem send_checksums (s : Sender) (d : List Nat) (w : World) :
    (send s d w).checksums = w.checksums := by
  unfold send
  split <;> split <;> rfl

@[simp] theorem send_stops (s : Sender) (d : List Nat) (w : World) :
    (send s d w).stops = w.stops := by
  unfold send
  split <;> split <;> rfl

@[simp] theorem delay_sent (s : Sender) (w : World) : (delay s w).sent = w.sent := by
  unfold delay
  split <;> rfl

@[simp] theorem delay_checksums (s : Sender) (w : World) :
    (delay s w).checksums = w.checksums := by
  unfold delay
  split <;> rfl

@[simp] theorem delay_stops (s : Sender) (w : World) : (delay s w).stops = w.stops := by
  unfold delay
  split <;> rfl

@[simp] theorem stop_sent (s : Sender) (w : World) : (stop s w).sent = w.sent := by
  unfold stop
  split <;> rfl

@[simp] theorem stop_checksums (s : Sender) (w : World) :
    (stop s w).checksums = w.checksums := by
  unfold stop
  split <;> rfl

@[simp] theorem stop_stops (s : Sender) (w : World) : (stop s w).stops = w.stops + 1 := by
  unfold stop
  split <;> rfl

/-! ### One iteration of the send loop -/

/-- The loop variables and the world after an iteration that reaches the end
of the image. -/
theorem loopBody_last (hdr : PackageHeader) (crc : List Nat → Nat → Nat) (s : Sender)
    (size : Int) (l : Loop) (w : World)
    (h : l.i + ((l.input.take (binblock s.blockSize).toNat).length : Int) = size) :
    ∃ w', loopBody hdr crc s size l w =
      .next { i := size, packageIndex := l.packageIndex,
              checksum := crc (l.input.take (binblock s.blockSize).toNat) l.checksum,
              block := l.block ++ data_to_sysex (l.input.take (binblock s.blockSize).toNat) ++
                enc32 (crc (l.input.take (binblock s.blockSize).toNat) l.checksum),
              input := l.input.drop (binblock s.blockSize).toNat } w' ∧
      w'.sent = w.sent ++ [l.block ++ data_to_sysex (l.input.take (binblock s.blockSize).toNat) ++
        enc32 (crc (l.input.take (binblock s.blockSize).toNat) l.checksum)] ∧
      w'.checksums = w.checksums ++
        [(w.sent.length, crc (l.input.take (binblock s.blockSize).toNat) l.checksum)] ∧
      w'.stops = w.stops := by
  refine ⟨delay s
    { send s (l.block ++ data_to_sysex (l.input.take (binblock s.blockSize).toNat) ++
        enc32 (crc (l.input.take (binblock s.blockSize).toNat) l.checksum)) w with
      checksums := (send s (l.block ++ data_to_sysex (l.input.take (binblock s.blockSize).toNat) ++
        enc32 (crc (l.input.take (binblock s.blockSize).toNat) l.checksum)) w).checksums ++
        [((send s (l.block ++ data_to_sysex (l.input.take (binblock s.blockSize).toNat) ++
          enc32 (crc (l.input.take (binblock s.blockSize).toNat) l.checksum)) w).sent.length - 1,
          crc (l.input.take (binblock s.blockSize).toNat) l.checksum)] }, ?_, ?_, ?_, ?_⟩
  · simp only [loopBody, read, h, if_true, encodeInt_eq]
  · simp
  · simp
  · simp

/-- The loop variables and the world after an iteration that does not reach
the end of the image. -/
theorem loopBody_more (hdr : PackageHeader) (crc : List Nat → Nat → Nat) (s : Sender)
    (size : Int) (l : Loop) (w : World)
    (h : l.i + ((l.input.take (binblock s.blockSize).toNat).length : Int) ≠ size) :
    ∃ w', loopBody hdr crc s size l w =
      .next { i := l.i + ((l.input.take (binblock s.blockSize).toNat).length : Int),
              packageIndex := l.packageIndex + 1,
              checksum := crc (l.input.take (binblock s.blockSize).toNat) l.checksum,
              block := hdr.bytes ++ enc32 (toUInt32 l.packageIndex),
              input := l.input.drop (binblock s.blockSize).toNat } w' ∧
      w'.sent = w.sent ++ [l.block ++ data_to_sysex (l.input.take (binblock s.blockSize).toNat)] ∧
      w'.checksums = w.checksums ∧
      w'.stops = w.stops := by
  refine ⟨delay s (send s (l.block ++ data_to_sysex (l.input.take (binblock s.blockSize).toNat)) w),
    ?_, ?_, ?_, ?_⟩
  · simp only [loopBody, read, h, if_false, encodeInt_eq]
  · simp
  · simp
  · simp

theorem runLoop_exit (hdr : PackageHeader) (crc : List Nat → Nat → Nat) (s : Sender)
    (size : Int) (running : Nat → Bool) (fuel k : Nat) (l : Loop) (w : World)
    (h : ¬ (l.i < size ∧ running k = true)) :
    runLoop hdr crc s size running fuel k l w = .returned (stop s w) := by
  cases fuel <;> simp only [runLoop, h, if_false]

theorem runLoop_zero (hdr : PackageHeader) (crc : List Nat → Nat → Nat) (s : Sender)
    (size : Int) (running : Nat → Bool) (k : Nat) (l : Loop) (w : World)
    (h : l.i < size ∧ running k = true) :
    runLoop hdr crc s size running 0 k l w = .looping w := by
  simp only [runLoop, h, and_self, if_true]

theorem runLoop_succ (hdr : PackageHeader) (crc : List Nat → Nat → Nat) (s : Sender)
    (size : Int) (running : Nat → Bool) (fuel k : Nat) (l l' : Loop) (w w' : World)
    (h : l.i < size ∧ running k = true)
    (hb : loopBody hdr crc s size l w = .next l' w') :
    runLoop hdr crc s size running (fuel + 1) k l w =
      runLoop hdr crc s size running fuel (k + 1) l' w' := by
  simp only [runLoop, h, and_self, if_true, hb]

/-! ### Framing of every package sent -/

theorem AllFramed.snoc {hdr : PackageHeader} {sent : List (List Nat)} {p : List Nat}
    (h : AllFramed hdr sent) (hp : Framed hdr sent.length p) : AllFramed hdr (sent ++ [p]) := by
  intro k q hk
  by_cases hlt : k < sent.length
  · rw [List.getElem?_append_left hlt] at hk
    exact h k q hk
  · have hge : sent.length ≤ k := Nat.le_of_not_lt hlt
    rw [List.getElem?_append_right hge] at hk
    by_cases hz : k - sent.length = 0
    · have hk' : k = sent.length := by omega
      rw [hz] at hk
      simp only [List.getElem?_cons_zero, Option.some.injEq] at hk
      rw [hk', ← hk]
      exact hp
    · obtain ⟨m, hm⟩ := Nat.exists_eq_succ_of_ne_zero hz
      rw [hm] at hk
      simp at hk

theorem framed_data (hdr : PackageHeader) (k : Nat) (d : List Nat) :
    Framed hdr k (hdr.bytes ++ enc32 k ++ data_to_sysex d) :=
  ⟨data_to_sysex d, rfl, data_to_sysex_lt d⟩

theorem framed_last (hdr : PackageHeader) (k : Nat) (d : List Nat) (c : Nat) :
    Framed hdr k (hdr.bytes ++ enc32 k ++ data_to_sysex d ++ enc32 c) := by
  refine ⟨data_to_sysex d ++ enc32 c, by simp, ?_⟩
  intro x hx
  rcases List.mem_append.mp hx with h | h
  · exact data_to_sysex_lt d x h
  · exact enc32_lt c x h

/-- The send loop keeps every package framed with its position as index, from
any state in which the block under construction carries the next index. -/
theorem runLoop_allFramed (hdr : PackageHeader) (crc : List Nat → Nat → Nat) (s : Sender)
    (size : Int) (running : Nat → Bool) :
    ∀ (fuel k : Nat) (l : Loop) (w : World), AllFramed hdr w.sent →
      l.block = hdr.bytes ++ enc32 w.sent.length →
      l.packageIndex = (w.sent.length : Int) + 1 →
      AllFramed hdr (runLoop hdr crc s size running fuel k l w).world.sent := by
  intro fuel
  induction fuel with
  | zero =>
    intro k l w hw _ _
    by_cases hc : l.i < size ∧ running k = true
    · rw [runLoop_zero _ _ _ _ _ _ _ _ hc]
      exact hw
    · rw [runLoop_exit _ _ _ _ _ _ _ _ _ hc]
      simpa [Outcome.world] using hw
  | succ fuel ih =>
    intro k l w hw hblock hidx
    by_cases hc : l.i < size ∧ running k = true
    · by_cases hlast : l.i + ((l.input.take (binblock s.blockSize).toNat).length : Int) = size
      · obtain ⟨w', hb, hsent, _, _⟩ := loopBody_last hdr crc s size l w hlast
        rw [runLoop_succ _ _ _ _ _ _ _ _ _ _ _ hc hb,
          runLoop_exit _ _ _ _ _ _ _ _ _ (by simp)]
        simp only [Outcome.world, stop_sent, hsent, hblock]
        exact hw.snoc (framed_last hdr _ _ _)
      · obtain ⟨w', hb, hsent, _, _⟩ := loopBody_more hdr crc s size l w hlast
        rw [runLoop_succ _ _ _ _ _ _ _ _ _ _ _ hc hb]
        apply ih
        · rw [hsent, hblock]
          exact hw.snoc (framed_data hdr _ _)
        · simp only [hsent, List.length_append, List.length_singleton, hidx]
          have : ((w.sent.length : Int) + 1) = ((w.sent.length + 1 : Nat) : Int) := by push_cast; rfl
          rw [this, enc32_toUInt32]
        · simp only [hsent, List.length_append, List.length_singleton, hidx]
          push_cast
          rfl
    · rw [runLoop_exit _ _ _ _ _ _ _ _ _ hc]
      simpa [Outcome.world] using hw

/-- The send loop only appends to the list of packages sent. -/
theorem runLoop_sent_prefix (hdr : PackageHeader) (crc : List Nat → Nat → Nat) (s : Sender)
    (size : Int) (running : Nat → Bool) :
    ∀ (fuel k : Nat) (l : Loop) (w : World),
      w.sent <+: (runLoop hdr crc s size running fuel k l w).world.sent := by
  intro fuel
  induction fuel with
  | zero =>
    intro k l w
    by_cases hc : l.i < size ∧ running k = true
    · rw [runLoop_zero _ _ _ _ _ _ _ _ hc]
      exact List.prefix_refl _
    · rw [runLoop_exit _ _ _ _ _ _ _ _ _ hc]
      simp [Outcome.world]
  | succ fuel ih =>
    intro k l w
    by_cases hc : l.i < size ∧ running k = true
    · by_cases hlast : l.i + ((l.input.take (binblock s.blockSize).toNat).length : Int) = size
      · obtain ⟨w', hb, hsent, _, _⟩ := loopBody_last hdr crc s size l w hlast
        rw [runLoop_succ _ _ _ _ _ _ _ _ _ _ _ hc hb]
        exact List.IsPrefix.trans ⟨_, hsent.symm⟩ (ih _ _ _)
      · obtain ⟨w', hb, hsent, _, _⟩ := loopBody_more hdr crc s size l w hlast
        rw [runLoop_succ _ _ _ _ _ _ _ _ _ _ _ hc hb]
        exact List.IsPrefix.trans ⟨_, hsent.symm⟩ (ih _ _ _)
    · rw [runLoop_exit _ _ _ _ _ _ _ _ _ hc]
      simp [Outcome.world]

/-- The method `run()` up to the send loop: the metadata package is sent and
the block of the first data package is started. -/
theorem run_eq (hdr : PackageHeader) (crc : List Nat → Nat → Nat) (s : Sender)
    (image : List Nat) (running : Nat → Bool) (fuel : Nat) :
    run hdr crc s image running fuel =
      runLoop hdr crc s (toInt32 image.length) running fuel 0
        { i := 0, packageIndex := 2, checksum := 0, block := hdr.bytes ++ enc32 1, input := image }
        (send s (metadataPackage hdr image.length) {}) := by
  simp only [run, encodeInt_eq, metadataPackage]
  have h0 : enc32 (toUInt32 0) = enc32 0 := enc32_toUInt32 0
  have h1 : enc32 (toUInt32 (0 + 1)) = enc32 1 := enc32_toUInt32 1
  have hn : enc32 (toUInt32 (toInt32 (image.length : Int))) = enc32 image.length := by
    rw [toUInt32_toInt32, enc32_mod]
  rw [h0, h1, hn]
  rfl

/-- The first package sent is the metadata package. -/
theorem run_sent_head (hdr : PackageHeader) (crc : List Nat → Nat → Nat) (s : Sender)
    (image : List Nat) (running : Nat → Bool) (fuel : Nat) :
    (run hdr crc s image running fuel).world.sent.head?
        = some (hdr.bytes ++ enc32 0 ++ enc32 image.length) := by
  rw [run_eq]
  obtain ⟨t, ht⟩ := runLoop_sent_prefix hdr crc s (toInt32 image.length) running fuel 0
    { i := 0, packageIndex := 2, checksum := 0, block := hdr.bytes ++ enc32 1, input := image }
    (send s (metadataPackage hdr image.length) {})
  rw [← ht]
  simp [metadataPackage]

/-- Every package sent by a run is framed with its position as index. -/
theorem run_allFramed (hdr : PackageHeader) (crc : List Nat → Nat → Nat) (s : Sender)
    (image : List Nat) (running : Nat → Bool) (fuel : Nat) :
    AllFramed hdr (run hdr crc s image running fuel).world.sent := by
  rw [run_eq]
  apply runLoop_allFramed
  · have h0 : AllFramed hdr ([] : List (List Nat)) := by
      intro k p h
      simp at h
    have h1 := h0.snoc (p := metadataPackage hdr image.length)
      ⟨enc32 image.length, rfl, enc32_lt _⟩
    simpa using h1
  · simp
  · simp

/-! ### The complete transfer -/

theorem chunk_succ (image : List Nat) (b j : Nat) :
    chunk image b (j + 1) = (image.drop (j * b)).take b := by
  have h1 : image.take (min ((j + 1) * b) image.length) = image.take ((j + 1) * b) :=
    List.take_eq_take.mpr (by simp)
  have h2 : (j + 1) * b - j * b = b := by rw [Nat.succ_mul]; omega
  rw [chunk, h1, Nat.add_sub_cancel, List.drop_take, h2]

theorem chunk_succ_length (image : List Nat) (b j : Nat) :
    (chunk image b (j + 1)).length = min b (image.length - j * b) := by
  rw [chunk_succ, List.length_take, List.length_drop]

theorem lt_packageCount_iff (n b j : Nat) (hb : 0 < b) : j < packageCount n b ↔ j * b < n := by
  unfold packageCount
  rw [Nat.lt_iff_add_one_le, Nat.le_div_iff_mul_le hb, Nat.succ_mul]
  omega

/-- From the state after `j` iterations, the uncancelled send loop over an
image whose size fits an `int` sends the data packages `j+1 .. m` and stops. -/
theorem runLoop_complete (hdr : PackageHeader) (crc : List Nat → Nat → Nat) (s : Sender)
    (image : List Nat) (B : Nat) (hB : (binblock s.blockSize).toNat = B) (hpos : 0 < B) :
    ∀ (fuel j k : Nat) (l : Loop) (w : World), j * B < image.length →
      l.i = ((j * B : Nat) : Int) → l.input = image.drop (j * B) →
      l.block = hdr.bytes ++ enc32 (j + 1) → l.packageIndex = ((j + 2 : Nat) : Int) →
      l.checksum = checksumAfter crc image B j →
      packageCount image.length B - j ≤ fuel →
      ∃ w', runLoop hdr crc s (image.length : Int) (fun _ => true) fuel k l w = .returned w' ∧
        w'.sent = w.sent ++ (List.range' j (packageCount image.length B - j)).map
          (fun t => dataPackage hdr crc image B (t + 1)) ∧
        w'.checksums = w.checksums ++
          [(w.sent.length + (packageCount image.length B - j) - 1,
            checksumAfter crc image B (packageCount image.length B))] ∧
        w'.stops = w.stops + 1 := by
  intro fuel
  induction fuel with
  | zero =>
    intro j k l w hj _ _ _ _ _ hfuel
    have := (lt_packageCount_iff image.length B j hpos).mpr hj
    omega
  | succ fuel ih =>
    intro j k l w hj hi hin hblock hidx hsum hfuel
    have hjm := (lt_packageCount_iff image.length B j hpos).mpr hj
    have hc : l.i < (image.length : Int) ∧ (fun _ : Nat => true) k = true := by
      refine ⟨?_, rfl⟩
      rw [hi]
      exact_mod_cast hj
    have htake : l.input.take (binblock s.blockSize).toNat = chunk image B (j + 1) := by
      rw [hB, hin, chunk_succ]
    have hdrop : l.input.drop (binblock s.blockSize).toNat = image.drop ((j + 1) * B) := by
      rw [hB, hin, List.drop_drop, Nat.succ_mul]
    have hlen := chunk_succ_length image B j
    by_cases hlast : l.i + ((l.input.take (binblock s.blockSize).toNat).length : Int)
        = (image.length : Int)
    · obtain ⟨w', hb, hsent, hcs, hst⟩ := loopBody_last hdr crc s _ l w hlast
      rw [htake] at hlast hb hsent hcs
      have hend : ¬ (j + 1) * B < image.length := by
        rw [hi, hlen] at hlast
        rw [Nat.succ_mul]
        omega
      have hm : packageCount image.length B = j + 1 := by
        have := (lt_packageCount_iff image.length B (j + 1) hpos).not.mpr hend
        omega
      refine ⟨stop s w', ?_, ?_, ?_, ?_⟩
      · rw [runLoop_succ _ _ _ _ _ _ _ _ _ _ _ hc hb, runLoop_exit _ _ _ _ _ _ _ _ _ (by simp)]
      · rw [stop_sent, hsent, hm, hblock, hsum]
        simp [dataPackage, hm, checksumAfter]
      · rw [stop_checksums, hcs, hm, hsum]
        simp [checksumAfter]
      · rw [stop_stops, hst]
    · obtain ⟨w', hb, hsent, hcs, hst⟩ := loopBody_more hdr crc s _ l w hlast
      rw [htake] at hlast hb hsent
      rw [hdrop] at hb
      have hnext : (j + 1) * B < image.length := by
        rw [hi, hlen] at hlast
        have : j * B + B = (j + 1) * B := by rw [Nat.succ_mul]
        omega
      have hjm' := (lt_packageCount_iff image.length B (j + 1) hpos).mpr hnext
      have hfull : (chunk image B (j + 1)).length = B := by
        rw [hlen]
        have : j * B + B = (j + 1) * B := by rw [Nat.succ_mul]
        omega
      obtain ⟨w'', hrun, hsent', hcs', hst'⟩ := ih (j + 1) (k + 1)
        { i := l.i + ((chunk image B (j + 1)).length : Int), packageIndex := l.packageIndex + 1,
          checksum := crc (chunk image B (j + 1)) l.checksum,
          block := hdr.bytes ++ enc32 (toUInt32 l.packageIndex),
          input := image.drop ((j + 1) * B) } w' hnext
        (by simp only [hi, hfull]; push_cast; ring)
        rfl
        (by simp only [hidx]; rw [enc32_toUInt32])
        (by simp only [hidx]; push_cast; ring)
        (by simp only [hsum, checksumAfter])
        (by omega)
      refine ⟨w'', ?_, ?_, ?_, ?_⟩
      · rw [runLoop_succ _ _ _ _ _ _ _ _ _ _ _ hc hb, hrun]
      · have hsplit : packageCount image.length B - j = (packageCount image.length B - (j + 1)) + 1 := by
          omega
        rw [hsent', hsent, hsplit, List.range'_succ, List.map_cons, hblock, List.append_assoc]
        have hne : j + 1 ≠ packageCount image.length B := by omega
        simp [dataPackage, hne]
      · rw [hcs', hcs, hsent]
        simp only [List.length_append, List.length_singleton]
        congr 3
        omega
      · rw [hst', hst]

theorem packageCount_mul_ge (n b : Nat) (hb : 0 < b) : n ≤ packageCount n b * b := by
  have h := (lt_packageCount_iff n b (packageCount n b) hb).not.mp (lt_irrefl _)
  omega

theorem packageCount_pos (n b : Nat) (hb : 0 < b) (hn : 0 < n) : 0 < packageCount n b :=
  (lt_packageCount_iff n b 0 hb).mpr (by simpa using hn)

theorem chunks_join (image : List Nat) (b : Nat) :
    ∀ m, ((List.range m).map (fun j => chunk image b (j + 1))).flatten = image.take (m * b) := by
  intro m
  induction m with
  | zero => simp
  | succ m ih =>
    rw [List.range_succ, List.map_append, List.flatten_append, ih, List.map_singleton,
      List.flatten_singleton, chunk_succ, Nat.succ_mul, List.take_add]

theorem chunks_join_all (image : List Nat) (b : Nat) (hb : 0 < b) :
    ((List.range (packageCount image.length b)).map (fun j => chunk image b (j + 1))).flatten
      = image := by
  rw [chunks_join, List.take_of_length_le (packageCount_mul_ge _ _ hb)]

theorem chunk_full (image : List Nat) (b j : Nat) (hb : 0 < b) (h1 : 1 ≤ j)
    (hj : j < packageCount image.length b) : (chunk image b j).length = b := by
  obtain ⟨t, rfl⟩ : ∃ t, j = t + 1 := ⟨j - 1, by omega⟩
  have h := (lt_packageCount_iff image.length b (t + 1) hb).mp hj
  rw [Nat.succ_mul] at h
  rw [chunk_succ_length]
  omega

theorem chunk_last (image : List Nat) (b : Nat) (hb : 0 < b) (hn : 0 < image.length) :
    0 < (chunk image b (packageCount image.length b)).length ∧
      (chunk image b (packageCount image.length b)).length ≤ b ∧
      (packageCount image.length b - 1) * b +
        (chunk image b (packageCount image.length b)).length = image.length := by
  have hm := packageCount_pos image.length b hb hn
  obtain ⟨t, ht⟩ : ∃ t, packageCount image.length b = t + 1 :=
    ⟨packageCount image.length b - 1, by omega⟩
  have h1 := (lt_packageCount_iff image.length b t hb).mp (by omega)
  have h2 := packageCount_mul_ge image.length b hb
  rw [ht, Nat.succ_mul] at h2
  rw [ht, chunk_succ_length, Nat.add_sub_cancel]
  omega

theorem checksumAfter_eq_foldl (crc : List Nat → Nat → Nat) (image : List Nat) (b : Nat) :
    ∀ m, checksumAfter crc image b m =
      ((List.range m).map (fun j => chunk image b (j + 1))).foldl (fun acc c => crc c acc) 0 := by
  intro m
  induction m with
  | zero => rfl
  | succ m ih =>
    rw [List.range_succ, List.map_append, List.foldl_append, ← ih]
    rfl

theorem checksumAfter_eq_crc (crc : List Nat → Nat → Nat)
    (hcrc : ∀ a b c, crc (a ++ b) c = crc b (crc a c)) (image : List Nat) (b : Nat) :
    ∀ m, checksumAfter crc image b (m + 1) = crc (image.take ((m + 1) * b)) 0 := by
  intro m
  induction m with
  | zero => simp [checksumAfter, chunk_succ]
  | succ m ih =>
    rw [checksumAfter, ih, chunk_succ, ← hcrc, ← List.take_add, ← Nat.succ_mul]

/-- The uncancelled run over a non-empty image whose size fits an `int`, with a
chunk size of at least 1: with enough fuel it returns, having sent the package
list `packages`, appended one checksum (to the last package) and called
`stop()` once. -/
theorem run_complete (hdr : PackageHeader) (crc : List Nat → Nat → Nat) (s : Sender)
    (image : List Nat) (hne : image ≠ []) (hn : image.length < 2 ^ 31)
    (hb : 1 ≤ binblock s.blockSize) (fuel : Nat)
    (hfuel : packageCount image.length (binblock s.blockSize).toNat ≤ fuel) :
    ∃ w, run hdr crc s image (fun _ => true) fuel = .returned w ∧
      w.sent = packages hdr crc image (binblock s.blockSize).toNat ∧
      w.checksums = [(packageCount image.length (binblock s.blockSize).toNat,
        checksumAfter crc image (binblock s.blockSize).toNat
          (packageCount image.length (binblock s.blockSize).toNat))] ∧
      w.stops = 1 := by
  have hpos : 0 < (binblock s.blockSize).toNat := by omega
  have hlen : 0 < image.length := List.length_pos.mpr hne
  have hm := packageCount_pos image.length _ hpos hlen
  obtain ⟨w, hrun, hsent, hcs, hst⟩ := runLoop_complete hdr crc s image _ rfl hpos fuel 0 0
    { i := 0, packageIndex := 2, checksum := 0, block := hdr.bytes ++ enc32 1, input := image }
    (send s (metadataPackage hdr image.length) {}) (by simpa using hlen) (by simp) (by simp)
    rfl rfl rfl (by simpa using hfuel)
  refine ⟨w, ?_, ?_, ?_, ?_⟩
  · rw [run_eq, toInt32_of_lt _ hn, hrun]
  · rw [hsent, packages, List.range_eq_range']
    simp
  · rw [hcs]
    simp only [send_checksums, send_sent, List.nil_append, List.length_singleton, Nat.sub_zero]
    congr 2
    omega
  · rw [hst]
    simp

/-- An image of 2^31 bytes or more whose size the `int` conversion makes
non-positive: only the metadata package is sent. -/
theorem run_size_nonpos (hdr : PackageHeader) (crc : List Nat → Nat → Nat) (s : Sender)
    (image : List Nat) (running : Nat → Bool) (fuel : Nat)
    (h : toInt32 image.length ≤ 0) :
    run hdr crc s image running fuel =
      .returned (stop s (send s (metadataPackage hdr image.length) {})) := by
  rw [run_eq, runLoop_exit]
  simp only [not_and]
  intro h'
  omega

/-! ### The chunk size and the loop counter -/

/-- While the product `blockSize*7` fits an `int`, `binblock` is the floor of
`blockSize*7/8`. -/
theorem binblock_eq_ediv (blockSize : Int) (h : 0 ≤ blockSize) (hov : blockSize * 7 < 2 ^ 31) :
    binblock blockSize = blockSize * 7 / 8 := by
  have h32 : toInt32 (blockSize * 7) = blockSize * 7 := by
    unfold toInt32
    omega
  unfold binblock
  rw [h32]
  exact Int.tdiv_eq_ediv (by omega) (by norm_num)

/-- A block size whose product with 7 fits an `int` and whose
`floor(blockSize*7/8)` is at least 1: `binblock` is that floor. -/
theorem binblock_of_floor (blockSize : Int) (hov : blockSize * 7 < 2 ^ 31)
    (hb : 1 ≤ blockSize * 7 / 8) :
    binblock blockSize = blockSize * 7 / 8 ∧ 1 ≤ binblock blockSize := by
  have h := binblock_eq_ediv blockSize (by omega) hov
  exact ⟨h, by rw [h]; exact hb⟩

theorem atCheck_zero (hdr : PackageHeader) (crc : List Nat → Nat → Nat) (s : Sender)
    (size : Int) (l : Loop) (w : World) : atCheck hdr crc s size 0 l w = (l, w) := rfl

theorem atCheck_done (hdr : PackageHeader) (crc : List Nat → Nat → Nat) (s : Sender)
    (size : Int) (k : Nat) (l : Loop) (w : World) (h : ¬ l.i < size) :
    atCheck hdr crc s size k l w = (l, w) := by
  cases k with
  | zero => rfl
  | succ k => simp only [atCheck, h, if_false]

theorem atCheck_succ (hdr : PackageHeader) (crc : List Nat → Nat → Nat) (s : Sender)
    (size : Int) (k : Nat) (l l' : Loop) (w w' : World) (h : l.i < size)
    (hb : loopBody hdr crc s size l w = .next l' w') :
    atCheck hdr crc s size (k + 1) l w = atCheck hdr crc s size k l' w' := by
  simp only [atCheck, h, if_true, hb]

/-- The uncancelled send loop with `fuel` iterations of fuel is still looping
when the loop condition holds after `fuel` iterations, and has returned
otherwise. -/
theorem runLoop_atCheck (hdr : PackageHeader) (crc : List Nat → Nat → Nat) (s : Sender)
    (size : Int) :
    ∀ (fuel k : Nat) (l : Loop) (w : World),
      runLoop hdr crc s size (fun _ => true) fuel k l w =
        if (atCheck hdr crc s size fuel l w).1.i < size then
          .looping (atCheck hdr crc s size fuel l w).2
        else
          .returned (stop s (atCheck hdr crc s size fuel l w).2) := by
  intro fuel
  induction fuel with
  | zero =>
    intro k l w
    rw [atCheck_zero]
    by_cases hi : l.i < size
    · rw [runLoop_zero _ _ _ _ _ _ _ _ ⟨hi, rfl⟩, if_pos hi]
    · rw [runLoop_exit _ _ _ _ _ _ _ _ _ (by simp [hi]), if_neg hi]
  | succ fuel ih =>
    intro k l w
    by_cases hi : l.i < size
    · by_cases hlast : l.i + ((l.input.take (binblock s.blockSize).toNat).length : Int) = size
      · obtain ⟨w', hb, _⟩ := loopBody_last hdr crc s size l w hlast
        rw [runLoop_succ _ _ _ _ _ _ _ _ _ _ _ ⟨hi, rfl⟩ hb, atCheck_succ _ _ _ _ _ _ _ _ _ hi hb, ih]
      · obtain ⟨w', hb, _⟩ := loopBody_more hdr crc s size l w hlast
        rw [runLoop_succ _ _ _ _ _ _ _ _ _ _ _ ⟨hi, rfl⟩ hb, atCheck_succ _ _ _ _ _ _ _ _ _ hi hb, ih]
    · rw [runLoop_exit _ _ _ _ _ _ _ _ _ (by simp [hi]), atCheck_done _ _ _ _ _ _ _ hi, if_neg hi]

/-- The counter `i` after `k` iterations, from a state in which `i` counts the
bytes read from an image of `n` bytes. -/
theorem atCheck_i (hdr : PackageHeader) (crc : List Nat → Nat → Nat) (s : Sender) (n : Nat) :
    ∀ (k : Nat) (l : Loop) (w : World), 0 ≤ l.i → l.i + (l.input.length : Int) = n →
      (atCheck hdr crc s n k l w).1.i
        = min (l.i + ((k * (binblock s.blockSize).toNat : Nat) : Int)) n := by
  intro k
  induction k with
  | zero =>
    intro l w h0 hinv
    rw [atCheck_zero]
    simp only [Nat.zero_mul, Nat.cast_zero, add_zero]
    omega
  | succ k ih =>
    intro l w h0 hinv
    have hmul : (((k + 1) * (binblock s.blockSize).toNat : Nat) : Int)
        = ((k * (binblock s.blockSize).toNat : Nat) : Int) + ((binblock s.blockSize).toNat : Int) := by
      rw [Nat.succ_mul]
      push_cast
      rfl
    have hlen : ((l.input.take (binblock s.blockSize).toNat).length : Int)
        = min ((binblock s.blockSize).toNat : Int) (l.input.length : Int) := by
      rw [List.length_take]
      push_cast
      rfl
    by_cases hi : l.i < (n : Int)
    · by_cases hlast : l.i + ((l.input.take (binblock s.blockSize).toNat).length : Int) = (n : Int)
      · obtain ⟨w', hb, _⟩ := loopBody_last hdr crc s n l w hlast
        rw [atCheck_succ _ _ _ _ _ _ _ _ _ hi hb, atCheck_done _ _ _ _ _ _ _ (by simp), hmul]
        simp only
        omega
      · obtain ⟨w', hb, _⟩ := loopBody_more hdr crc s n l w hlast
        rw [atCheck_succ _ _ _ _ _ _ _ _ _ hi hb, ih _ _ (by simp only; omega)
          (by simp only [List.length_drop]; omega), hmul]
        simp only
        omega
    · rw [atCheck_done _ _ _ _ _ _ _ hi, hmul]
      simp only
      omega

/-- With a chunk size of 0 every iteration sends the block as it stands, an
empty-chunk package, and starts the next one; the counter does not move and no
checksum is appended. -/
theorem atCheck_empty (hdr : PackageHeader) (crc : List Nat → Nat → Nat) (s : Sender)
    (size : Int) (hB : (binblock s.blockSize).toNat = 0) :
    ∀ (k p : Nat) (l : Loop) (w : World), l.i < size → l.block = hdr.bytes ++ enc32 p →
      l.packageIndex = ((p + 1 : Nat) : Int) →
      (atCheck hdr crc s size k l w).1.i = l.i ∧
      (atCheck hdr crc s size k l w).2.sent
        = w.sent ++ (List.range' p k).map (fun j => hdr.bytes ++ enc32 j) ∧
      (atCheck hdr crc s size k l w).2.checksums = w.checksums := by
  intro k
  induction k with
  | zero =>
    intro p l w _ _ _
    rw [atCheck_zero]
    simp
  | succ k ih =>
    intro p l w hi hblock hidx
    have hmore : l.i + ((l.input.take (binblock s.blockSize).toNat).length : Int) ≠ size := by
      rw [hB]
      simp only [List.take_zero, List.length_nil, Nat.cast_zero, add_zero]
      omega
    obtain ⟨w', hb, hsent, hcs, _⟩ := loopBody_more hdr crc s size l w hmore
    rw [hB] at hb hsent
    simp only [List.take_zero, List.length_nil, Nat.cast_zero, add_zero,
      data_to_sysex_nil, List.append_nil] at hb hsent
    rw [atCheck_succ _ _ _ _ _ _ _ _ _ hi hb]
    obtain ⟨h1, h2, h3⟩ := ih (p + 1)
      { i := l.i, packageIndex := l.packageIndex + 1, checksum := crc [] l.checksum,
        block := hdr.bytes ++ enc32 (toUInt32 l.packageIndex), input := List.drop 0 l.input }
      w' hi (by simp only [hidx]; rw [enc32_toUInt32]) (by simp only [hidx]; push_cast; ring)
    refine ⟨h1, ?_, by rw [h3, hcs]⟩
    rw [h2, hsent, hblock, List.range'_succ, List.map_cons, List.append_assoc]
    rfl

theorem run_eq_entry (hdr : PackageHeader) (crc : List Nat → Nat → Nat) (s : Sender)
    (image : List Nat) (running : Nat → Bool) (fuel : Nat) :
    run hdr crc s image running fuel =
      runLoop hdr crc s (toInt32 image.length) running fuel 0
        (loopEntry hdr s image).1 (loopEntry hdr s image).2 :=
  run_eq hdr crc s image running fuel

theorem entry_atCheck_i (hdr : PackageHeader) (crc : List Nat → Nat → Nat) (s : Sender)
    (image : List Nat) (hn : image.length < 2 ^ 31) (k : Nat) :
    (atCheck hdr crc s (toInt32 image.length) k (loopEntry hdr s image).1
        (loopEntry hdr s image).2).1.i
      = min (((k * (binblock s.blockSize).toNat : Nat) : Int)) (image.length : Int) := by
  rw [toInt32_of_lt _ hn, atCheck_i hdr crc s image.length k _ _ (by simp [loopEntry])
    (by simp [loopEntry])]
  simp [loopEntry]

/-- With a chunk size of 0 (a `binblock` of 0 or below) the uncancelled run
over a non-empty image of under 2^31 bytes never returns: whatever the fuel it
is still looping, having sent after the metadata package one package
`header ++ enc32 j` with an empty chunk per iteration, and no checksum. -/
theorem run_looping (hdr : PackageHeader) (crc : List Nat → Nat → Nat) (s : Sender)
    (image : List Nat) (hne : image ≠ []) (hn : image.length < 2 ^ 31)
    (hB : (binblock s.blockSize).toNat = 0) (fuel : Nat) :
    (atCheck hdr crc s (toInt32 image.length) fuel (loopEntry hdr s image).1
      (loopEntry hdr s image).2).1.i = 0 ∧
    ∃ w, run hdr crc s image (fun _ => true) fuel = .looping w ∧
      w.sent = metadataPackage hdr image.length ::
        (List.range' 1 fuel).map (fun j => hdr.bytes ++ enc32 j) ∧
      w.checksums = [] := by
  have hsize := toInt32_of_lt _ hn
  have hlen : 0 < image.length := List.length_pos.mpr hne
  obtain ⟨h1, h2, h3⟩ := atCheck_empty hdr crc s (toInt32 image.length) hB fuel 1
    (loopEntry hdr s image).1 (loopEntry hdr s image).2
    (by rw [hsize]; simpa [loopEntry] using hlen) rfl rfl
  have hi : (atCheck hdr crc s (toInt32 image.length) fuel (loopEntry hdr s image).1
      (loopEntry hdr s image).2).1.i = 0 := by rw [h1]; rfl
  refine ⟨hi, (atCheck hdr crc s (toInt32 image.length) fuel (loopEntry hdr s image).1
    (loopEntry hdr s image).2).2, ?_, ?_, ?_⟩
  · rw [run_eq_entry, runLoop_atCheck, if_pos (by rw [hi, hsize]; exact_mod_cast hlen)]
  · rw [h2]
    simp [loopEntry]
  · rw [h3]
    simp [loopEntry]

/-! ### Claims about the package list -/

/-- C1 (amended): for every non-empty image of `n < 2^31` bytes and every
block size whose product `blockSize*7` fits an `int` (`blockSize*7 < 2^31`,
that is `blockSize ≤ 306783378`) with `floor(blockSize*7/8) ≥ 1`, the local
`binblock` of `run()` is `floor(blockSize*7/8)`, and the uncancelled `run()`,
given at least `ceil(n / binblock)` iterations of fuel, returns having sent
exactly the list `packages`: the metadata package
`header ++ enc32 0 ++ enc32 n`, then for `j = 1 .. m` the package
`header ++ enc32 j ++ data_to_sysex (chunk j)`, the last one ending with the
encoded checksum.  The chunks before the last have length `binblock`, the last
is non-empty and no longer, and the chunks concatenated in order are the
image. -/
theorem run_sends_packages (hdr : PackageHeader) (crc : List Nat → Nat → Nat) (s : Sender)
    (image : List Nat) (hne : image ≠ []) (hn : image.length < 2 ^ 31)
    (hov : s.blockSize * 7 < 2 ^ 31) (hb : 1 ≤ s.blockSize * 7 / 8) (fuel : Nat)
    (hfuel : packageCount image.length (binblock s.blockSize).toNat ≤ fuel) :
    binblock s.blockSize = s.blockSize * 7 / 8 ∧
    (∃ w, run hdr crc s image (fun _ => true) fuel = .returned w ∧
      w.sent = packages hdr crc image (binblock s.blockSize).toNat) ∧
    (∀ j, 1 ≤ j → j < packageCount image.length (binblock s.blockSize).toNat →
      (chunk image (binblock s.blockSize).toNat j).length = (binblock s.blockSize).toNat) ∧
    (0 < (chunk image (binblock s.blockSize).toNat
        (packageCount image.length (binblock s.blockSize).toNat)).length ∧
      (chunk image (binblock s.blockSize).toNat
        (packageCount image.length (binblock s.blockSize).toNat)).length
          ≤ (binblock s.blockSize).toNat) ∧
    ((List.range (packageCount image.length (binblock s.blockSize).toNat)).map
      (fun j => chunk image (binblock s.blockSize).toNat (j + 1))).flatten = image := by
  obtain ⟨hbin, hb1⟩ := binblock_of_floor s.blockSize hov hb
  have hpos : 0 < (binblock s.blockSize).toNat := by omega
  have hlen : 0 < image.length := List.length_pos.mpr hne
  obtain ⟨w, hrun, hsent, _, _⟩ := run_complete hdr crc s image hne hn hb1 fuel hfuel
  have hlast := chunk_last image _ hpos hlen
  exact ⟨hbin, ⟨w, hrun, hsent⟩, fun j h1 hj => chunk_full image _ j hpos h1 hj,
    ⟨hlast.1, hlast.2.1⟩, chunks_join_all image _ hpos⟩

/-- Witness of C1: 20 bytes in chunks of 7 (block size 8), with 3 iterations
of fuel. -/
theorem run_sends_packages_witness :
    binblock 8 = 8 * 7 / 8 ∧
    (∃ w, run ⟨0x7d, 0x52, 0x10⟩ crc32 { blockSize := 8 } (List.range 20) (fun _ => true) 3
        = .returned w ∧
      w.sent = packages ⟨0x7d, 0x52, 0x10⟩ crc32 (List.range 20) 7) ∧
    (∀ j, 1 ≤ j → j < 3 → (chunk (List.range 20) 7 j).length = 7) ∧
    (0 < (chunk (List.range 20) 7 3).length ∧ (chunk (List.range 20) 7 3).length ≤ 7) ∧
    ((List.range 3).map (fun j => chunk (List.range 20) 7 (j + 1))).flatten = List.range 20 :=
  run_sends_packages ⟨0x7d, 0x52, 0x10⟩ crc32 { blockSize := 8 } (List.range 20)
    (by decide) (by decide) (by decide) (by decide) 3 (by decide)

/-- An image of exactly 2^31 bytes: whatever the fuel, the run returns after
the metadata package alone. -/
theorem run_two_gib (hdr : PackageHeader) (crc : List Nat → Nat → Nat) (s : Sender)
    (image : List Nat) (hlen : image.length = 2147483648) (running : Nat → Bool) (fuel : Nat) :
    run hdr crc s image running fuel =
      .returned (stop s (send s (metadataPackage hdr image.length) {})) := by
  apply run_size_nonpos
  rw [hlen]
  decide

theorem replicate_two_gib_ne_nil : List.replicate 2147483648 0 ≠ [] := by
  intro h
  have h' := congrArg List.length h
  rw [List.length_replicate] at h'
  exact absurd h' (by decide)

/-- The block size 306783379, the least for which `blockSize*7` does not fit
an `int`: the 32-bit product is negative and so is `binblock`, every read is
empty, and the uncancelled run over a non-empty image never returns. -/
theorem run_overflow_looping (hdr : PackageHeader) (crc : List Nat → Nat → Nat)
    (image : List Nat) (hne : image ≠ []) (hn : image.length < 2 ^ 31) (fuel : Nat) :
    ∃ w, run hdr crc { blockSize := 306783379 } image (fun _ => true) fuel = .looping w ∧
      w.sent = metadataPackage hdr image.length ::
        (List.range' 1 fuel).map (fun j => hdr.bytes ++ enc32 j) ∧
      w.checksums = [] :=
  (run_looping hdr crc { blockSize := 306783379 } image hne hn (by decide) fuel).2

/-- Counterexample to C1 as stated, in two parts.  An image of 2^31 bytes is
non-empty and the default block size gives `binblock ≥ 1`, but its size
becomes negative as an `int`, the send loop is not entered, and the package
list is not sent.  And for the block size 306783379, where
`floor(blockSize*7/8) = 268435456 ≥ 1`, the 32-bit product `blockSize*7` is
negative and `binblock = -268435455`: over a 1-byte image the run never
returns, whatever the fuel, so the package list is not sent either. -/
theorem run_two_gib_image_not_sent :
    (List.replicate 2147483648 0 ≠ [] ∧ 1 ≤ binblock DEFAULT_BLOCK_SIZE ∧
    ¬ ∃ fuel w, run ⟨0x7d, 0x52, 0x10⟩ crc32 {} (List.replicate 2147483648 0)
        (fun _ => true) fuel = .returned w ∧
      w.sent = packages ⟨0x7d, 0x52, 0x10⟩ crc32 (List.replicate 2147483648 0)
        (binblock DEFAULT_BLOCK_SIZE).toNat) ∧
    (([1] : List Nat) ≠ [] ∧ (1 : Int) ≤ 306783379 * 7 / 8 ∧
      binblock 306783379 = -268435455 ∧
      ¬ ∃ fuel w, run ⟨0x7d, 0x52, 0x10⟩ crc32 { blockSize := 306783379 } [1]
        (fun _ => true) fuel = .returned w) := by
  refine ⟨⟨replicate_two_gib_ne_nil, by decide, ?_⟩, by decide, by decide, by decide, ?_⟩
  · rintro ⟨fuel, w, hrun, hsent⟩
    rw [run_two_gib _ _ _ _ (List.length_replicate _ _)] at hrun
    injection hrun with hw
    have hlen := congrArg List.length hsent
    rw [← hw, stop_sent, send_sent, packages, List.length_cons, List.length_map,
      List.length_range, List.length_replicate] at hlen
    have hpos := packageCount_pos 2147483648 (binblock DEFAULT_BLOCK_SIZE).toNat
      (by decide) (by decide)
    have h1 : (([] : List (List Nat)) ++ [metadataPackage ⟨0x7d, 0x52, 0x10⟩ 2147483648]).length = 1 :=
      rfl
    have h0 : ({} : World).sent = [] := rfl
    rw [h0, h1] at hlen
    omega
  · rintro ⟨fuel, w, hrun⟩
    obtain ⟨w', hloop, _⟩ := run_overflow_looping ⟨0x7d, 0x52, 0x10⟩ crc32 [1]
      (by decide) (by decide) fuel
    rw [hloop] at hrun
    cases hrun

/-- C2: whatever the image, the block size, the reads of the `running` flag
and the number of iterations run so far, the package at position `k` of the
packages sent is the header, then the encoded index `k`, then its payload, and
its index field decodes to `k` (as a 32-bit value); the first package is
`header ++ enc32 0 ++ enc32 size`.  So the indices sent are 0, 1, 2, ... in
steps of 1, starting with the metadata package. -/
theorem run_index_sequence (hdr : PackageHeader) (crc : List Nat → Nat → Nat) (s : Sender)
    (image : List Nat) (running : Nat → Bool) (fuel : Nat) :
    (run hdr crc s image running fuel).world.sent.head?
        = some (hdr.bytes ++ enc32 0 ++ enc32 image.length) ∧
    ∀ k p, (run hdr crc s image running fuel).world.sent[k]? = some p →
      (∃ payload, p = hdr.bytes ++ enc32 k ++ payload) ∧
      decodeInt ((p.drop 3).take 5) = some (k % 2 ^ 32) := by
  refine ⟨run_sent_head hdr crc s image running fuel, ?_⟩
  · intro k p hk
    have hall := run_allFramed hdr crc s image running fuel
    obtain ⟨payload, hp, _⟩ := hall k p hk
    refine ⟨⟨payload, hp⟩, ?_⟩
    have hdrop : (p.drop 3).take 5 = enc32 k := by
      rw [hp, List.append_assoc, List.drop_left' (by simp [PackageHeader.bytes]),
        List.take_left' (enc32_length k)]
    rw [hdrop, ← enc32_mod, decodeInt_enc32 _ (Nat.mod_lt _ (by norm_num))]

/-- Witness of C2: a 20-byte image in chunks of 7, cancelled after the first
data package; the package at position 1 carries index 1. -/
theorem run_index_sequence_witness :
    (∃ payload, [125, 82, 16, 0, 0, 0, 0, 1, 0, 0, 1, 2, 3, 4, 5, 6]
      = [0x7d, 0x52, 0x10] ++ enc32 1 ++ payload) ∧
    decodeInt (([125, 82, 16, 0, 0, 0, 0, 1, 0, 0, 1, 2, 3, 4, 5, 6].drop 3).take 5)
      = some (1 % 2 ^ 32) :=
  (run_index_sequence ⟨0x7d, 0x52, 0x10⟩ crc32 { blockSize := 8 } (List.range 20)
    (fun k => decide (k < 1)) 3).2 1 _ (by decide)

/-- The package at position `j ≥ 1` of the list `packages`. -/
theorem packages_getElem (hdr : PackageHeader) (crc : List Nat → Nat → Nat) (image : List Nat)
    (b j : Nat) (h1 : 1 ≤ j) (hj : j ≤ packageCount image.length b) :
    (packages hdr crc image b)[j]? = some (dataPackage hdr crc image b j) := by
  obtain ⟨t, rfl⟩ : ∃ t, j = t + 1 := ⟨j - 1, by omega⟩
  rw [packages, List.getElem?_cons_succ, List.getElem?_map, List.getElem?_range (by omega)]
  rfl

/-- C3 (amended): for every non-empty image of `n < 2^31` bytes and every
block size whose product `blockSize*7` fits an `int` (`blockSize*7 < 2^31`,
that is `blockSize ≤ 306783378`) with `binblock = floor(blockSize*7/8) ≥ 1`,
the uncancelled `run()` returns (given `m = ceil(n / binblock)` iterations of
fuel) having sent `m` data packages after the metadata package.  The data
packages `j < m` are `header ++ enc32 j ++ data_to_sysex (chunk j)` and
nothing more; the package `m`, the last one sent, is
`header ++ enc32 m ++ data_to_sysex (chunk m) ++ enc32 c` with the one
checksum `c` appended in the run; so among the data packages sent, the one at
position `j` is its header, index and packed chunk followed by a 5-byte field
exactly when `j = m`.  The chunk of the last package is non-empty and ends at
the last byte of the image, and when `n = q * binblock` exactly `q` data
packages are sent. -/
theorem run_terminal_package (hdr : PackageHeader) (crc : List Nat → Nat → Nat) (s : Sender)
    (image : List Nat) (hne : image ≠ []) (hn : image.length < 2 ^ 31)
    (hov : s.blockSize * 7 < 2 ^ 31) (hb : 1 ≤ s.blockSize * 7 / 8) (fuel : Nat)
    (hfuel : packageCount image.length (binblock s.blockSize).toNat ≤ fuel) :
    binblock s.blockSize = s.blockSize * 7 / 8 ∧
    ∃ w, run hdr crc s image (fun _ => true) fuel = .returned w ∧
      w.sent.length = 1 + packageCount image.length (binblock s.blockSize).toNat ∧
      w.sent[0]? = some (hdr.bytes ++ enc32 0 ++ enc32 image.length) ∧
      (∀ j, 1 ≤ j → j < packageCount image.length (binblock s.blockSize).toNat →
        w.sent[j]? = some (hdr.bytes ++ enc32 j ++
          data_to_sysex (chunk image (binblock s.blockSize).toNat j))) ∧
      w.checksums.length = 1 ∧
      (∃ c, w.checksums = [(w.sent.length - 1, c)] ∧
        w.sent[packageCount image.length (binblock s.blockSize).toNat]? = some (hdr.bytes ++
          enc32 (packageCount image.length (binblock s.blockSize).toNat) ++
          data_to_sysex (chunk image (binblock s.blockSize).toNat
            (packageCount image.length (binblock s.blockSize).toNat)) ++ enc32 c) ∧
        w.sent.getLast? = some (hdr.bytes ++
          enc32 (packageCount image.length (binblock s.blockSize).toNat) ++
          data_to_sysex (chunk image (binblock s.blockSize).toNat
            (packageCount image.length (binblock s.blockSize).toNat)) ++ enc32 c)) ∧
      (∀ j p, 1 ≤ j → w.sent[j]? = some p →
        ((∃ field : List Nat, field.length = 5 ∧ p = hdr.bytes ++ enc32 j ++
            data_to_sysex (chunk image (binblock s.blockSize).toNat j) ++ field)
          ↔ j = packageCount image.length (binblock s.blockSize).toNat)) ∧
      (0 < (chunk image (binblock s.blockSize).toNat
          (packageCount image.length (binblock s.blockSize).toNat)).length ∧
        (packageCount image.length (binblock s.blockSize).toNat - 1) * (binblock s.blockSize).toNat
          + (chunk image (binblock s.blockSize).toNat
              (packageCount image.length (binblock s.blockSize).toNat)).length = image.length) ∧
      (∀ q, image.length = q * (binblock s.blockSize).toNat → w.sent.length = 1 + q) := by
  obtain ⟨hbin, hb1⟩ := binblock_of_floor s.blockSize hov hb
  refine ⟨hbin, ?_⟩
  have hpos : 0 < (binblock s.blockSize).toNat := by omega
  have hlen : 0 < image.length := List.length_pos.mpr hne
  have hm := packageCount_pos image.length _ hpos hlen
  obtain ⟨w, hrun, hsent, hcs, _⟩ := run_complete hdr crc s image hne hn hb1 fuel hfuel
  have hlast := chunk_last image _ hpos hlen
  have hlength : w.sent.length = 1 + packageCount image.length (binblock s.blockSize).toNat := by
    rw [hsent, packages, List.length_cons, List.length_map, List.length_range, Nat.add_comm]
  have hdata : ∀ j, 1 ≤ j → j < packageCount image.length (binblock s.blockSize).toNat →
      w.sent[j]? = some (hdr.bytes ++ enc32 j ++
        data_to_sysex (chunk image (binblock s.blockSize).toNat j)) := by
    intro j h1 hj
    rw [hsent, packages_getElem hdr crc image _ j h1 (le_of_lt hj), dataPackage,
      if_neg (by omega), List.append_nil]
  have hterm : w.sent[packageCount image.length (binblock s.blockSize).toNat]? = some (hdr.bytes ++
      enc32 (packageCount image.length (binblock s.blockSize).toNat) ++
      data_to_sysex (chunk image (binblock s.blockSize).toNat
        (packageCount image.length (binblock s.blockSize).toNat)) ++
      enc32 (checksumAfter crc image (binblock s.blockSize).toNat
        (packageCount image.length (binblock s.blockSize).toNat))) := by
    rw [hsent, packages_getElem hdr crc image _ _ hm (le_refl _), dataPackage, if_pos rfl]
  refine ⟨w, hrun, hlength, by rw [hsent, packages, List.getElem?_cons_zero, metadataPackage], hdata,
    by rw [hcs]; rfl,
    ⟨checksumAfter crc image (binblock s.blockSize).toNat
      (packageCount image.length (binblock s.blockSize).toNat), ?_, hterm, ?_⟩, ?_,
    ⟨hlast.1, hlast.2.2⟩, ?_⟩
  · rw [hcs, hlength, Nat.add_sub_cancel_left]
  · obtain ⟨t, ht⟩ : ∃ t, packageCount image.length (binblock s.blockSize).toNat = t + 1 :=
      ⟨_, (Nat.succ_pred_eq_of_pos hm).symm⟩
    rw [hsent, packages, ht, List.range_succ, List.map_append, List.map_singleton,
      ← List.cons_append, List.getLast?_concat, dataPackage, ht, if_pos rfl]
  · intro j p h1 hp
    have hjlt : j < w.sent.length := by
      by_contra hge
      rw [List.getElem?_eq_none (by omega)] at hp
      cases hp
    constructor
    · rintro ⟨field, hfield, hpf⟩
      by_contra hjm
      rw [hdata j h1 (by omega)] at hp
      have hl := congrArg List.length (Option.some.inj hp)
      rw [hpf] at hl
      simp only [List.length_append, hfield] at hl
      omega
    · intro hjm
      rw [hjm] at hp ⊢
      rw [hterm] at hp
      exact ⟨_, enc32_length _, (Option.some.inj hp).symm⟩
  · intro q hq
    rw [hlength]
    congr 1
    have h1 := (lt_packageCount_iff image.length _ q hpos).not.mpr (by omega)
    have hq1 : 0 < q := by
      rcases Nat.eq_zero_or_pos q with h | h
      · rw [h, Nat.zero_mul] at hq; omega
      · exact h
    have h2 := (lt_packageCount_iff image.length (binblock s.blockSize).toNat (q - 1) hpos).mpr (by
      rw [hq]
      exact Nat.mul_lt_mul_of_pos_right (by omega) hpos)
    omega

/-- Witness of C3: an image of 14 bytes, twice `binblock = 7` (block size 8),
with two iterations of fuel: two data packages, the second one terminal. -/
theorem run_terminal_package_witness :
    binblock 8 = 8 * 7 / 8 ∧
    ∃ w, run ⟨0x7d, 0x52, 0x10⟩ crc32 { blockSize := 8 } (List.range 14) (fun _ => true) 2
        = .returned w ∧
      w.sent.length = 1 + 2 ∧
      w.sent[0]? = some ([0x7d, 0x52, 0x10] ++ enc32 0 ++ enc32 14) ∧
      (∀ j, 1 ≤ j → j < 2 →
        w.sent[j]? = some ([0x7d, 0x52, 0x10] ++ enc32 j ++
          data_to_sysex (chunk (List.range 14) 7 j))) ∧
      w.checksums.length = 1 ∧
      (∃ c, w.checksums = [(w.sent.length - 1, c)] ∧
        w.sent[2]? = some ([0x7d, 0x52, 0x10] ++ enc32 2 ++
          data_to_sysex (chunk (List.range 14) 7 2) ++ enc32 c) ∧
        w.sent.getLast? = some ([0x7d, 0x52, 0x10] ++ enc32 2 ++
          data_to_sysex (chunk (List.range 14) 7 2) ++ enc32 c)) ∧
      (∀ j p, 1 ≤ j → w.sent[j]? = some p →
        ((∃ field : List Nat, field.length = 5 ∧ p = [0x7d, 0x52, 0x10] ++ enc32 j ++
            data_to_sysex (chunk (List.range 14) 7 j) ++ field) ↔ j = 2)) ∧
      (0 < (chunk (List.range 14) 7 2).length ∧
        (2 - 1) * 7 + (chunk (List.range 14) 7 2).length = 14) ∧
      (∀ q, 14 = q * 7 → w.sent.length = 1 + q) :=
  run_terminal_package ⟨0x7d, 0x52, 0x10⟩ crc32 { blockSize := 8 } (List.range 14)
    (by decide) (by decide) (by decide) (by decide) 2 (by decide)

/-- Counterexample to C3 as stated, in two parts.  For an image of 2^31 bytes
with the default block size the run returns, whatever the fuel, with no
checksum appended to any package and no data package sent, although
`ceil(size / binblock)` is positive.  And for the block size 306783379, where
`floor(blockSize*7/8) = 268435456 ≥ 1`, the 32-bit product `blockSize*7` is
negative and `binblock = -268435455`: over a 1-byte image the run is still
looping after any number of iterations, each of which has sent a package with
an empty chunk, and no package carries a checksum. -/
theorem run_two_gib_image_no_terminal :
    (List.replicate 2147483648 0 ≠ [] ∧ 1 ≤ binblock DEFAULT_BLOCK_SIZE ∧
    0 < packageCount 2147483648 (binblock DEFAULT_BLOCK_SIZE).toNat ∧
    ∃ w, (∀ fuel, run ⟨0x7d, 0x52, 0x10⟩ crc32 {} (List.replicate 2147483648 0)
        (fun _ => true) fuel = .returned w) ∧
      w.checksums = [] ∧ w.sent.length = 1) ∧
    (([1] : List Nat) ≠ [] ∧ (1 : Int) ≤ 306783379 * 7 / 8 ∧
      binblock 306783379 = -268435455 ∧
      ∀ fuel, ∃ w, run ⟨0x7d, 0x52, 0x10⟩ crc32 { blockSize := 306783379 } [1]
          (fun _ => true) fuel = .looping w ∧
        w.sent = ([0x7d, 0x52, 0x10] ++ enc32 0 ++ enc32 1) ::
          (List.range' 1 fuel).map (fun j => [0x7d, 0x52, 0x10] ++ enc32 j) ∧
        w.checksums = []) := by
  refine ⟨⟨replicate_two_gib_ne_nil, by decide, by decide, _, fun fuel =>
    run_two_gib _ _ _ _ (List.length_replicate _ _) _ fuel, ?_, ?_⟩,
    by decide, by decide, by decide, fun fuel =>
      run_overflow_looping ⟨0x7d, 0x52, 0x10⟩ crc32 [1] (by decide) (by decide) fuel⟩
  · rw [stop_checksums, send_checksums]
  · rw [stop_sent, send_sent]
    rfl

/-! ### Claims about the encoding -/

/-- C4: for every 32-bit unsigned value `v`, `encodeInt` renders `v` as the 4
bytes `v / 2^24 % 256, v / 2^16 % 256, v / 2^8 % 256, v % 256`
(most-significant first), their group transform has length 5, so that no
exception is thrown and exactly these 5 bytes are appended to the block;
decoding the 5 bytes gives `v` back, and two 32-bit values with the same
encoding are equal. -/
theorem encodeInt_roundtrip (v : Nat) (hv : v < 2 ^ 32) (block : List Nat) :
    encodeInt.input v = [v / 2 ^ 24 % 256, v / 2 ^ 16 % 256, v / 2 ^ 8 % 256, v % 256] ∧
    (data_to_sysex (encodeInt.input v)).length = 5 ∧
    encodeInt block v = .ok (block ++ data_to_sysex (encodeInt.input v)) ∧
    decodeInt (data_to_sysex (encodeInt.input v)) = some v ∧
    ∀ v' block', v' < 2 ^ 32 → encodeInt block' v' = encodeInt block' v → v' = v := by
  have henc : enc32 v = data_to_sysex (encodeInt.input v) := by
    rw [enc32, Nat.mod_eq_of_lt hv]
  refine ⟨encodeInt_input_eq v, ?_, ?_, ?_, ?_⟩
  · rw [← henc, enc32_length]
  · rw [encodeInt_eq, henc]
  · rw [← henc, decodeInt_enc32 v hv]
  · intro v' block' hv' h
    rw [encodeInt_eq, encodeInt_eq] at h
    have h1 : enc32 v' = enc32 v := List.append_cancel_left (Except.ok.inj h)
    have h2 := decodeInt_enc32 v' hv'
    rw [h1, decodeInt_enc32 v hv] at h2
    exact (Option.some.inj h2).symm

/-- Witness of C4 at `v = 0xDEADBEEF`. -/
theorem encodeInt_roundtrip_witness :
    encodeInt.input 0xDEADBEEF = [0xDEADBEEF / 2 ^ 24 % 256, 0xDEADBEEF / 2 ^ 16 % 256,
      0xDEADBEEF / 2 ^ 8 % 256, 0xDEADBEEF % 256] ∧
    (data_to_sysex (encodeInt.input 0xDEADBEEF)).length = 5 ∧
    encodeInt [0x7d, 0x52, 0x10] 0xDEADBEEF
      = .ok ([0x7d, 0x52, 0x10] ++ data_to_sysex (encodeInt.input 0xDEADBEEF)) ∧
    decodeInt (data_to_sysex (encodeInt.input 0xDEADBEEF)) = some 0xDEADBEEF ∧
    ∀ v' block', v' < 2 ^ 32 → encodeInt block' v' = encodeInt block' 0xDEADBEEF →
      v' = 0xDEADBEEF :=
  encodeInt_roundtrip 0xDEADBEEF (by decide) [0x7d, 0x52, 0x10]

/-- C5: whatever the image, the block size, the reads of the `running` flag
and the number of iterations run, every byte after the 3 header bytes of every
package sent is below 128; hence with header bytes below 128 every byte of
every package is below 128. -/
theorem run_sends_seven_bit (hdr : PackageHeader) (crc : List Nat → Nat → Nat) (s : Sender)
    (image : List Nat) (running : Nat → Bool) (fuel : Nat) :
    ∀ p ∈ (run hdr crc s image running fuel).world.sent,
      (∀ x ∈ p.drop 3, x < 128) ∧ ((∀ x ∈ hdr.bytes, x < 128) → ∀ x ∈ p, x < 128) := by
  intro p hp
  have hall := run_allFramed hdr crc s image running fuel
  obtain ⟨k, hk⟩ := List.getElem?_of_mem hp
  obtain ⟨payload, hpk, hpay⟩ := hall k p hk
  have htail : ∀ x ∈ enc32 k ++ payload, x < 128 := by
    intro x hx
    rcases List.mem_append.mp hx with h | h
    · exact enc32_lt k x h
    · exact hpay x h
  constructor
  · rw [hpk, List.append_assoc, List.drop_left' (by simp [PackageHeader.bytes])]
    exact htail
  · intro hh x hx
    rw [hpk, List.append_assoc] at hx
    rcases List.mem_append.mp hx with h | h
    · exact hh x h
    · exact htail x h

set_option maxRecDepth 4096 in
/-- Witness of C5: the last package of a 20-byte image of bytes `0xF0 ..`
sent in chunks of 7 under a header below 128. -/
theorem run_sends_seven_bit_witness :
    (∀ x ∈ [125, 82, 16, 0, 0, 0, 0, 3, 63, 126, 127, 112, 113, 114, 115, 12, 112, 102, 58,
        106].drop 3, x < 128) ∧
    (∀ x ∈ [125, 82, 16, 0, 0, 0, 0, 3, 63, 126, 127, 112, 113, 114, 115, 12, 112, 102, 58, 106],
      x < 128) :=
  ⟨(run_sends_seven_bit ⟨0x7d, 0x52, 0x10⟩ crc32 { blockSize := 8 }
      ((List.range 20).map (fun x => 0xF0 + x % 16)) (fun _ => true) 3
      [125, 82, 16, 0, 0, 0, 0, 3, 63, 126, 127, 112, 113, 114, 115, 12, 112, 102, 58, 106]
      (by decide)).1,
    (run_sends_seven_bit ⟨0x7d, 0x52, 0x10⟩ crc32 { blockSize := 8 }
      ((List.range 20).map (fun x => 0xF0 + x % 16)) (fun _ => true) 3
      [125, 82, 16, 0, 0, 0, 0, 3, 63, 126, 127, 112, 113, 114, 115, 12, 112, 102, 58, 106]
      (by decide)).2 (by decide)⟩

/-! ### Claims about the checksum -/

/-- The standard CRC-32 continues over concatenation. -/
theorem crc32_append (a b : List Nat) (c : Nat) : crc32 (a ++ b) c = crc32 b (crc32 a c) := by
  have hlt : ∀ (l : List Nat) (r : Nat), r < 2 ^ 32 → l.foldl crc32Byte r < 2 ^ 32 := by
    intro l
    induction l with
    | nil => intro r hr; exact hr
    | cons x xs ih =>
      intro r hr
      apply ih
      have hstep : ∀ c : Nat, c < 2 ^ 32 →
          (if c % 2 = 1 then (c >>> 1) ^^^ 0xEDB88320 else c >>> 1) < 2 ^ 32 := by
        intro c hc
        have h1 : c >>> 1 < 2 ^ 32 := by
          rw [Nat.shiftRight_eq_div_pow]
          omega
        split
        · exact Nat.xor_lt_two_pow h1 (by norm_num)
        · exact h1
      have hx : r ^^^ (x % 256) < 2 ^ 32 :=
        Nat.xor_lt_two_pow hr (lt_trans (Nat.mod_lt _ (by norm_num)) (by norm_num))
      simp only [crc32Byte, Function.iterate_succ, Function.iterate_zero, Function.comp_apply, id]
      exact hstep _ (hstep _ (hstep _ (hstep _ (hstep _ (hstep _ (hstep _ (hstep _ hx)))))))
  have hreg : (c % 2 ^ 32) ^^^ 0xFFFFFFFF < 2 ^ 32 :=
    Nat.xor_lt_two_pow (Nat.mod_lt _ (by norm_num)) (by norm_num)
  have hmid := hlt a _ hreg
  have hout : (a.foldl crc32Byte ((c % 2 ^ 32) ^^^ 0xFFFFFFFF)) ^^^ 0xFFFFFFFF < 2 ^ 32 :=
    Nat.xor_lt_two_pow hmid (by norm_num)
  unfold crc32
  rw [List.foldl_append, Nat.mod_eq_of_lt hout, Nat.xor_assoc, Nat.xor_self, Nat.xor_zero]

/-- C6 (amended): for every non-empty image of under 2^31 bytes and every
block size whose product `blockSize*7` fits an `int` (`blockSize*7 < 2^31`,
that is `blockSize ≤ 306783378`) with `binblock = floor(blockSize*7/8) ≥ 1`,
the uncancelled `run()` returns (given enough fuel) having appended to its
last package the encoding of one checksum, which
is `crc` folded from 0 over the raw chunks in read order, chunks whose
concatenation is the image; a run with other sinks and other fuel but the same
block size appends the same checksum; and if `crc` continues over
concatenation, the checksum is `crc image 0`. -/
theorem run_checksum (hdr : PackageHeader) (crc : List Nat → Nat → Nat) (s : Sender)
    (image : List Nat) (hne : image ≠ []) (hn : image.length < 2 ^ 31)
    (hov : s.blockSize * 7 < 2 ^ 31) (hb : 1 ≤ s.blockSize * 7 / 8) (fuel : Nat)
    (hfuel : packageCount image.length (binblock s.blockSize).toNat ≤ fuel) :
    binblock s.blockSize = s.blockSize * 7 / 8 ∧
    ∃ w c, run hdr crc s image (fun _ => true) fuel = .returned w ∧
      w.checksums = [(w.sent.length - 1, c)] ∧
      w.sent.getLast? = some (hdr.bytes ++
        enc32 (packageCount image.length (binblock s.blockSize).toNat) ++
        data_to_sysex (chunk image (binblock s.blockSize).toNat
          (packageCount image.length (binblock s.blockSize).toNat)) ++ enc32 c) ∧
      c = ((List.range (packageCount image.length (binblock s.blockSize).toNat)).map
        (fun j => chunk image (binblock s.blockSize).toNat (j + 1))).foldl
          (fun acc buffer => crc buffer acc) 0 ∧
      ((List.range (packageCount image.length (binblock s.blockSize).toNat)).map
        (fun j => chunk image (binblock s.blockSize).toNat (j + 1))).flatten = image ∧
      (∀ (s' : Sender) (fuel' : Nat), s'.blockSize = s.blockSize →
        packageCount image.length (binblock s.blockSize).toNat ≤ fuel' →
        ∃ w', run hdr crc s' image (fun _ => true) fuel' = .returned w' ∧
          w'.checksums = w.checksums) ∧
      ((∀ a b acc, crc (a ++ b) acc = crc b (crc a acc)) → c = crc image 0) := by
  obtain ⟨hbin, hb1⟩ := binblock_of_floor s.blockSize hov hb
  refine ⟨hbin, ?_⟩
  have hpos : 0 < (binblock s.blockSize).toNat := by omega
  have hlen : 0 < image.length := List.length_pos.mpr hne
  have hm := packageCount_pos image.length _ hpos hlen
  obtain ⟨w, hrun, hsent, hcs, _⟩ := run_complete hdr crc s image hne hn hb1 fuel hfuel
  have hlength : w.sent.length = 1 + packageCount image.length (binblock s.blockSize).toNat := by
    rw [hsent, packages, List.length_cons, List.length_map, List.length_range, Nat.add_comm]
  obtain ⟨t, ht⟩ : ∃ t, packageCount image.length (binblock s.blockSize).toNat = t + 1 :=
    ⟨_, (Nat.succ_pred_eq_of_pos hm).symm⟩
  refine ⟨w, checksumAfter crc image (binblock s.blockSize).toNat
    (packageCount image.length (binblock s.blockSize).toNat), hrun, ?_, ?_,
    checksumAfter_eq_foldl crc image _ _, chunks_join_all image _ hpos, ?_, ?_⟩
  · rw [hcs, hlength, Nat.add_sub_cancel_left]
  · rw [hsent, packages, ht, List.range_succ, List.map_append, List.map_singleton,
      ← List.cons_append, List.getLast?_concat, dataPackage, ht, if_pos rfl]
  · intro s' fuel' hs' hfuel'
    obtain ⟨w', hrun', _, hcs', _⟩ := run_complete hdr crc s' image hne hn (by rw [hs']; exact hb1)
      fuel' (by rw [hs']; exact hfuel')
    exact ⟨w', hrun', by rw [hcs', hcs, hs']⟩
  · intro hcrc
    rw [ht, checksumAfter_eq_crc crc hcrc image _ t, ← ht,
      List.take_of_length_le (packageCount_mul_ge _ _ hpos)]

/-- Witness of C6: a 20-byte image in chunks of 7, with the standard CRC-32. -/
theorem run_checksum_witness :
    binblock 8 = 8 * 7 / 8 ∧
    ∃ w c, run ⟨0x7d, 0x52, 0x10⟩ crc32 { blockSize := 8 } (List.range 20) (fun _ => true) 3
        = .returned w ∧
      w.checksums = [(w.sent.length - 1, c)] ∧
      w.sent.getLast? = some ([0x7d, 0x52, 0x10] ++ enc32 3 ++
        data_to_sysex (chunk (List.range 20) 7 3) ++ enc32 c) ∧
      c = ((List.range 3).map (fun j => chunk (List.range 20) 7 (j + 1))).foldl
          (fun acc buffer => crc32 buffer acc) 0 ∧
      ((List.range 3).map (fun j => chunk (List.range 20) 7 (j + 1))).flatten = List.range 20 ∧
      (∀ (s' : Sender) (fuel' : Nat), s'.blockSize = 8 → 3 ≤ fuel' →
        ∃ w', run ⟨0x7d, 0x52, 0x10⟩ crc32 s' (List.range 20) (fun _ => true) fuel'
            = .returned w' ∧
          w'.checksums = w.checksums) ∧
      c = crc32 (List.range 20) 0 := by
  obtain ⟨h0, w, c, h1, h2, h3, h4, h5, h6, h7⟩ :=
    run_checksum ⟨0x7d, 0x52, 0x10⟩ crc32 { blockSize := 8 } (List.range 20)
      (by decide) (by decide) (by decide) (by decide) 3 (by decide)
  exact ⟨h0, w, c, h1, h2, h3, h4, h5, h6, h7 crc32_append⟩

/-- Counterexample to C6 as stated, in two parts.  For an image of 2^31 bytes
with the default block size the run returns, whatever the fuel, having sent
the metadata package alone: no package ends with an encoded checksum.  And
for the block size 306783379, where `floor(blockSize*7/8) = 268435456 ≥ 1`,
the 32-bit product `blockSize*7` is negative and `binblock = -268435455`: over
a 1-byte image the run never returns and no checksum is ever appended. -/
theorem run_two_gib_image_no_checksum :
    (List.replicate 2147483648 0 ≠ [] ∧ 1 ≤ binblock DEFAULT_BLOCK_SIZE ∧
    ∃ w, (∀ fuel, run ⟨0x7d, 0x52, 0x10⟩ crc32 {} (List.replicate 2147483648 0)
        (fun _ => true) fuel = .returned w) ∧
      w.sent = [[0x7d, 0x52, 0x10] ++ enc32 0 ++ enc32 2147483648] ∧
      ¬ ∃ c, w.sent.getLast? = some ([0x7d, 0x52, 0x10] ++
        enc32 (packageCount 2147483648 (binblock DEFAULT_BLOCK_SIZE).toNat) ++
        data_to_sysex (chunk (List.replicate 2147483648 0) (binblock DEFAULT_BLOCK_SIZE).toNat
          (packageCount 2147483648 (binblock DEFAULT_BLOCK_SIZE).toNat)) ++ enc32 c)) ∧
    (([1] : List Nat) ≠ [] ∧ (1 : Int) ≤ 306783379 * 7 / 8 ∧
      binblock 306783379 = -268435455 ∧
      ∀ fuel, ∃ w, run ⟨0x7d, 0x52, 0x10⟩ crc32 { blockSize := 306783379 } [1]
          (fun _ => true) fuel = .looping w ∧
        w.checksums = []) := by
  have hsent : (stop {} (send {} (metadataPackage ⟨0x7d, 0x52, 0x10⟩
      (List.replicate 2147483648 0).length) {})).sent
      = [[0x7d, 0x52, 0x10] ++ enc32 0 ++ enc32 2147483648] := by
    rw [stop_sent, send_sent, List.length_replicate]
    rfl
  refine ⟨⟨replicate_two_gib_ne_nil, by decide, _, fun fuel =>
    run_two_gib _ _ _ _ (List.length_replicate _ _) _ fuel, hsent, ?_⟩,
    by decide, by decide, by decide, fun fuel => ?_⟩
  · rw [hsent]
    rintro ⟨c, hc⟩
    rw [List.getLast?_singleton] at hc
    have hlen := congrArg List.length (Option.some.inj hc)
    have hlast := (chunk_last (List.replicate 2147483648 0) (binblock DEFAULT_BLOCK_SIZE).toNat
      (by decide) (by rw [List.length_replicate]; decide)).1
    rw [List.length_replicate] at hlast
    simp only [List.length_append, enc32_length, data_to_sysex_length, List.length_cons,
      List.length_nil] at hlen
    omega
  · obtain ⟨w, hloop, _, hcs⟩ := run_overflow_looping ⟨0x7d, 0x52, 0x10⟩ crc32 [1]
      (by decide) (by decide) fuel
    exact ⟨w, hloop, hcs⟩

/-! ### Chunk sizing -/

/-- C7 (amended): for every block size of at least 8 whose product
`blockSize*7` fits an `int` (`blockSize*7 < 2^31`, that is
`blockSize ≤ 306783378`), the local `binblock` of `run()` is
`floor(blockSize*7/8)` and is the largest chunk length whose packed length
`n + ceil(n/7)` is at most the block size: a chunk of at most `binblock` bytes
packs into at most `blockSize` bytes, a chunk of `binblock + 1` bytes packs
into more, and every chunk that packs into at most `blockSize` bytes has at
most `binblock` bytes. -/
theorem binblock_largest (blockSize : Int) (h : 8 ≤ blockSize) (hov : blockSize * 7 < 2 ^ 31) :
    binblock blockSize = blockSize * 7 / 8 ∧
    (∀ d : List Nat, (data_to_sysex d).length = d.length + (d.length + 6) / 7) ∧
    (∀ d : List Nat, (d.length : Int) ≤ binblock blockSize →
      ((data_to_sysex d).length : Int) ≤ blockSize) ∧
    (∀ d : List Nat, (d.length : Int) = binblock blockSize + 1 →
      blockSize < ((data_to_sysex d).length : Int)) ∧
    (∀ d : List Nat, ((data_to_sysex d).length : Int) ≤ blockSize →
      (d.length : Int) ≤ binblock blockSize) := by
  have hbin := binblock_eq_ediv blockSize (by omega) hov
  refine ⟨hbin, data_to_sysex_length, ?_, ?_, ?_⟩
  · intro d hd
    rw [data_to_sysex_length, hbin] at *
    push_cast
    omega
  · intro d hd
    rw [data_to_sysex_length, hbin] at *
    push_cast
    omega
  · intro d hd
    rw [data_to_sysex_length] at hd
    rw [hbin]
    push_cast at hd
    omega

/-- Witness of C7 at the default block size 242, where `binblock = 211`. -/
theorem binblock_largest_witness :
    binblock 242 = 242 * 7 / 8 ∧
    (∀ d : List Nat, (data_to_sysex d).length = d.length + (d.length + 6) / 7) ∧
    (∀ d : List Nat, (d.length : Int) ≤ binblock 242 →
      ((data_to_sysex d).length : Int) ≤ 242) ∧
    (∀ d : List Nat, (d.length : Int) = binblock 242 + 1 →
      242 < ((data_to_sysex d).length : Int)) ∧
    (∀ d : List Nat, ((data_to_sysex d).length : Int) ≤ 242 →
      (d.length : Int) ≤ binblock 242) :=
  binblock_largest 242 (by decide) (by decide)

/-- Counterexample to C7 as stated: the block size 306783379 is at least 8,
but the 32-bit product `blockSize*7` is negative, so `binblock` is
`-268435455` and not `floor(blockSize*7/8) = 268435456`; it is not the largest
chunk length that packs into the block size, since a chunk of one byte packs
into 2 bytes and is longer than `binblock`. -/
theorem binblock_overflow_not_largest :
    (8 : Int) ≤ 306783379 ∧
    binblock 306783379 = -268435455 ∧
    binblock 306783379 ≠ 306783379 * 7 / 8 ∧
    ((data_to_sysex [0]).length : Int) ≤ 306783379 ∧
    ¬ ((([0] : List Nat).length : Int) ≤ binblock 306783379) := by
  decide

/-! ### The empty image -/

/-- C8 (amended): for an image of 0 bytes, `run()` sends the metadata package
`header ++ enc32 0 ++ enc32 0` and nothing else: the send loop is not entered,
no data package is sent and no checksum is appended; `stop()` is called. -/
theorem run_empty_image (hdr : PackageHeader) (crc : List Nat → Nat → Nat) (s : Sender)
    (running : Nat → Bool) (fuel : Nat) :
    ∃ w, run hdr crc s [] running fuel = .returned w ∧
      w.sent = [hdr.bytes ++ enc32 0 ++ enc32 0] ∧ w.checksums = [] ∧ w.stops = 1 := by
  refine ⟨_, run_size_nonpos hdr crc s [] running fuel (by decide), ?_, ?_, ?_⟩
  · rw [stop_sent, send_sent]
    rfl
  · rw [stop_checksums, send_checksums]
  · rw [stop_stops, send_stops]

/-- Counterexample to C8 as stated: the run over the empty image sends one
package, the metadata package, not two, and appends no checksum. -/
theorem run_empty_image_one_package :
    run ⟨0x7d, 0x52, 0x10⟩ crc32 { fileout := some "firmware.syx", blockDelay := 0 } []
        (fun _ => true) 2
      = .returned
        { sent := [[0x7d, 0x52, 0x10, 0, 0, 0, 0, 0, 0, 0, 0, 0, 0]],
          file := [0xF0, 0x7d, 0x52, 0x10, 0, 0, 0, 0, 0, 0, 0, 0, 0, 0, 0xF7],
          flushed := [0xF0, 0x7d, 0x52, 0x10, 0, 0, 0, 0, 0, 0, 0, 0, 0, 0, 0xF7],
          midi := [], waited := [], checksums := [], stops := 1 } ∧
    (run ⟨0x7d, 0x52, 0x10⟩ crc32 { fileout := some "firmware.syx", blockDelay := 0 } []
        (fun _ => true) 2).world.sent.length ≠ 2 := by
  decide

/-! ### Cancellation -/

theorem configureArgs_nil (env : Env) (s : Sender) (fx : List Effect) :
    configureArgs env [] s fx = .ok s fx := by
  rw [configureArgs]

theorem configureArgs_single (env : Env) (arg : String) (s : Sender) (fx : List Effect) :
    configureArgs env [arg] s fx =
      if arg = "-h" ∨ arg = "--help" then
        .thrown "" s (fx ++ [.usage])
      else if arg = "-q" ∨ arg = "--quiet" then
        .ok { s with verbose := false } fx
      else if arg = "-v" ∨ arg = "--verbose" then
        .ok { s with verbose := true } fx
      else if arg = "-l" ∨ arg = "--list" then
        .thrown "" s (fx ++ [.listDevices])
      else .thrown "" s (fx ++ [.usage]) := by
  simp only [configureArgs]

theorem configureArgs_cons_cons (env : Env) (arg value : String) (rest : List String)
    (s : Sender) (fx : List Effect) :
    configureArgs env (arg :: value :: rest) s fx =
      if arg = "-h" ∨ arg = "--help" then
        .thrown "" s (fx ++ [.usage])
      else if arg = "-q" ∨ arg = "--quiet" then
        configureArgs env (value :: rest) { s with verbose := false } fx
      else if arg = "-v" ∨ arg = "--verbose" then
        configureArgs env (value :: rest) { s with verbose := true } fx
      else if arg = "-l" ∨ arg = "--list" then
        .thrown "" s (fx ++ [.listDevices])
      else configureOption env arg value s fx (configureArgs env rest) := by
  rw [configureArgs]

/-! ### The argument loop, case by case -/

/-- Induction over the argument loop of `configure`: a property of the
arguments, the members, the effects so far and the result holds of
`configureArgs` when it holds at the end of the arguments, at every argument
on which the loop throws, and is carried over every flag and every option with
its value. -/
theorem configureArgs_cases (env : Env)
    (motive : List String → Sender → List Effect → Configured → Prop)
    (hnil : ∀ s fx, motive [] s fx (.ok s fx))
    (hexit : ∀ arg rest s fx e,
      (arg ∈ ["-h", "--help"] ∧ e = Effect.usage) ∨
        (arg ∈ ["-l", "--list"] ∧ e = Effect.listDevices) →
      motive (arg :: rest) s fx (.thrown "" s (fx ++ [e])))
    (hflag : ∀ arg rest (s : Sender) fx b,
      (arg ∈ ["-q", "--quiet"] ∧ b = false) ∨ (arg ∈ ["-v", "--verbose"] ∧ b = true) →
      motive rest { s with verbose := b } fx (configureArgs env rest { s with verbose := b } fx) →
      motive (arg :: rest) s fx (configureArgs env rest { s with verbose := b } fx))
    (hbad : ∀ arg rest s fx,
      arg ∉ ["-h", "--help", "-q", "--quiet", "-v", "--verbose", "-l", "--list"] →
      (rest = [] ∨ arg ∉ ["-d", "-s", "-in", "-out", "-save"]) →
      motive (arg :: rest) s fx (.thrown "" s (fx ++ [.usage])))
    (hnofile : ∀ value rest (s : Sender) fx, env.fileExists value = false →
      motive ("-in" :: value :: rest) s fx
        (.thrown ("No such file: " ++ value) { s with input := some value } fx))
    (hopt : ∀ arg value rest (s s' : Sender) fx gx,
      ((arg = "-d" ∧ s' = { s with blockDelay := env.getIntValue value } ∧ gx = []) ∨
       (arg = "-s" ∧ s' = { s with blockSize := env.getIntValue value - MESSAGE_SIZE } ∧ gx = []) ∨
       (arg = "-in" ∧ env.fileExists value = true ∧ s' = { s with input := some value } ∧
          gx = []) ∨
       (arg = "-out" ∧ openMidiOutput env value = none ∧ s' = { s with midiout := none } ∧
          gx = []) ∨
       (arg = "-out" ∧ ∃ i, openMidiOutput env value = some i ∧
          s' = { s with midiout := some i } ∧ gx = [.startMidi i]) ∨
       (arg = "-save" ∧ s' = { s with fileout := some value } ∧
          gx = [.deleteFile value, .createFile value])) →
      motive rest s' (fx ++ gx) (configureArgs env rest s' (fx ++ gx)) →
      motive (arg :: value :: rest) s fx (configureArgs env rest s' (fx ++ gx))) :
    ∀ args s fx, motive args s fx (configureArgs env args s fx) := by
  suffices h : ∀ (n : Nat) (args : List String), args.length ≤ n →
      ∀ s fx, motive args s fx (configureArgs env args s fx) from
    fun args => h _ args (le_refl _)
  intro n
  induction n using Nat.strong_induction_on with
  | _ n ih =>
    intro args hlen s fx
    match args, hlen with
    | [], _ =>
      rw [configureArgs_nil]
      exact hnil s fx
    | [arg], _ =>
      rw [configureArgs_single]
      split_ifs with h1 h2 h3 h4
      · exact hexit arg [] s fx _ (Or.inl ⟨by simpa using h1, rfl⟩)
      · have := hflag arg [] s fx false (Or.inl ⟨by simpa using h2, rfl⟩)
          (by rw [configureArgs_nil]; exact hnil _ _)
        rwa [configureArgs_nil] at this
      · have := hflag arg [] s fx true (Or.inr ⟨by simpa using h3, rfl⟩)
          (by rw [configureArgs_nil]; exact hnil _ _)
        rwa [configureArgs_nil] at this
      · exact hexit arg [] s fx _ (Or.inr ⟨by simpa using h4, rfl⟩)
      · exact hbad arg [] s fx (by
          simp only [List.mem_cons, List.mem_singleton, List.not_mem_nil, or_false, not_or]
          exact ⟨fun h => h1 (Or.inl h), fun h => h1 (Or.inr h), fun h => h2 (Or.inl h),
            fun h => h2 (Or.inr h), fun h => h3 (Or.inl h), fun h => h3 (Or.inr h),
            fun h => h4 (Or.inl h), fun h => h4 (Or.inr h)⟩) (Or.inl rfl)
    | arg :: value :: rest, hlen =>
      have hn : (value :: rest).length < n := by
        simp only [List.length_cons] at hlen ⊢
        omega
      have hn' : rest.length < n := by
        simp only [List.length_cons] at hlen
        omega
      rw [configureArgs_cons_cons]
      split_ifs with h1 h2 h3 h4
      · exact hexit arg _ s fx _ (Or.inl ⟨by simpa using h1, rfl⟩)
      · exact hflag arg _ s fx false (Or.inl ⟨by simpa using h2, rfl⟩)
          (ih _ hn _ (le_refl _) _ _)
      · exact hflag arg _ s fx true (Or.inr ⟨by simpa using h3, rfl⟩)
          (ih _ hn _ (le_refl _) _ _)
      · exact hexit arg _ s fx _ (Or.inr ⟨by simpa using h4, rfl⟩)
      · have hnot : arg ∉ ["-h", "--help", "-q", "--quiet", "-v", "--verbose", "-l", "--list"] := by
          simp only [List.mem_cons, List.mem_singleton, List.not_mem_nil, or_false, not_or]
          exact ⟨fun h => h1 (Or.inl h), fun h => h1 (Or.inr h), fun h => h2 (Or.inl h),
            fun h => h2 (Or.inr h), fun h => h3 (Or.inl h), fun h => h3 (Or.inr h),
            fun h => h4 (Or.inl h), fun h => h4 (Or.inr h)⟩
        have step : ∀ (s' : Sender) (gx : List Effect), _ →
            motive (arg :: value :: rest) s fx (configureArgs env rest s' (fx ++ gx)) :=
          fun s' gx hstep => hopt arg value rest s s' fx gx hstep (ih _ hn' _ (le_refl _) _ _)
        unfold configureOption
        split_ifs with hd hs hin hex hout hsave
        · have := step _ [] (Or.inl ⟨hd, rfl, rfl⟩)
          rwa [List.append_nil] at this
        · have := step _ [] (Or.inr (Or.inl ⟨hs, rfl, rfl⟩))
          rwa [List.append_nil] at this
        · have := step _ [] (Or.inr (Or.inr (Or.inl ⟨hin, hex, rfl, rfl⟩)))
          rwa [List.append_nil] at this
        · rw [hin]
          exact hnofile value rest s fx (by simpa using hex)
        · split
          · rename_i hnone
            have := step _ [] (Or.inr (Or.inr (Or.inr (Or.inl ⟨hout, hnone, rfl, rfl⟩))))
            rwa [List.append_nil] at this
          · rename_i i hsome
            exact step _ _ (Or.inr (Or.inr (Or.inr (Or.inr (Or.inl ⟨hout, i, hsome, rfl, rfl⟩)))))
        · exact step _ _ (Or.inr (Or.inr (Or.inr (Or.inr (Or.inr ⟨hsave, rfl, rfl⟩)))))
        · exact hbad arg _ s fx hnot (Or.inr (by
            simp only [List.mem_cons, List.mem_singleton, List.not_mem_nil, or_false, not_or]
            exact ⟨hd, hs, hin, hout, hsave⟩))

theorem configureArgs_flag (env : Env) (arg : String) (rest : List String) (s : Sender)
    (fx : List Effect) (b : Bool)
    (h : (arg ∈ ["-q", "--quiet"] ∧ b = false) ∨ (arg ∈ ["-v", "--verbose"] ∧ b = true)) :
    configureArgs env (arg :: rest) s fx = configureArgs env rest { s with verbose := b } fx := by
  simp only [List.mem_cons, List.mem_singleton, List.not_mem_nil, or_false] at h
  rcases h with ⟨h | h, hb⟩ | ⟨h | h, hb⟩ <;> subst h <;> subst hb <;> cases rest <;>
    simp [configureArgs_single, configureArgs_cons_cons, configureArgs_nil]

theorem configureArgs_exit (env : Env) (arg : String) (rest : List String) (s : Sender)
    (fx : List Effect) (h : arg ∈ ["-h", "--help", "-l", "--list"]) :
    ∃ e, configureArgs env (arg :: rest) s fx = .thrown "" s (fx ++ [e]) := by
  simp only [List.mem_cons, List.mem_singleton, List.not_mem_nil, or_false] at h
  rcases h with h | h | h | h <;> subst h <;> cases rest <;>
    simp [configureArgs_single, configureArgs_cons_cons]

theorem configureArgs_last (env : Env) (arg : String) (s : Sender) (fx : List Effect)
    (h : arg ∉ ["-q", "--quiet", "-v", "--verbose"]) :
    ∃ e, configureArgs env [arg] s fx = .thrown "" s (fx ++ [e]) := by
  simp only [List.mem_cons, List.mem_singleton, List.not_mem_nil, or_false, not_or] at h
  rw [configureArgs_single]
  split_ifs with h1 h2 h3 h4
  · exact ⟨_, rfl⟩
  · exact absurd h2 (by simp [h.1, h.2.1])
  · exact absurd h3 (by simp [h.2.2.1, h.2.2.2])
  · exact ⟨_, rfl⟩
  · exact ⟨_, rfl⟩

theorem configureArgs_unknown (env : Env) (arg : String) (rest : List String) (s : Sender)
    (fx : List Effect)
    (h : arg ∉ ["-h", "--help", "-q", "--quiet", "-v", "--verbose", "-l", "--list", "-d", "-s",
      "-in", "-out", "-save"]) :
    configureArgs env (arg :: rest) s fx = .thrown "" s (fx ++ [.usage]) := by
  simp only [List.mem_cons, List.mem_singleton, List.not_mem_nil, or_false, not_or] at h
  obtain ⟨a1, a2, a3, a4, a5, a6, a7, a8, a9, a10, a11, a12, a13⟩ := h
  cases rest with
  | nil => simp [configureArgs_single, a1, a2, a3, a4, a5, a6, a7, a8]
  | cons value rest =>
    simp [configureArgs_cons_cons, configureOption, a1, a2, a3, a4, a5, a6, a7, a8, a9, a10, a11,
      a12, a13]

theorem configureArgs_option (env : Env) (arg value : String) (rest : List String)
    (s s' : Sender) (fx gx : List Effect)
    (h : (arg = "-d" ∧ s' = { s with blockDelay := env.getIntValue value } ∧ gx = []) ∨
       (arg = "-s" ∧ s' = { s with blockSize := env.getIntValue value - MESSAGE_SIZE } ∧ gx = []) ∨
       (arg = "-in" ∧ env.fileExists value = true ∧ s' = { s with input := some value } ∧
          gx = []) ∨
       (arg = "-out" ∧ openMidiOutput env value = none ∧ s' = { s with midiout := none } ∧
          gx = []) ∨
       (arg = "-out" ∧ ∃ i, openMidiOutput env value = some i ∧
          s' = { s with midiout := some i } ∧ gx = [.startMidi i]) ∨
       (arg = "-save" ∧ s' = { s with fileout := some value } ∧
          gx = [.deleteFile value, .createFile value])) :
    configureArgs env (arg :: value :: rest) s fx = configureArgs env rest s' (fx ++ gx) := by
  rcases h with ⟨h, hs, hg⟩ | ⟨h, hs, hg⟩ | ⟨h, hex, hs, hg⟩ | ⟨h, ho, hs, hg⟩ |
    ⟨h, i, ho, hs, hg⟩ | ⟨h, hs, hg⟩ <;> subst h <;> subst hs <;> subst hg <;>
    simp [configureArgs_cons_cons, configureOption, *]

/-- Arguments that the argument loop reads to their end without throwing can
be followed by more arguments, which are then read from the state reached. -/
theorem configureArgs_append (env : Env) (rest : List String) :
    ∀ (pre : List String) (s : Sender) (fx : List Effect) (s1 : Sender) (fx1 : List Effect),
      configureArgs env pre s fx = .ok s1 fx1 →
      configureArgs env (pre ++ rest) s fx = configureArgs env rest s1 fx1 := by
  intro pre s fx
  refine configureArgs_cases env
    (fun pre s fx r => ∀ s1 fx1, r = .ok s1 fx1 →
      configureArgs env (pre ++ rest) s fx = configureArgs env rest s1 fx1)
    ?_ ?_ ?_ ?_ ?_ ?_ pre s fx
  · intro s fx s1 fx1 h
    injection h with h1 h2
    rw [h1, h2, List.nil_append]
  · intro arg tail s fx e _ s1 fx1 h
    cases h
  · intro arg tail s fx b hb ih s1 fx1 h
    rw [List.cons_append, configureArgs_flag env arg _ s fx b hb]
    exact ih s1 fx1 h
  · intro arg tail s fx _ _ s1 fx1 h
    cases h
  · intro value tail s fx _ s1 fx1 h
    cases h
  · intro arg value tail s s' fx gx hstep ih s1 fx1 h
    rw [List.cons_append, List.cons_append, configureArgs_option env arg value _ s s' fx gx hstep]
    exact ih s1 fx1 h

/-- What the argument loop leaves in `blockDelay` and in `input` when it
returns without having read `-d` (respectively `-in`) as an option: the value
it started with.  An argument is read as an option when the arguments before
it are read to their end. -/
theorem configureArgs_unread (env : Env) :
    ∀ (args : List String) (s : Sender) (fx : List Effect) (s' : Sender) (fx' : List Effect),
      configureArgs env args s fx = .ok s' fx' →
      ((∀ pre v post s1 fx1, args = pre ++ "-d" :: v :: post →
          configureArgs env pre s fx ≠ .ok s1 fx1) → s'.blockDelay = s.blockDelay) ∧
      ((∀ pre v post s1 fx1, args = pre ++ "-in" :: v :: post →
          configureArgs env pre s fx ≠ .ok s1 fx1) → s'.input = s.input) := by
  refine configureArgs_cases env
    (fun args s fx r => ∀ (s' : Sender) (fx' : List Effect), r = .ok s' fx' →
      ((∀ pre v post s1 fx1, args = pre ++ "-d" :: v :: post →
          configureArgs env pre s fx ≠ .ok s1 fx1) → s'.blockDelay = s.blockDelay) ∧
      ((∀ pre v post s1 fx1, args = pre ++ "-in" :: v :: post →
          configureArgs env pre s fx ≠ .ok s1 fx1) → s'.input = s.input))
    ?_ ?_ ?_ ?_ ?_ ?_
  · intro s fx s' fx' h
    injection h with h1 _
    rw [← h1]
    exact ⟨fun _ => rfl, fun _ => rfl⟩
  · intro arg rest s fx e _ s' fx' h
    cases h
  · intro arg rest s fx b hb ih s' fx' h
    obtain ⟨h1, h2⟩ := ih s' fx' h
    have transfer : ∀ opt : String,
        (∀ pre v post s1 fx1, arg :: rest = pre ++ opt :: v :: post →
          configureArgs env pre s fx ≠ .ok s1 fx1) →
        ∀ pre v post s1 fx1, rest = pre ++ opt :: v :: post →
          configureArgs env pre { s with verbose := b } fx ≠ .ok s1 fx1 := by
      intro opt H pre v post s1 fx1 hrest hok
      exact H (arg :: pre) v post s1 fx1 (by rw [hrest]; rfl)
        (by rw [configureArgs_flag env arg pre s fx b hb]; exact hok)
    exact ⟨fun H => h1 (transfer _ H), fun H => h2 (transfer _ H)⟩
  · intro arg rest s fx _ _ s' fx' h
    cases h
  · intro value rest s fx _ s' fx' h
    cases h
  · intro arg value rest s t fx gx hstep ih s' fx' h
    obtain ⟨h1, h2⟩ := ih s' fx' h
    have transfer : ∀ opt : String,
        (∀ pre v post s1 fx1, arg :: value :: rest = pre ++ opt :: v :: post →
          configureArgs env pre s fx ≠ .ok s1 fx1) →
        ∀ pre v post s1 fx1, rest = pre ++ opt :: v :: post →
          configureArgs env pre t (fx ++ gx) ≠ .ok s1 fx1 := by
      intro opt H pre v post s1 fx1 hrest hok
      exact H (arg :: value :: pre) v post s1 fx1 (by rw [hrest]; rfl)
        (by rw [configureArgs_option env arg value pre s t fx gx hstep]; exact hok)
    have head : ∀ opt : String, arg = opt →
        ¬ ∀ pre v post s1 fx1, arg :: value :: rest = pre ++ opt :: v :: post →
          configureArgs env pre s fx ≠ .ok s1 fx1 := by
      intro opt ha H
      exact H [] value rest s fx (by rw [ha]; rfl) (configureArgs_nil env s fx)
    rcases hstep with ⟨ha, ht, _⟩ | ⟨_, ht, _⟩ | ⟨ha, _, ht, _⟩ | ⟨_, _, ht, _⟩ |
      ⟨_, i, _, ht, _⟩ | ⟨_, ht, _⟩ <;> subst ht
    · exact ⟨fun H => absurd H (head _ ha), fun H => h2 (transfer _ H)⟩
    · exact ⟨fun H => h1 (transfer _ H), fun H => h2 (transfer _ H)⟩
    · exact ⟨fun H => h1 (transfer _ H), fun H => absurd H (head _ ha)⟩
    · exact ⟨fun H => h1 (transfer _ H), fun H => h2 (transfer _ H)⟩
    · exact ⟨fun H => h1 (transfer _ H), fun H => h2 (transfer _ H)⟩
    · exact ⟨fun H => h1 (transfer _ H), fun H => h2 (transfer _ H)⟩

/-- The last `-d` and the last `-in` that the argument loop reads as an
option, when it returns: `args = pre ++ opt :: v :: post` with `pre` read to
its end, and no longer such `pre`.  The delay left is the integer value of the
argument `v` after the last `-d`; the input left is the argument `v` after the
last `-in`, an existing file. -/
theorem configureArgs_last_read (env : Env) (args pre post : List String) (opt v : String)
    (s s1 s' : Sender) (fx fx1 fx' : List Effect)
    (hargs : args = pre ++ opt :: v :: post)
    (hpre : configureArgs env pre s fx = .ok s1 fx1)
    (hok : configureArgs env args s fx = .ok s' fx')
    (hlast : ∀ pre' v' post' s2 fx2, args = pre' ++ opt :: v' :: post' →
      configureArgs env pre' s fx = .ok s2 fx2 → pre'.length ≤ pre.length) :
    (opt = "-d" → s'.blockDelay = env.getIntValue v) ∧
    (opt = "-in" → s'.input = some v ∧ env.fileExists v = true) := by
  have happ := configureArgs_append env (opt :: v :: post) pre s fx s1 fx1 hpre
  rw [← hargs, hok] at happ
  have hlater : ∀ (t : Sender) (gx : List Effect),
      (∀ pre2, configureArgs env (opt :: v :: pre2) s1 fx1 = configureArgs env pre2 t gx) →
      ∀ pre2 v2 post2 s2 fx2, post = pre2 ++ opt :: v2 :: post2 →
        configureArgs env pre2 t gx ≠ .ok s2 fx2 := by
    intro t gx hstep pre2 v2 post2 s2 fx2 hpost hok2
    have hlen := hlast (pre ++ opt :: v :: pre2) v2 post2 s2 fx2
      (by rw [hargs, hpost]; simp)
      (by rw [configureArgs_append env _ pre s fx s1 fx1 hpre, hstep pre2]; exact hok2)
    simp only [List.length_append, List.length_cons] at hlen
    omega
  constructor
  · intro hd
    subst hd
    have hstep : ∀ pre2, configureArgs env ("-d" :: v :: pre2) s1 fx1
        = configureArgs env pre2 { s1 with blockDelay := env.getIntValue v } fx1 := by
      intro pre2
      rw [configureArgs_option env "-d" v pre2 s1 _ fx1 [] (Or.inl ⟨rfl, rfl, rfl⟩),
        List.append_nil]
    rw [hstep post] at happ
    exact (configureArgs_unread env post _ fx1 s' fx' happ.symm).1 (hlater _ _ hstep)
  · intro hin
    subst hin
    by_cases hex : env.fileExists v = true
    · have hstep : ∀ pre2, configureArgs env ("-in" :: v :: pre2) s1 fx1
          = configureArgs env pre2 { s1 with input := some v } fx1 := by
        intro pre2
        rw [configureArgs_option env "-in" v pre2 s1 _ fx1 []
          (Or.inr (Or.inr (Or.inl ⟨rfl, hex, rfl, rfl⟩))), List.append_nil]
      rw [hstep post] at happ
      exact ⟨(configureArgs_unread env post _ fx1 s' fx' happ.symm).2 (hlater _ _ hstep), hex⟩
    · rw [configureArgs_cons_cons] at happ
      simp [configureOption, hex] at happ

/-- The delay that the argument loop of `configure` leaves: the delay it
started with when no argument is `-d`, and in any case that delay or the
integer value of one of the arguments. -/
theorem configureArgs_blockDelay (env : Env) (n : Nat) :
    ∀ (args : List String) (s : Sender) (fx : List Effect) (s' : Sender) (fx' : List Effect),
      args.length ≤ n → configureArgs env args s fx = .ok s' fx' →
      ("-d" ∉ args → s'.blockDelay = s.blockDelay) ∧
      (s'.blockDelay = s.blockDelay ∨ ∃ v ∈ args, s'.blockDelay = env.getIntValue v) := by
  induction n using Nat.strong_induction_on with
  | _ n ih =>
    intro args s fx s' fx' hlen h
    match args, hlen, h with
    | [], _, h =>
      rw [configureArgs_nil] at h
      injection h with h1 _
      rw [← h1]
      exact ⟨fun _ => rfl, Or.inl rfl⟩
    | [arg], _, h =>
      rw [configureArgs_single] at h
      split_ifs at h <;> injection h with h1 _ <;> rw [← h1] <;>
        exact ⟨fun _ => rfl, Or.inl rfl⟩
    | arg :: value :: rest, hlen, h =>
      have hn : (value :: rest).length < n := by
        simp only [List.length_cons] at hlen ⊢
        omega
      have hn' : rest.length < n := by
        simp only [List.length_cons] at hlen
        omega
      have lift1 : ∀ (t : Sender), configureArgs env (value :: rest) t fx = .ok s' fx' →
          t.blockDelay = s.blockDelay →
          ("-d" ∉ arg :: value :: rest → s'.blockDelay = s.blockDelay) ∧
          (s'.blockDelay = s.blockDelay ∨
            ∃ v ∈ arg :: value :: rest, s'.blockDelay = env.getIntValue v) := by
        intro t h ht
        obtain ⟨h1, h2⟩ := ih _ hn (value :: rest) t fx s' fx' (le_refl _) h
        rw [ht] at h1 h2
        refine ⟨fun hd => h1 (fun hm => hd (List.mem_cons_of_mem _ hm)), ?_⟩
        rcases h2 with h2 | ⟨v, hv, h2⟩
        · exact Or.inl h2
        · exact Or.inr ⟨v, List.mem_cons_of_mem _ hv, h2⟩
      have lift2 : ∀ (t : Sender) (gx : List Effect), configureArgs env rest t gx = .ok s' fx' →
          t.blockDelay = s.blockDelay →
          ("-d" ∉ arg :: value :: rest → s'.blockDelay = s.blockDelay) ∧
          (s'.blockDelay = s.blockDelay ∨
            ∃ v ∈ arg :: value :: rest, s'.blockDelay = env.getIntValue v) := by
        intro t gx h ht
        obtain ⟨h1, h2⟩ := ih _ hn' rest t gx s' fx' (le_refl _) h
        rw [ht] at h1 h2
        refine ⟨fun hd => h1 (fun hm =>
          hd (List.mem_cons_of_mem _ (List.mem_cons_of_mem _ hm))), ?_⟩
        rcases h2 with h2 | ⟨v, hv, h2⟩
        · exact Or.inl h2
        · exact Or.inr ⟨v, List.mem_cons_of_mem _ (List.mem_cons_of_mem _ hv), h2⟩
      rw [configureArgs_cons_cons] at h
      split_ifs at h
      · exact lift1 _ h rfl
      · exact lift1 _ h rfl
      · unfold configureOption at h
        split_ifs at h with hd
        · obtain ⟨_, h2⟩ := ih _ hn' rest _ fx s' fx' (le_refl _) h
          refine ⟨fun hnot => absurd (hd ▸ List.mem_cons_self _ _) hnot, ?_⟩
          rcases h2 with h2 | ⟨v, hv, h2⟩
          · exact Or.inr ⟨value, List.mem_cons_of_mem _ (List.mem_cons_self _ _), h2⟩
          · exact Or.inr ⟨v, List.mem_cons_of_mem _ (List.mem_cons_of_mem _ hv), h2⟩
        · exact lift2 _ _ h rfl
        · exact lift2 _ _ h rfl
        · split at h
          · exact lift2 _ _ h rfl
          · exact lift2 _ _ h rfl
        · exact lift2 _ _ h rfl

/-- C10 (amended): for every argument list that `configure` accepts with no
MIDI output attached, the delay `blockDelay` after `configure` is 0 when the
argument loop read no `-d` as an option (in particular when no argument is
`-d`); and when it read one, with `V` the integer value of the argument after
the last `-d` read, the delay is `V`, unchanged, unless `V` is the default 20,
in which case it is 0.  It is never the default 20.  An argument is read as
an option when the arguments before it are read to their end; the last `-d`
read is the one with the longest such arguments before it. -/
theorem configure_delay_without_midi (env : Env) (args : List String) (s : Sender)
    (fx : List Effect) (h : configure env args = .ok s fx) (hm : s.midiout = none) :
    (∃ s0 fx0, configureArgs env args {} [] = .ok s0 fx0 ∧
      s.blockDelay = (if s0.blockDelay = DEFAULT_BLOCK_DELAY then 0 else s0.blockDelay) ∧
      (s0.blockDelay = DEFAULT_BLOCK_DELAY ∨ ∃ v ∈ args, s0.blockDelay = env.getIntValue v)) ∧
    ("-d" ∉ args → s.blockDelay = 0) ∧
    ((∀ pre v post s1 fx1, args = pre ++ "-d" :: v :: post →
        configureArgs env pre {} [] ≠ .ok s1 fx1) → s.blockDelay = 0) ∧
    (∀ pre v post s1 fx1, args = pre ++ "-d" :: v :: post →
      configureArgs env pre {} [] = .ok s1 fx1 →
      (∀ pre' v' post' s2 fx2, args = pre' ++ "-d" :: v' :: post' →
        configureArgs env pre' {} [] = .ok s2 fx2 → pre'.length ≤ pre.length) →
      s.blockDelay
        = (if env.getIntValue v = DEFAULT_BLOCK_DELAY then 0 else env.getIntValue v)) ∧
    s.blockDelay ≠ DEFAULT_BLOCK_DELAY := by
  unfold configure at h
  split at h
  · cases h
  · rename_i s0 fx0 hargs
    obtain ⟨h1, h2⟩ := configureArgs_blockDelay env _ args {} [] s0 fx0 (le_refl _) hargs
    have hfinal : s.blockDelay
        = (if s0.blockDelay = DEFAULT_BLOCK_DELAY then 0 else s0.blockDelay) := by
      split_ifs at h with hbad hzero
      · injection h with hs _
        rw [← hs, if_pos hzero.2]
      · injection h with hs _
        rw [← hs] at hm ⊢
        rw [if_neg (fun hdef => hzero ⟨hm, hdef⟩)]
    refine ⟨⟨s0, fx0, hargs, hfinal, h2⟩, ?_, ?_, ?_, ?_⟩
    · intro hd
      rw [hfinal, if_pos (h1 hd)]
    · intro hnone
      rw [hfinal, if_pos ((configureArgs_unread env args {} [] s0 fx0 hargs).1 hnone)]
    · intro pre v post s1 fx1 hdec hpre hlast
      rw [hfinal, (configureArgs_last_read env args pre post "-d" v {} s1 s0 [] fx1 fx0 hdec hpre
        hargs hlast).1 rfl]
    · rw [hfinal]
      split_ifs with hdef
      · decide
      · exact hdef

/-- Witness of C10: `-in firmware.bin -save firmware.syx -d 50 -d 70` is
accepted with no MIDI output attached; the last `-d` read is the second one,
and the delay after `configure` is the value 70 of the argument after it. -/
theorem configure_delay_without_midi_witness :
    configure
        ⟨fun _ => true, fun v => if v = "50" then 50 else if v = "70" then 70 else 0, [],
          fun _ _ => false, fun _ => true⟩
        ["-in", "firmware.bin", "-save", "firmware.syx", "-d", "50", "-d", "70"]
      = .ok { fileout := some "firmware.syx", input := some "firmware.bin", blockDelay := 70 }
          [.deleteFile "firmware.syx", .createFile "firmware.syx"] ∧
    (70 : Int) = (if (70 : Int) = DEFAULT_BLOCK_DELAY then 0 else 70) :=
  ⟨by decide,
   (configure_delay_without_midi
    ⟨fun _ => true, fun v => if v = "50" then 50 else if v = "70" then 70 else 0, [],
      fun _ _ => false, fun _ => true⟩
    ["-in", "firmware.bin", "-save", "firmware.syx", "-d", "50", "-d", "70"]
    { fileout := some "firmware.syx", input := some "firmware.bin", blockDelay := 70 }
    [.deleteFile "firmware.syx", .createFile "firmware.syx"] (by decide) rfl).2.2.2.1
    ["-in", "firmware.bin", "-save", "firmware.syx", "-d", "50"] "70" []
    { fileout := some "firmware.syx", input := some "firmware.bin", blockDelay := 50 }
    [.deleteFile "firmware.syx", .createFile "firmware.syx"] rfl (by decide)
    (fun pre' v' post' _ _ hdec _ => by
      have hlen := congrArg List.length hdec
      simp only [List.length_append, List.length_cons, List.length_nil] at hlen ⊢
      omega)⟩

/-- Counterexample to C10 as stated: `-in firmware.bin -save firmware.syx
-d 50` is accepted and attaches no MIDI output, and the delay after
`configure` is 50, not 0. -/
theorem configure_keeps_given_delay :
    configure
        ⟨fun _ => true, fun v => if v = "50" then 50 else 0, [], fun _ _ => false, fun _ => true⟩
        ["-in", "firmware.bin", "-save", "firmware.syx", "-d", "50"]
      = .ok { verbose := true, midiout := none, fileout := some "firmware.syx",
              input := some "firmware.bin", blockDelay := 50, blockSize := 242 }
          [.deleteFile "firmware.syx", .createFile "firmware.syx"] := by
  decide

/-! ### The group transform -/

theorem msbByte_bit (g : List Nat) (hb : ∀ b ∈ g, b < 256) :
    ∀ (i : Nat) (hi : i < g.length), (msbByte g / 2 ^ i) % 2 = g[i] / 128 := by
  induction g with
  | nil => intro i hi; simp at hi
  | cons b bs ih =>
    intro i hi
    have hlt : b < 256 := hb b (List.mem_cons_self _ _)
    cases i with
    | zero =>
      simp only [msbByte, pow_zero, Nat.div_one, List.getElem_cons_zero]
      omega
    | succ i =>
      have hhalf : (b % 256 / 128 + 2 * msbByte bs) / 2 = msbByte bs := by omega
      simp only [msbByte, List.getElem_cons_succ]
      rw [Nat.pow_succ', ← Nat.div_div_eq_div_mul, hhalf]
      exact ih (fun x hx => hb x (List.mem_cons_of_mem _ hx)) i (by simpa using hi)

/-- C13: for every sequence of `k` raw bytes with `1 ≤ k ≤ 7`, the group
transform `data_to_sysex` (the one `run()` and `encodeInt` call) gives `k + 1`
bytes: the MSB byte, whose bit `i` is bit 7 of input byte `i`, followed by the
input bytes with bit 7 cleared; and `decodeGroup` gives the input back. -/
theorem group_transform_invertible (g : List Nat) (h1 : 1 ≤ g.length) (h7 : g.length ≤ 7)
    (hb : ∀ b ∈ g, b < 256) :
    (data_to_sysex g).length = g.length + 1 ∧
    data_to_sysex g = msbByte g :: g.map (fun b => b % 128) ∧
    (∀ (i : Nat) (hi : i < g.length), (msbByte g / 2 ^ i) % 2 = g[i] / 128) ∧
    decodeGroup (data_to_sysex g) = g := by
  have hne : g ≠ [] := List.length_pos.mp h1
  have hshort := data_to_sysex_short g hne h7
  refine ⟨?_, by rw [hshort, encodeGroup], msbByte_bit g hb, ?_⟩
  · rw [hshort, encodeGroup_length]
  · rw [hshort, decodeGroup_encodeGroup g hb]

/-- Witness of C13: a group of 7 bytes with alternating high bits. -/
theorem group_transform_invertible_witness :
    (data_to_sysex [0x80, 0x01, 0xFF, 0x7F, 0xA5, 0x00, 0xC3]).length = 7 + 1 ∧
    data_to_sysex [0x80, 0x01, 0xFF, 0x7F, 0xA5, 0x00, 0xC3]
      = msbByte [0x80, 0x01, 0xFF, 0x7F, 0xA5, 0x00, 0xC3] ::
        [0x80, 0x01, 0xFF, 0x7F, 0xA5, 0x00, 0xC3].map (fun b => b % 128) ∧
    (∀ (i : Nat) (hi : i < [0x80, 0x01, 0xFF, 0x7F, 0xA5, 0x00, 0xC3].length),
      (msbByte [0x80, 0x01, 0xFF, 0x7F, 0xA5, 0x00, 0xC3] / 2 ^ i) % 2
        = [0x80, 0x01, 0xFF, 0x7F, 0xA5, 0x00, 0xC3][i] / 128) ∧
    decodeGroup (data_to_sysex [0x80, 0x01, 0xFF, 0x7F, 0xA5, 0x00, 0xC3])
      = [0x80, 0x01, 0xFF, 0x7F, 0xA5, 0x00, 0xC3] :=
  group_transform_invertible [0x80, 0x01, 0xFF, 0x7F, 0xA5, 0x00, 0xC3] (by decide) (by decide)
    (by decide)

/-! ### The loop counter and termination -/

/-- C16 (amended): with each read returning `min(binblock, remaining)` bytes,
for an image of under 2^31 bytes the counter `i` satisfies `0 ≤ i ≤ size` at
every evaluation of the loop condition, and for a non-empty such image and a
block size of at least 0 whose product `blockSize*7` fits an `int`
(`blockSize*7 < 2^31`, that is `blockSize ≤ 306783378`), `binblock` is
`floor(blockSize*7/8)` and the uncancelled run returns for some fuel if and
only if `binblock ≥ 1`, that is `blockSize ≥ 2`.  With `binblock ≥ 1` the counter
reaches `size` after exactly `m = ceil(size / binblock)` iterations (it is
below `size` after fewer) and the run returns exactly when the fuel is at
least `m`.  With a block size of 0 or 1 every read is empty, the counter stays
0, and for every fuel the run is still looping, having sent after the metadata
package one package `header ++ enc32 j` with an empty chunk per iteration and
no checksum. -/
theorem send_loop_termination (hdr : PackageHeader) (crc : List Nat → Nat → Nat) (s : Sender)
    (image : List Nat) (hn : image.length < 2 ^ 31) :
    (∀ k, 0 ≤ (atCheck hdr crc s (toInt32 image.length) k (loopEntry hdr s image).1
          (loopEntry hdr s image).2).1.i ∧
        (atCheck hdr crc s (toInt32 image.length) k (loopEntry hdr s image).1
          (loopEntry hdr s image).2).1.i ≤ toInt32 image.length) ∧
    (image ≠ [] → 0 ≤ s.blockSize → s.blockSize * 7 < 2 ^ 31 →
    binblock s.blockSize = s.blockSize * 7 / 8 ∧
    ((∃ fuel w, run hdr crc s image (fun _ => true) fuel = .returned w)
      ↔ 1 ≤ binblock s.blockSize) ∧
    (1 ≤ binblock s.blockSize ↔ 2 ≤ s.blockSize) ∧
    (1 ≤ binblock s.blockSize →
      (atCheck hdr crc s (toInt32 image.length)
          (packageCount image.length (binblock s.blockSize).toNat) (loopEntry hdr s image).1
          (loopEntry hdr s image).2).1.i = image.length ∧
      (∀ k, k < packageCount image.length (binblock s.blockSize).toNat →
        (atCheck hdr crc s (toInt32 image.length) k (loopEntry hdr s image).1
          (loopEntry hdr s image).2).1.i < image.length) ∧
      (∀ fuel, (∃ w, run hdr crc s image (fun _ => true) fuel = .returned w)
        ↔ packageCount image.length (binblock s.blockSize).toNat ≤ fuel)) ∧
    (s.blockSize ≤ 1 →
      (∀ stream, (read stream (binblock s.blockSize)).1 = []) ∧
      ∀ fuel,
        (atCheck hdr crc s (toInt32 image.length) fuel (loopEntry hdr s image).1
          (loopEntry hdr s image).2).1.i = 0 ∧
        ∃ w, run hdr crc s image (fun _ => true) fuel = .looping w ∧
          w.sent = metadataPackage hdr image.length ::
            (List.range' 1 fuel).map (fun j => hdr.bytes ++ enc32 j) ∧
          w.checksums = [])) := by
  have hsize := toInt32_of_lt _ hn
  have hi := entry_atCheck_i hdr crc s image hn
  refine ⟨fun k => by rw [hi k, hsize]; omega, fun hne hbs hov => ?_⟩
  have hlen : 0 < image.length := List.length_pos.mpr hne
  have hbin := binblock_eq_ediv s.blockSize hbs hov
  -- the run in terms of the counter
  have hrun : ∀ fuel, run hdr crc s image (fun _ => true) fuel =
      if ((fuel * (binblock s.blockSize).toNat : Nat) : Int) < (image.length : Int) then
        .looping (atCheck hdr crc s (toInt32 image.length) fuel (loopEntry hdr s image).1
          (loopEntry hdr s image).2).2
      else
        .returned (stop s (atCheck hdr crc s (toInt32 image.length) fuel
          (loopEntry hdr s image).1 (loopEntry hdr s image).2).2) := by
    intro fuel
    rw [run_eq_entry, runLoop_atCheck, hi fuel, hsize]
    by_cases h : ((fuel * (binblock s.blockSize).toNat : Nat) : Int) < (image.length : Int)
    · rw [if_pos h, if_pos (by omega)]
    · rw [if_neg h, if_neg (by omega)]
  have hzero : binblock s.blockSize ≤ 0 → ∀ fuel,
      ((fuel * (binblock s.blockSize).toNat : Nat) : Int) < (image.length : Int) := by
    intro hb fuel
    have : (binblock s.blockSize).toNat = 0 := by omega
    rw [this, Nat.mul_zero]
    exact_mod_cast hlen
  refine ⟨hbin, ?_, ?_, ?_, ?_⟩
  · constructor
    · rintro ⟨fuel, w, hw⟩
      by_contra hb
      rw [hrun fuel, if_pos (hzero (by omega) fuel)] at hw
      cases hw
    · intro hb
      obtain ⟨w, hw, _⟩ := run_complete hdr crc s image hne hn hb _ (le_refl _)
      exact ⟨_, w, hw⟩
  · rw [hbin]
    omega
  · intro hb
    have hpos : 0 < (binblock s.blockSize).toNat := by omega
    have hcount : ∀ k, ((k * (binblock s.blockSize).toNat : Nat) : Int) < (image.length : Int)
        ↔ k < packageCount image.length (binblock s.blockSize).toNat := by
      intro k
      rw [lt_packageCount_iff _ _ _ hpos]
      exact Nat.cast_lt
    refine ⟨?_, ?_, ?_⟩
    · rw [hi]
      have := (hcount (packageCount image.length (binblock s.blockSize).toNat)).not.mpr
        (lt_irrefl _)
      omega
    · intro k hk
      rw [hi]
      have := (hcount k).mpr hk
      omega
    · intro fuel
      rw [hrun fuel]
      by_cases h : ((fuel * (binblock s.blockSize).toNat : Nat) : Int) < (image.length : Int)
      · rw [if_pos h]
        have := (hcount fuel).mp h
        constructor
        · rintro ⟨w, hw⟩
          cases hw
        · intro hle
          omega
      · rw [if_neg h]
        have := (hcount fuel).not.mp h
        exact ⟨fun _ => by omega, fun _ => ⟨_, rfl⟩⟩
  · intro hsmall
    have hb0 : binblock s.blockSize ≤ 0 := by
      rw [hbin]
      omega
    have hB : (binblock s.blockSize).toNat = 0 := by omega
    refine ⟨fun stream => by simp [read, hB], fun fuel => ?_⟩
    obtain ⟨h1, h2, h3⟩ := atCheck_empty hdr crc s (toInt32 image.length) hB fuel 1
      (loopEntry hdr s image).1 (loopEntry hdr s image).2
      (by rw [hsize]; simpa [loopEntry] using hlen) rfl rfl
    refine ⟨by rw [h1]; rfl, _, by rw [hrun fuel, if_pos (hzero hb0 fuel)], ?_, ?_⟩
    · rw [h2]
      simp [loopEntry]
    · rw [h3]
      simp [loopEntry]

/-- Witness of C16: a 20-byte image with block size 8 (`binblock = 7`, 3
iterations). -/
theorem send_loop_termination_witness :
    (∀ k, 0 ≤ (atCheck ⟨0x7d, 0x52, 0x10⟩ crc32 { blockSize := 8 } (toInt32 20) k
          (loopEntry ⟨0x7d, 0x52, 0x10⟩ { blockSize := 8 } (List.range 20)).1
          (loopEntry ⟨0x7d, 0x52, 0x10⟩ { blockSize := 8 } (List.range 20)).2).1.i ∧
        (atCheck ⟨0x7d, 0x52, 0x10⟩ crc32 { blockSize := 8 } (toInt32 20) k
          (loopEntry ⟨0x7d, 0x52, 0x10⟩ { blockSize := 8 } (List.range 20)).1
          (loopEntry ⟨0x7d, 0x52, 0x10⟩ { blockSize := 8 } (List.range 20)).2).1.i
            ≤ toInt32 20) ∧
    binblock 8 = 8 * 7 / 8 ∧
    ((∃ fuel w, run ⟨0x7d, 0x52, 0x10⟩ crc32 { blockSize := 8 } (List.range 20)
        (fun _ => true) fuel = .returned w) ↔ 1 ≤ binblock 8) ∧
    (1 ≤ binblock 8 ↔ 2 ≤ (8 : Int)) ∧
    (1 ≤ binblock 8 →
      (atCheck ⟨0x7d, 0x52, 0x10⟩ crc32 { blockSize := 8 } (toInt32 20) 3
          (loopEntry ⟨0x7d, 0x52, 0x10⟩ { blockSize := 8 } (List.range 20)).1
          (loopEntry ⟨0x7d, 0x52, 0x10⟩ { blockSize := 8 } (List.range 20)).2).1.i = 20 ∧
      (∀ k, k < 3 →
        (atCheck ⟨0x7d, 0x52, 0x10⟩ crc32 { blockSize := 8 } (toInt32 20) k
          (loopEntry ⟨0x7d, 0x52, 0x10⟩ { blockSize := 8 } (List.range 20)).1
          (loopEntry ⟨0x7d, 0x52, 0x10⟩ { blockSize := 8 } (List.range 20)).2).1.i < 20) ∧
      (∀ fuel, (∃ w, run ⟨0x7d, 0x52, 0x10⟩ crc32 { blockSize := 8 } (List.range 20)
          (fun _ => true) fuel = .returned w) ↔ 3 ≤ fuel)) ∧
    ((8 : Int) ≤ 1 →
      (∀ stream, (read stream (binblock 8)).1 = []) ∧
      ∀ fuel,
        (atCheck ⟨0x7d, 0x52, 0x10⟩ crc32 { blockSize := 8 } (toInt32 20) fuel
          (loopEntry ⟨0x7d, 0x52, 0x10⟩ { blockSize := 8 } (List.range 20)).1
          (loopEntry ⟨0x7d, 0x52, 0x10⟩ { blockSize := 8 } (List.range 20)).2).1.i = 0 ∧
        ∃ w, run ⟨0x7d, 0x52, 0x10⟩ crc32 { blockSize := 8 } (List.range 20)
            (fun _ => true) fuel = .looping w ∧
          w.sent = metadataPackage ⟨0x7d, 0x52, 0x10⟩ 20 ::
            (List.range' 1 fuel).map (fun j => [0x7d, 0x52, 0x10] ++ enc32 j) ∧
          w.checksums = []) :=
  ⟨(send_loop_termination ⟨0x7d, 0x52, 0x10⟩ crc32 { blockSize := 8 } (List.range 20)
      (by decide)).1,
    (send_loop_termination ⟨0x7d, 0x52, 0x10⟩ crc32 { blockSize := 8 } (List.range 20)
      (by decide)).2 (by decide) (by decide) (by decide)⟩

/-- Counterexample to C16 as stated, in two parts.  An image of 2^31 bytes is
non-empty and the block size 0 is at least 0 with `binblock = 0`, yet the run
returns, whatever the fuel: the size is negative as an `int`, so the loop
condition fails at the first evaluation, where `i = 0` is above the size.  And
the block size 306783379 is at least 2 with `floor(blockSize*7/8) ≥ 1`, yet
over a 1-byte image the run never returns: the 32-bit product `blockSize*7`
is negative, `binblock = -268435455`, every read is empty and the counter
stays 0. -/
theorem run_two_gib_image_returns :
    (List.replicate 2147483648 0 ≠ [] ∧ binblock 0 = 0 ∧
    (∃ w, ∀ fuel, run ⟨0x7d, 0x52, 0x10⟩ crc32 { blockSize := 0 }
      (List.replicate 2147483648 0) (fun _ => true) fuel = .returned w) ∧
    ¬ (atCheck ⟨0x7d, 0x52, 0x10⟩ crc32 { blockSize := 0 }
        (toInt32 (List.replicate 2147483648 0).length) 0
        (loopEntry ⟨0x7d, 0x52, 0x10⟩ { blockSize := 0 } (List.replicate 2147483648 0)).1
        (loopEntry ⟨0x7d, 0x52, 0x10⟩ { blockSize := 0 } (List.replicate 2147483648 0)).2).1.i
      ≤ toInt32 (List.replicate 2147483648 0).length) ∧
    (([1] : List Nat) ≠ [] ∧ (2 : Int) ≤ 306783379 ∧ (1 : Int) ≤ 306783379 * 7 / 8 ∧
      binblock 306783379 = -268435455 ∧
      ∀ fuel,
        (atCheck ⟨0x7d, 0x52, 0x10⟩ crc32 { blockSize := 306783379 } (toInt32 1) fuel
          (loopEntry ⟨0x7d, 0x52, 0x10⟩ { blockSize := 306783379 } [1]).1
          (loopEntry ⟨0x7d, 0x52, 0x10⟩ { blockSize := 306783379 } [1]).2).1.i = 0 ∧
        ∃ w, run ⟨0x7d, 0x52, 0x10⟩ crc32 { blockSize := 306783379 } [1]
          (fun _ => true) fuel = .looping w) := by
  refine ⟨⟨replicate_two_gib_ne_nil, by decide, ⟨_, fun fuel =>
    run_two_gib _ _ _ _ (List.length_replicate _ _) _ fuel⟩, ?_⟩,
    by decide, by decide, by decide, by decide, fun fuel => ?_⟩
  · rw [atCheck_zero, List.length_replicate]
    decide
  · obtain ⟨hi, w, hloop, _⟩ := run_looping ⟨0x7d, 0x52, 0x10⟩ crc32
      { blockSize := 306783379 } [1] (by decide) (by decide) (by decide) fuel
    exact ⟨hi, w, hloop⟩

/-! ### The file sink -/

/-- A property of the world that `send`, `delay` and the record of a checksum
keep is kept by an iteration of the send loop. -/
theorem loopBody_preserves (hdr : PackageHeader) (crc : List Nat → Nat → Nat) (s : Sender)
    (size : Int) (P : World → Prop) (hsend : ∀ d w, P w → P (send s d w))
    (hdelay : ∀ w, P w → P (delay s w))
    (hmark : ∀ (w : World) cs, P w → P { w with checksums := cs })
    (l l' : Loop) (w w' : World) (hw : P w)
    (hb : loopBody hdr crc s size l w = .next l' w') : P w' := by
  by_cases hlast : l.i + ((l.input.take (binblock s.blockSize).toNat).length : Int) = size
  · simp only [loopBody, read, hlast, if_true, encodeInt_eq] at hb
    injection hb with _ hw'
    rw [← hw']
    exact hdelay _ (hmark _ _ (hsend _ _ hw))
  · simp only [loopBody, read, hlast, if_false, encodeInt_eq] at hb
    injection hb with _ hw'
    rw [← hw']
    exact hdelay _ (hsend _ _ hw)

/-- Such a property, kept by `stop` as well, holds of the world a run leaves,
however far the run got. -/
theorem runLoop_preserves (hdr : PackageHeader) (crc : List Nat → Nat → Nat) (s : Sender)
    (size : Int) (running : Nat → Bool) (P : World → Prop)
    (hsend : ∀ d w, P w → P (send s d w)) (hdelay : ∀ w, P w → P (delay s w))
    (hmark : ∀ (w : World) cs, P w → P { w with checksums := cs })
    (hstop : ∀ w, P w → P (stop s w)) :
    ∀ (fuel k : Nat) (l : Loop) (w : World), P w →
      P (runLoop hdr crc s size running fuel k l w).world := by
  intro fuel
  induction fuel with
  | zero =>
    intro k l w hw
    by_cases hc : l.i < size ∧ running k = true
    · rw [runLoop_zero _ _ _ _ _ _ _ _ hc]
      exact hw
    · rw [runLoop_exit _ _ _ _ _ _ _ _ _ hc]
      exact hstop _ hw
  | succ fuel ih =>
    intro k l w hw
    by_cases hc : l.i < size ∧ running k = true
    · by_cases hlast : l.i + ((l.input.take (binblock s.blockSize).toNat).length : Int) = size
      · obtain ⟨w', hb, _⟩ := loopBody_last hdr crc s size l w hlast
        rw [runLoop_succ _ _ _ _ _ _ _ _ _ _ _ hc hb]
        exact ih _ _ _ (loopBody_preserves hdr crc s size P hsend hdelay hmark _ _ _ _ hw hb)
      · obtain ⟨w', hb, _⟩ := loopBody_more hdr crc s size l w hlast
        rw [runLoop_succ _ _ _ _ _ _ _ _ _ _ _ hc hb]
        exact ih _ _ _ (loopBody_preserves hdr crc s size P hsend hdelay hmark _ _ _ _ hw hb)
    · rw [runLoop_exit _ _ _ _ _ _ _ _ _ hc]
      exact hstop _ hw

theorem send_file (s : Sender) (hfile : s.fileout.isSome = true) (d : List Nat) (w : World) :
    (send s d w).file = w.file ++ [0xF0] ++ d ++ [0xF7] ∧
      (send s d w).flushed = (send s d w).file := by
  unfold send
  simp only [hfile, if_true]
  split <;> exact ⟨rfl, rfl⟩

/-- With a file sink attached, the file holds the packages sent, each between
`0xF0` and `0xF7`, and all of it is flushed. -/
theorem run_file (hdr : PackageHeader) (crc : List Nat → Nat → Nat) (s : Sender)
    (hfile : s.fileout.isSome = true) (image : List Nat) (running : Nat → Bool) (fuel : Nat) :
    (run hdr crc s image running fuel).world.file
        = ((run hdr crc s image running fuel).world.sent.map
            (fun p => [0xF0] ++ p ++ [0xF7])).flatten ∧
      (run hdr crc s image running fuel).world.flushed
        = (run hdr crc s image running fuel).world.file := by
  rw [run_eq]
  apply runLoop_preserves hdr crc s _ running
    (fun w => w.file = (w.sent.map (fun p => [0xF0] ++ p ++ [0xF7])).flatten ∧
      w.flushed = w.file)
  · intro d w hw
    obtain ⟨h1, h2⟩ := send_file s hfile d w
    refine ⟨?_, h2⟩
    rw [h1, send_sent, hw.1]
    simp
  · intro w hw
    unfold delay
    split <;> exact hw
  · intro w cs hw
    exact hw
  · intro w hw
    unfold stop
    rw [if_pos hfile]
    exact ⟨hw.1, rfl⟩
  · obtain ⟨h1, h2⟩ := send_file s hfile (metadataPackage hdr image.length) {}
    refine ⟨?_, h2⟩
    rw [h1, send_sent]
    rfl

/-- The packages sent depend on the sender through its block size alone. -/
theorem runLoop_sent_congr (hdr : PackageHeader) (crc : List Nat → Nat → Nat) (s s' : Sender)
    (hbs : s'.blockSize = s.blockSize) (size : Int) (running : Nat → Bool) :
    ∀ (fuel k : Nat) (l : Loop) (w w' : World), w'.sent = w.sent →
      (runLoop hdr crc s' size running fuel k l w').world.sent
        = (runLoop hdr crc s size running fuel k l w).world.sent := by
  intro fuel
  induction fuel with
  | zero =>
    intro k l w w' hw
    by_cases hc : l.i < size ∧ running k = true
    · rw [runLoop_zero _ _ _ _ _ _ _ _ hc, runLoop_zero _ _ _ _ _ _ _ _ hc]
      exact hw
    · rw [runLoop_exit _ _ _ _ _ _ _ _ _ hc, runLoop_exit _ _ _ _ _ _ _ _ _ hc]
      simpa [Outcome.world] using hw
  | succ fuel ih =>
    intro k l w w' hw
    by_cases hc : l.i < size ∧ running k = true
    · by_cases hlast : l.i + ((l.input.take (binblock s.blockSize).toNat).length : Int) = size
      · obtain ⟨w1, hb, hsent, _⟩ := loopBody_last hdr crc s size l w hlast
        obtain ⟨w1', hb', hsent', _⟩ := loopBody_last hdr crc s' size l w' (by rw [hbs]; exact hlast)
        rw [hbs] at hb' hsent'
        rw [runLoop_succ _ _ _ _ _ _ _ _ _ _ _ hc hb, runLoop_succ _ _ _ _ _ _ _ _ _ _ _ hc hb']
        exact ih _ _ _ _ (by rw [hsent, hsent', hw])
      · obtain ⟨w1, hb, hsent, _⟩ := loopBody_more hdr crc s size l w hlast
        obtain ⟨w1', hb', hsent', _⟩ := loopBody_more hdr crc s' size l w' (by rw [hbs]; exact hlast)
        rw [hbs] at hb' hsent'
        rw [runLoop_succ _ _ _ _ _ _ _ _ _ _ _ hc hb, runLoop_succ _ _ _ _ _ _ _ _ _ _ _ hc hb']
        exact ih _ _ _ _ (by rw [hsent, hsent', hw])
    · rw [runLoop_exit _ _ _ _ _ _ _ _ _ hc, runLoop_exit _ _ _ _ _ _ _ _ _ hc]
      simpa [Outcome.world] using hw

/-- C15: with a file sink attached, every `send` appends `0xF0`, the package
and `0xF7` to the file and flushes it; at every point of a run the bytes
written to the file are the concatenation, in send order, of
`0xF0 ++ p ++ 0xF7` over the packages `p` sent so far, and they are all
flushed; and the file is the same whatever MIDI output is or is not attached. -/
theorem file_holds_delimited_packages (hdr : PackageHeader) (crc : List Nat → Nat → Nat)
    (s : Sender) (hfile : s.fileout.isSome = true) (image : List Nat) (running : Nat → Bool)
    (fuel : Nat) :
    (∀ d w, (send s d w).file = w.file ++ [0xF0] ++ d ++ [0xF7] ∧
      (send s d w).flushed = (send s d w).file) ∧
    (run hdr crc s image running fuel).world.file
      = ((run hdr crc s image running fuel).world.sent.map
          (fun p => [0xF0] ++ p ++ [0xF7])).flatten ∧
    (run hdr crc s image running fuel).world.flushed
      = (run hdr crc s image running fuel).world.file ∧
    ∀ midiout, (run hdr crc { s with midiout := midiout } image running fuel).world.file
      = (run hdr crc s image running fuel).world.file := by
  obtain ⟨h1, h2⟩ := run_file hdr crc s hfile image running fuel
  refine ⟨send_file s hfile, h1, h2, fun midiout => ?_⟩
  obtain ⟨h1', _⟩ := run_file hdr crc { s with midiout := midiout } hfile image running fuel
  rw [h1, h1']
  congr 2
  rw [run_eq, run_eq]
  exact runLoop_sent_congr hdr crc s { s with midiout := midiout } rfl _ running fuel 0 _ _ _
    (by simp)

/-- Witness of C15: a 7-byte image written to `firmware.syx`. -/
theorem file_holds_delimited_packages_witness :
    (∀ d w, (send { fileout := some "firmware.syx", blockSize := 8 } d w).file
        = w.file ++ [0xF0] ++ d ++ [0xF7] ∧
      (send { fileout := some "firmware.syx", blockSize := 8 } d w).flushed
        = (send { fileout := some "firmware.syx", blockSize := 8 } d w).file) ∧
    (run ⟨0x7d, 0x52, 0x10⟩ crc32 { fileout := some "firmware.syx", blockSize := 8 }
        [1, 2, 3, 4, 5, 6, 7] (fun _ => true) 1).world.file
      = ((run ⟨0x7d, 0x52, 0x10⟩ crc32 { fileout := some "firmware.syx", blockSize := 8 }
          [1, 2, 3, 4, 5, 6, 7] (fun _ => true) 1).world.sent.map
          (fun p => [0xF0] ++ p ++ [0xF7])).flatten ∧
    (run ⟨0x7d, 0x52, 0x10⟩ crc32 { fileout := some "firmware.syx", blockSize := 8 }
        [1, 2, 3, 4, 5, 6, 7] (fun _ => true) 1).world.flushed
      = (run ⟨0x7d, 0x52, 0x10⟩ crc32 { fileout := some "firmware.syx", blockSize := 8 }
          [1, 2, 3, 4, 5, 6, 7] (fun _ => true) 1).world.file ∧
    ∀ midiout, (run ⟨0x7d, 0x52, 0x10⟩ crc32
        { fileout := some "firmware.syx", blockSize := 8, midiout := midiout }
        [1, 2, 3, 4, 5, 6, 7] (fun _ => true) 1).world.file
      = (run ⟨0x7d, 0x52, 0x10⟩ crc32 { fileout := some "firmware.syx", blockSize := 8 }
          [1, 2, 3, 4, 5, 6, 7] (fun _ => true) 1).world.file :=
  file_holds_delimited_packages ⟨0x7d, 0x52, 0x10⟩ crc32
    { fileout := some "firmware.syx", blockSize := 8 } rfl [1, 2, 3, 4, 5, 6, 7]
    (fun _ => true) 1

/-! ### File-system effects of `configure` -/

/-- The file-system modifications of the argument loop: after those made
before, the deletion and the creation of each file named by a `-save` option
it has read, in order. -/
theorem configureArgs_fileOps (env : Env) :
    ∀ (args : List String) (s : Sender) (fx : List Effect),
      ∃ names : List String, (∀ x ∈ names, ∃ pre post, args = pre ++ "-save" :: x :: post) ∧
        (configureArgs env args s fx).effects.filter Effect.isFileOp
          = fx.filter Effect.isFileOp ++
            (names.map (fun x => [Effect.deleteFile x, Effect.createFile x])).flatten := by
  refine configureArgs_cases env
    (fun args _ fx r => ∃ names : List String, (∀ x ∈ names, ∃ pre post, args = pre ++ "-save" :: x :: post) ∧
      r.effects.filter Effect.isFileOp = fx.filter Effect.isFileOp ++
        (names.map (fun x => [Effect.deleteFile x, Effect.createFile x])).flatten)
    ?_ ?_ ?_ ?_ ?_ ?_
  · intro s fx
    exact ⟨[], by simp, by simp [Configured.effects]⟩
  · intro arg rest s fx e he
    refine ⟨[], by simp, ?_⟩
    rcases he with ⟨_, he⟩ | ⟨_, he⟩ <;> subst he <;>
      simp [Configured.effects, Effect.isFileOp]
  · intro arg rest s fx b _ ih
    obtain ⟨names, hnames, hfx⟩ := ih
    refine ⟨names, ?_, hfx⟩
    intro x hx
    obtain ⟨pre, post, hpre⟩ := hnames x hx
    exact ⟨arg :: pre, post, by rw [hpre]; rfl⟩
  · intro arg rest s fx _ _
    exact ⟨[], by simp, by simp [Configured.effects, Effect.isFileOp]⟩
  · intro value rest s fx _
    exact ⟨[], by simp, by simp [Configured.effects]⟩
  · intro arg value rest s s' fx gx hstep ih
    obtain ⟨names, hnames, hfx⟩ := ih
    have hlift : ∀ x ∈ names, ∃ pre post, arg :: value :: rest = pre ++ "-save" :: x :: post := by
      intro x hx
      obtain ⟨pre, post, hpre⟩ := hnames x hx
      exact ⟨arg :: value :: pre, post, by rw [hpre]; rfl⟩
    rcases hstep with ⟨_, _, hg⟩ | ⟨_, _, hg⟩ | ⟨_, _, _, hg⟩ | ⟨_, _, _, hg⟩ |
      ⟨_, i, _, _, hg⟩ | ⟨ha, _, hg⟩
    · exact ⟨names, hlift, by rw [hfx, hg]; simp⟩
    · exact ⟨names, hlift, by rw [hfx, hg]; simp⟩
    · exact ⟨names, hlift, by rw [hfx, hg]; simp⟩
    · exact ⟨names, hlift, by rw [hfx, hg]; simp⟩
    · exact ⟨names, hlift, by rw [hfx, hg]; simp [Effect.isFileOp]⟩
    · refine ⟨value :: names, ?_, by rw [hfx, hg]; simp [Effect.isFileOp]⟩
      intro x hx
      rcases List.mem_cons.mp hx with hx | hx
      · exact ⟨[], rest, by rw [ha, hx]; rfl⟩
      · exact hlift x hx

theorem configure_effects (env : Env) (args : List String) :
    (configure env args).effects.filter Effect.isFileOp
      = (configureArgs env args {} []).effects.filter Effect.isFileOp := by
  unfold configure
  split
  · rename_i h
    rw [h]
  · rename_i h
    rw [h]
    split_ifs <;> simp [Configured.effects, Effect.isFileOp]

theorem configure_of_thrown (env : Env) (args : List String) (cause : String) (s : Sender)
    (fx : List Effect) (h : configureArgs env args {} [] = .thrown cause s fx) :
    configure env args = .thrown cause s fx := by
  unfold configure
  rw [h]

theorem savedNames_flag (arg : String) (rest : List String)
    (h : arg = "-q" ∨ arg = "--quiet" ∨ arg = "-v" ∨ arg = "--verbose") :
    savedNames (arg :: rest) = savedNames rest := by
  cases rest <;> simp [savedNames, h]

theorem savedNames_option (arg value : String) (rest : List String)
    (h : ¬ (arg = "-q" ∨ arg = "--quiet" ∨ arg = "-v" ∨ arg = "--verbose")) :
    savedNames (arg :: value :: rest)
      = if arg = "-save" then value :: savedNames rest else savedNames rest := by
  rw [savedNames]
  simp only [h, if_false]

/-- The argument loop throws at every argument of `AbortsOn`, having
modified no file in that step. -/
theorem configureArgs_abortsOn (env : Env) (arg : String) (tail : List String) (s : Sender)
    (fx : List Effect) (h : AbortsOn env arg tail) :
    ∃ cause s' gx, configureArgs env (arg :: tail) s fx = .thrown cause s' (fx ++ gx) ∧
      gx.filter Effect.isFileOp = [] := by
  rcases h with h | h | ⟨h, ht⟩ | ⟨h, value, rest, ht, hex⟩
  · simp only [List.mem_cons, List.mem_singleton, List.not_mem_nil, or_false] at h
    rcases h with h | h | h | h <;> subst h
    · exact ⟨"", s, [.usage], by cases tail <;> simp [configureArgs_single, configureArgs_cons_cons],
        rfl⟩
    · exact ⟨"", s, [.usage], by cases tail <;> simp [configureArgs_single, configureArgs_cons_cons],
        rfl⟩
    · exact ⟨"", s, [.listDevices],
        by cases tail <;> simp [configureArgs_single, configureArgs_cons_cons], rfl⟩
    · exact ⟨"", s, [.listDevices],
        by cases tail <;> simp [configureArgs_single, configureArgs_cons_cons], rfl⟩
  · exact ⟨"", s, [.usage], configureArgs_unknown env arg tail s fx h, rfl⟩
  · subst ht
    simp only [List.mem_cons, List.mem_singleton, List.not_mem_nil, or_false] at h
    rcases h with h | h | h | h | h <;> subst h <;>
      exact ⟨"", s, [.usage], by simp [configureArgs_single], rfl⟩
  · subst h
    subst ht
    exact ⟨"No such file: " ++ value, { s with input := some value }, [],
      by simp [configureArgs_cons_cons, configureOption, hex], rfl⟩

/-- When the argument loop throws, it has read some arguments to their end and
throws at the argument after them, one of `AbortsOn`. -/
theorem configureArgs_thrown_at (env : Env) :
    ∀ (args : List String) (s : Sender) (fx : List Effect) (cause : String) (s' : Sender)
      (fx' : List Effect), configureArgs env args s fx = .thrown cause s' fx' →
      ∃ pre arg tail s1 fx1, args = pre ++ arg :: tail ∧
        configureArgs env pre s fx = .ok s1 fx1 ∧ AbortsOn env arg tail := by
  refine configureArgs_cases env
    (fun args s fx r => ∀ (cause : String) (s' : Sender) (fx' : List Effect),
      r = .thrown cause s' fx' →
      ∃ pre arg tail s1 fx1, args = pre ++ arg :: tail ∧
        configureArgs env pre s fx = .ok s1 fx1 ∧ AbortsOn env arg tail)
    ?_ ?_ ?_ ?_ ?_ ?_
  · intro s fx cause s' fx' h
    cases h
  · intro arg rest s fx e he cause s' fx' _
    refine ⟨[], arg, rest, s, fx, rfl, configureArgs_nil env s fx, Or.inl ?_⟩
    simp only [List.mem_cons, List.mem_singleton, List.not_mem_nil, or_false] at he ⊢
    rcases he with ⟨h | h, _⟩ | ⟨h | h, _⟩ <;> simp [h]
  · intro arg rest s fx b hb ih cause s' fx' h
    obtain ⟨pre, a, tail, s1, fx1, hdec, hok, hab⟩ := ih cause s' fx' h
    exact ⟨arg :: pre, a, tail, s1, fx1, by rw [hdec]; rfl,
      by rw [configureArgs_flag env arg pre s fx b hb]; exact hok, hab⟩
  · intro arg rest s fx hnot hcase cause s' fx' _
    refine ⟨[], arg, rest, s, fx, rfl, configureArgs_nil env s fx, ?_⟩
    by_cases hopt : arg ∈ ["-d", "-s", "-in", "-out", "-save"]
    · rcases hcase with hrest | hno
      · exact Or.inr (Or.inr (Or.inl ⟨hopt, hrest⟩))
      · exact absurd hopt hno
    · refine Or.inr (Or.inl ?_)
      simp only [List.mem_cons, List.mem_singleton, List.not_mem_nil, or_false, not_or]
        at hnot hopt ⊢
      exact ⟨hnot.1, hnot.2.1, hnot.2.2.1, hnot.2.2.2.1, hnot.2.2.2.2.1, hnot.2.2.2.2.2.1,
        hnot.2.2.2.2.2.2.1, hnot.2.2.2.2.2.2.2, hopt.1, hopt.2.1, hopt.2.2.1, hopt.2.2.2.1,
        hopt.2.2.2.2⟩
  · intro value rest s fx hex cause s' fx' _
    exact ⟨[], "-in", value :: rest, s, fx, rfl, configureArgs_nil env s fx,
      Or.inr (Or.inr (Or.inr ⟨rfl, value, rest, rfl, hex⟩))⟩
  · intro arg value rest s t fx gx hstep ih cause s' fx' h
    obtain ⟨pre, a, tail, s1, fx1, hdec, hok, hab⟩ := ih cause s' fx' h
    exact ⟨arg :: value :: pre, a, tail, s1, fx1, by rw [hdec]; rfl,
      by rw [configureArgs_option env arg value pre s t fx gx hstep]; exact hok, hab⟩

/-- The file-system modifications of arguments that the argument loop reads
to their end: after those made before, the deletion and the creation of each
file of `savedNames`, in order. -/
theorem configureArgs_saved (env : Env) :
    ∀ (args : List String) (s : Sender) (fx : List Effect) (s' : Sender) (fx' : List Effect),
      configureArgs env args s fx = .ok s' fx' →
      fx'.filter Effect.isFileOp = fx.filter Effect.isFileOp ++
        ((savedNames args).map (fun x => [Effect.deleteFile x, Effect.createFile x])).flatten := by
  refine configureArgs_cases env
    (fun args s fx r => ∀ (s' : Sender) (fx' : List Effect), r = .ok s' fx' →
      fx'.filter Effect.isFileOp = fx.filter Effect.isFileOp ++
        ((savedNames args).map (fun x => [Effect.deleteFile x, Effect.createFile x])).flatten)
    ?_ ?_ ?_ ?_ ?_ ?_
  · intro s fx s' fx' h
    injection h with _ h2
    rw [← h2]
    simp [savedNames]
  · intro arg rest s fx e _ s' fx' h
    cases h
  · intro arg rest s fx b hb ih s' fx' h
    have hsaved : savedNames (arg :: rest) = savedNames rest := by
      apply savedNames_flag
      simp only [List.mem_cons, List.mem_singleton, List.not_mem_nil, or_false] at hb
      rcases hb with ⟨h | h, _⟩ | ⟨h | h, _⟩ <;> simp [h]
    rw [hsaved]
    exact ih s' fx' h
  · intro arg rest s fx _ _ s' fx' h
    cases h
  · intro value rest s fx _ s' fx' h
    cases h
  · intro arg value rest s t fx gx hstep ih s' fx' h
    have hfx := ih s' fx' h
    rcases hstep with ⟨ha, _, hg⟩ | ⟨ha, _, hg⟩ | ⟨ha, _, _, hg⟩ | ⟨ha, _, _, hg⟩ |
      ⟨ha, i, _, _, hg⟩ | ⟨ha, _, hg⟩ <;> subst ha <;> subst hg <;>
      rw [hfx, savedNames_option _ _ _ (by decide)] <;>
      simp [Effect.isFileOp]

/-- C14 (amended): when `configure` aborts, the file-system modifications it
has made are exactly the deletion and the creation, in order, of each file
named by a `-save` option that the argument loop read before the abort, and
nothing else.  The abort is either the rejection after the loop has read all
arguments, and then these are the `-save` options of all arguments; or the
loop throws at an argument `arg` (help or list mode, no option, an option
missing its value, `-in` with a file that does not exist) after reading the
arguments `pre` before it to their end, and then these are the `-save` options
of `pre` alone: a `-save` at or after `arg` modifies nothing.  With no `-save`
among the arguments nothing is modified. -/
theorem configure_abort_file_effects (env : Env) (args : List String) (cause : String)
    (s : Sender) (fx : List Effect) (h : configure env args = .thrown cause s fx) :
    (∀ s0 fx0, configureArgs env args {} [] = .ok s0 fx0 →
      fx.filter Effect.isFileOp
        = ((savedNames args).map (fun x => [Effect.deleteFile x, Effect.createFile x])).flatten) ∧
    (∀ pre arg tail s1 fx1, args = pre ++ arg :: tail →
      configureArgs env pre {} [] = .ok s1 fx1 → AbortsOn env arg tail →
      fx.filter Effect.isFileOp
        = ((savedNames pre).map (fun x => [Effect.deleteFile x, Effect.createFile x])).flatten) ∧
    ((∃ s0 fx0, configureArgs env args {} [] = .ok s0 fx0) ∨
      ∃ pre arg tail s1 fx1, args = pre ++ arg :: tail ∧
        configureArgs env pre {} [] = .ok s1 fx1 ∧ AbortsOn env arg tail) ∧
    ("-save" ∉ args → ∀ e ∈ fx, e.isFileOp = false) := by
  refine ⟨?_, ?_, ?_, ?_⟩
  · intro s0 fx0 hargs
    have hsaved := configureArgs_saved env args {} [] s0 fx0 hargs
    have heff := configure_effects env args
    rw [h, hargs] at heff
    simp only [Configured.effects] at heff
    rw [heff, hsaved]
    simp
  · intro pre arg tail s1 fx1 hdec hpre hab
    have hsaved := configureArgs_saved env pre {} [] s1 fx1 hpre
    obtain ⟨c, s', gx, hthrow, hgx⟩ := configureArgs_abortsOn env arg tail s1 fx1 hab
    have happ := configureArgs_append env (arg :: tail) pre {} [] s1 fx1 hpre
    rw [← hdec, hthrow] at happ
    have hconf := configure_of_thrown env args _ _ _ happ
    rw [h] at hconf
    injection hconf with _ _ hfx
    rw [hfx, List.filter_append, hgx, List.append_nil, hsaved]
    simp
  · unfold configure at h
    split at h
    · rename_i c0 s0 fx0 hthrow
      exact Or.inr (configureArgs_thrown_at env args {} [] c0 s0 fx0 hthrow)
    · rename_i s0 fx0 hargs
      exact Or.inl ⟨s0, fx0, hargs⟩
  · obtain ⟨names, hnames, hfx⟩ := configureArgs_fileOps env args {} []
    have heff := configure_effects env args
    rw [h, hfx] at heff
    simp only [Configured.effects, List.filter_nil, List.nil_append] at heff
    intro hsave e he
    have hnil : names = [] := by
      cases names with
      | nil => rfl
      | cons x xs =>
        obtain ⟨pre, post, hpre⟩ := hnames x (List.mem_cons_self _ _)
        exact absurd (by rw [hpre]; simp) hsave
    rw [hnil] at heff
    simp only [List.map_nil, List.flatten_nil] at heff
    by_contra hfile
    have hmem : e ∈ fx.filter Effect.isFileOp :=
      List.mem_filter.mpr ⟨he, by simpa using hfile⟩
    rw [heff] at hmem
    simp at hmem

/-- Witness of C14: `-save a.syx -h -save precious.syx` aborts at `-h`; the
file `a.syx` of the `-save` read before it has been deleted and created, the
file `precious.syx` named after it has not been touched. -/
theorem configure_abort_file_effects_witness :
    configure
        ⟨fun _ => true, fun v => if v = "50" then 50 else 0, [], fun _ _ => false, fun _ => true⟩
        ["-save", "a.syx", "-h", "-save", "precious.syx"]
      = .thrown "" { fileout := some "a.syx" }
          [.deleteFile "a.syx", .createFile "a.syx", .usage] ∧
    [Effect.deleteFile "a.syx", Effect.createFile "a.syx", Effect.usage].filter Effect.isFileOp
      = ((savedNames ["-save", "a.syx"]).map
          (fun x => [Effect.deleteFile x, Effect.createFile x])).flatten ∧
    savedNames ["-save", "a.syx"] = ["a.syx"] :=
  ⟨by decide,
   (configure_abort_file_effects
    ⟨fun _ => true, fun v => if v = "50" then 50 else 0, [], fun _ _ => false, fun _ => true⟩
    ["-save", "a.syx", "-h", "-save", "precious.syx"] "" { fileout := some "a.syx" }
    [.deleteFile "a.syx", .createFile "a.syx", .usage] (by decide)).2.1
    ["-save", "a.syx"] "-h" ["-save", "precious.syx"] { fileout := some "a.syx" }
    [.deleteFile "a.syx", .createFile "a.syx"] rfl (by decide) (Or.inl (by decide)),
   by decide⟩

/-- Counterexample to C14 as stated: `-save firmware.syx` without an input is
rejected, after `firmware.syx` has been deleted and created. -/
theorem configure_abort_after_save :
    configure
        ⟨fun _ => true, fun v => if v = "50" then 50 else 0, [], fun _ _ => false, fun _ => true⟩
        ["-save", "firmware.syx"]
      = .thrown "" { fileout := some "firmware.syx" }
          [.deleteFile "firmware.syx", .createFile "firmware.syx", .usage] := by
  decide

/-! ### What `configure` accepts -/

theorem openMidiOutput_some (env : Env) (name : String) (i : Nat)
    (h : openMidiOutput env name = some i) : env.canOpen i = true := by
  unfold openMidiOutput at h
  split at h
  · cases h
  · split_ifs at h with hopen
    injection h with h
    rw [← h]
    exact hopen

/-- What the argument loop leaves in `input`, `midiout` and `fileout` when it
returns: the value it started with, or one set by an option among the
arguments. -/
theorem configureArgs_ok (env : Env) :
    ∀ (args : List String) (s : Sender) (fx : List Effect) (s' : Sender) (fx' : List Effect),
      configureArgs env args s fx = .ok s' fx' →
      (s'.input = s.input ∨ ∃ name, s'.input = some name ∧ env.fileExists name = true ∧
        ∃ pre post, args = pre ++ "-in" :: name :: post) ∧
      (s'.midiout = s.midiout ∨
        ("-out" ∈ args ∧ ∀ i, s'.midiout = some i → env.canOpen i = true)) ∧
      (s'.fileout = s.fileout ∨ ∃ name, s'.fileout = some name ∧
        ∃ pre post, args = pre ++ "-save" :: name :: post) := by
  refine configureArgs_cases env
    (fun args s _ r => ∀ (s' : Sender) (fx' : List Effect), r = .ok s' fx' →
      (s'.input = s.input ∨ ∃ name, s'.input = some name ∧ env.fileExists name = true ∧
        ∃ pre post, args = pre ++ "-in" :: name :: post) ∧
      (s'.midiout = s.midiout ∨
        ("-out" ∈ args ∧ ∀ i, s'.midiout = some i → env.canOpen i = true)) ∧
      (s'.fileout = s.fileout ∨ ∃ name, s'.fileout = some name ∧
        ∃ pre post, args = pre ++ "-save" :: name :: post))
    ?_ ?_ ?_ ?_ ?_ ?_
  · intro s fx s' fx' h
    injection h with h1 _
    rw [← h1]
    exact ⟨Or.inl rfl, Or.inl rfl, Or.inl rfl⟩
  · intro arg rest s fx e _ s' fx' h
    cases h
  · intro arg rest s fx b _ ih s' fx' h
    obtain ⟨h1, h2, h3⟩ := ih s' fx' h
    refine ⟨?_, ?_, ?_⟩
    · rcases h1 with h1 | ⟨name, hn, hex, pre, post, hpre⟩
      · exact Or.inl h1
      · exact Or.inr ⟨name, hn, hex, arg :: pre, post, by rw [hpre]; rfl⟩
    · rcases h2 with h2 | ⟨hmem, hopen⟩
      · exact Or.inl h2
      · exact Or.inr ⟨List.mem_cons_of_mem _ hmem, hopen⟩
    · rcases h3 with h3 | ⟨name, hn, pre, post, hpre⟩
      · exact Or.inl h3
      · exact Or.inr ⟨name, hn, arg :: pre, post, by rw [hpre]; rfl⟩
  · intro arg rest s fx _ _ s' fx' h
    cases h
  · intro value rest s fx _ s' fx' h
    cases h
  · intro arg value rest s t fx gx hstep ih s' fx' h
    obtain ⟨h1, h2, h3⟩ := ih s' fx' h
    have lift1 : (∃ name, s'.input = some name ∧ env.fileExists name = true ∧
        ∃ pre post, rest = pre ++ "-in" :: name :: post) →
        ∃ name, s'.input = some name ∧ env.fileExists name = true ∧
          ∃ pre post, arg :: value :: rest = pre ++ "-in" :: name :: post := by
      rintro ⟨name, hn, hex, pre, post, hpre⟩
      exact ⟨name, hn, hex, arg :: value :: pre, post, by rw [hpre]; rfl⟩
    have lift2 : ("-out" ∈ rest ∧ ∀ i, s'.midiout = some i → env.canOpen i = true) →
        ("-out" ∈ arg :: value :: rest ∧ ∀ i, s'.midiout = some i → env.canOpen i = true) :=
      fun ⟨hmem, hopen⟩ => ⟨List.mem_cons_of_mem _ (List.mem_cons_of_mem _ hmem), hopen⟩
    have lift3 : (∃ name, s'.fileout = some name ∧
        ∃ pre post, rest = pre ++ "-save" :: name :: post) →
        ∃ name, s'.fileout = some name ∧
          ∃ pre post, arg :: value :: rest = pre ++ "-save" :: name :: post := by
      rintro ⟨name, hn, pre, post, hpre⟩
      exact ⟨name, hn, arg :: value :: pre, post, by rw [hpre]; rfl⟩
    rcases hstep with ⟨_, ht, _⟩ | ⟨_, ht, _⟩ | ⟨ha, hex, ht, _⟩ | ⟨ha, _, ht, _⟩ |
      ⟨ha, i, ho, ht, _⟩ | ⟨ha, ht, _⟩ <;> subst ht
    · exact ⟨h1.imp id lift1, h2.imp id lift2, h3.imp id lift3⟩
    · exact ⟨h1.imp id lift1, h2.imp id lift2, h3.imp id lift3⟩
    · refine ⟨Or.inr ?_, h2.imp id lift2, h3.imp id lift3⟩
      rcases h1 with h1 | h1
      · exact ⟨value, h1, hex, [], rest, by rw [ha]; rfl⟩
      · exact lift1 h1
    · refine ⟨h1.imp id lift1, Or.inr ?_, h3.imp id lift3⟩
      rcases h2 with h2 | h2
      · refine ⟨by rw [ha]; exact List.mem_cons_self _ _, fun i hi => ?_⟩
        rw [h2] at hi
        cases hi
      · exact lift2 h2
    · refine ⟨h1.imp id lift1, Or.inr ?_, h3.imp id lift3⟩
      rcases h2 with h2 | h2
      · refine ⟨by rw [ha]; exact List.mem_cons_self _ _, fun j hj => ?_⟩
        rw [h2] at hj
        injection hj with hj
        rw [← hj]
        exact openMidiOutput_some env value i ho
      · exact lift2 h2
    · refine ⟨h1.imp id lift1, h2.imp id lift2, Or.inr ?_⟩
      rcases h3 with h3 | h3
      · exact ⟨value, h3, [], rest, by rw [ha]; rfl⟩
      · exact lift3 h3

/-- The last step of `configure`: it returns exactly when the argument loop
returns with an input and an output set; it returns the members the loop left,
but for the delay. -/
theorem configure_ok_iff (env : Env) (args : List String) (s : Sender) (fx : List Effect) :
    configure env args = .ok s fx ↔
      ∃ s0, configureArgs env args {} [] = .ok s0 fx ∧ s0.input ≠ none ∧
        (s0.midiout ≠ none ∨ s0.fileout ≠ none) ∧
        s = (if s0.midiout = none ∧ s0.blockDelay = DEFAULT_BLOCK_DELAY then
          { s0 with blockDelay := 0 } else s0) := by
  unfold configure
  constructor
  · intro h
    split at h
    · cases h
    · rename_i s0 fx0 hargs
      split_ifs at h with hbad hzero
      · injection h with hs hfx
        refine ⟨s0, by rw [← hfx]; exact hargs, ?_, ?_, by rw [if_pos hzero, hs]⟩
        · exact fun hi => hbad (Or.inl hi)
        · by_contra hno
          simp only [not_or, not_not] at hno
          exact hbad (Or.inr hno)
      · injection h with hs hfx
        refine ⟨s0, by rw [← hfx]; exact hargs, ?_, ?_, by rw [if_neg hzero, hs]⟩
        · exact fun hi => hbad (Or.inl hi)
        · by_contra hno
          simp only [not_or, not_not] at hno
          exact hbad (Or.inr hno)
  · rintro ⟨s0, hargs, hin, hout, hs⟩
    rw [hargs]
    have hbad : ¬ (s0.input = none ∨ (s0.midiout = none ∧ s0.fileout = none)) := by
      rintro (h | ⟨h1, h2⟩)
      · exact hin h
      · rcases hout with h | h
        · exact h h1
        · exact h h2
    simp only [hbad, if_false]
    split_ifs with hzero
    · rw [hs, if_pos hzero]
    · rw [hs, if_neg hzero]

theorem configured_cases (r : Configured) (h : ∀ s fx, r ≠ .ok s fx) :
    ∃ cause s fx, r = .thrown cause s fx := by
  cases r with
  | ok s fx => exact absurd rfl (h s fx)
  | thrown cause s fx => exact ⟨cause, s, fx, rfl⟩

/-- C11 (amended): `configure` returns normally only if at least one input
file is given, and at least one of a device output resolved to an open MIDI
output or a file output is given; it returns exactly when the argument loop
returns with an input and an output set.  When it returns, some `-in` was read
as an option, and the input it leaves is the file named by the argument after
the last `-in` read, a file that exists (an argument is read as an option when
the arguments before it are read to their end; the last `-in` read is the one
with the longest such arguments before it).  An argument
list without `-in`, without `-out` and `-save`, or with help or list mode, an
unknown option or an option missing its value where an option is read, makes
it throw, and then `main` exits with -1 without calling `run()`; when it
returns, `main` calls `run()` on the input.  More than one `-in` is
accepted. -/
theorem configure_acceptance (env : Env) (args : List String) :
    (∀ s fx, configure env args = .ok s fx →
      (∃ name, s.input = some name ∧ env.fileExists name = true ∧
        ∃ pre post, args = pre ++ "-in" :: name :: post) ∧
      ((∃ i, s.midiout = some i ∧ env.canOpen i = true ∧ "-out" ∈ args) ∨
        (∃ name, s.fileout = some name ∧ ∃ pre post, args = pre ++ "-save" :: name :: post))) ∧
    ((∃ s fx, configure env args = .ok s fx) ↔
      ∃ s0 fx0, configureArgs env args {} [] = .ok s0 fx0 ∧ s0.input ≠ none ∧
        (s0.midiout ≠ none ∨ s0.fileout ≠ none)) ∧
    (∀ s fx, configure env args = .ok s fx →
      (∃ pre name post s1 fx1, args = pre ++ "-in" :: name :: post ∧
        configureArgs env pre {} [] = .ok s1 fx1) ∧
      ∀ pre name post s1 fx1, args = pre ++ "-in" :: name :: post →
        configureArgs env pre {} [] = .ok s1 fx1 →
        (∀ pre' name' post' s2 fx2, args = pre' ++ "-in" :: name' :: post' →
          configureArgs env pre' {} [] = .ok s2 fx2 → pre'.length ≤ pre.length) →
        s.input = some name ∧ env.fileExists name = true) ∧
    ("-in" ∉ args → ∃ cause s fx, configure env args = .thrown cause s fx) ∧
    ("-out" ∉ args → "-save" ∉ args → ∃ cause s fx, configure env args = .thrown cause s fx) ∧
    (∀ pre arg post s1 fx1, args = pre ++ arg :: post →
      configureArgs env pre {} [] = .ok s1 fx1 →
      (arg ∈ ["-h", "--help", "-l", "--list"] ∨
        arg ∉ ["-h", "--help", "-q", "--quiet", "-v", "--verbose", "-l", "--list", "-d", "-s",
          "-in", "-out", "-save"] ∨
        (arg ∈ ["-d", "-s", "-in", "-out", "-save"] ∧ post = [])) →
      ∃ cause s fx, configure env args = .thrown cause s fx) ∧
    (∀ cause s fx, configure env args = .thrown cause s fx →
      ∀ hdr crc content running fuel,
        main env hdr crc content args running fuel = (some (-1), none)) ∧
    (∀ s fx, configure env args = .ok s fx →
      ∀ hdr crc content running fuel, ∃ name, s.input = some name ∧
        (main env hdr crc content args running fuel).2
          = some (run hdr crc s (content name) running fuel)) := by
  have hA : ∀ s fx, configure env args = .ok s fx →
      (∃ name, s.input = some name ∧ env.fileExists name = true ∧
        ∃ pre post, args = pre ++ "-in" :: name :: post) ∧
      ((∃ i, s.midiout = some i ∧ env.canOpen i = true ∧ "-out" ∈ args) ∨
        (∃ name, s.fileout = some name ∧
          ∃ pre post, args = pre ++ "-save" :: name :: post)) := by
    intro s fx h
    obtain ⟨s0, hargs, hin, hout, hs⟩ := (configure_ok_iff env args s fx).mp h
    obtain ⟨h1, h2, h3⟩ := configureArgs_ok env args {} [] s0 fx hargs
    have e1 : s.input = s0.input := by rw [hs]; split_ifs <;> rfl
    have e2 : s.midiout = s0.midiout := by rw [hs]; split_ifs <;> rfl
    have e3 : s.fileout = s0.fileout := by rw [hs]; split_ifs <;> rfl
    rw [e1, e2, e3]
    constructor
    · rcases h1 with h1 | h1
      · exact absurd h1 hin
      · exact h1
    · rcases hout with hout | hout
      · left
        rcases h2 with h2 | ⟨hmem, hopen⟩
        · exact absurd h2 hout
        · obtain ⟨i, hi⟩ := Option.ne_none_iff_exists'.mp hout
          exact ⟨i, hi, hopen i hi, hmem⟩
      · right
        rcases h3 with h3 | h3
        · exact absurd h3 hout
        · exact h3
  refine ⟨hA, ?_, ?_, ?_, ?_, ?_, ?_, ?_⟩
  · constructor
    · rintro ⟨s, fx, h⟩
      obtain ⟨s0, hargs, hin, hout, _⟩ := (configure_ok_iff env args s fx).mp h
      exact ⟨s0, fx, hargs, hin, hout⟩
    · rintro ⟨s0, fx0, hargs, hin, hout⟩
      exact ⟨_, fx0, (configure_ok_iff env args _ fx0).mpr ⟨s0, hargs, hin, hout, rfl⟩⟩
  · intro s fx h
    obtain ⟨s0, hargs, hin, hout, hs⟩ := (configure_ok_iff env args s fx).mp h
    have e1 : s.input = s0.input := by rw [hs]; split_ifs <;> rfl
    constructor
    · by_contra hnone
      refine hin ((configureArgs_unread env args {} [] s0 fx hargs).2 ?_)
      intro pre v post s1 fx1 hdec hok
      exact hnone ⟨pre, v, post, s1, fx1, hdec, hok⟩
    · intro pre name post s1 fx1 hdec hpre hlast
      rw [e1]
      exact (configureArgs_last_read env args pre post "-in" name {} s1 s0 [] fx1 fx hdec hpre
        hargs hlast).2 rfl
  · intro hno
    apply configured_cases
    intro s fx h
    obtain ⟨⟨name, _, _, pre, post, hpre⟩, _⟩ := hA s fx h
    exact hno (by rw [hpre]; simp)
  · intro hout hsave
    apply configured_cases
    intro s fx h
    rcases (hA s fx h).2 with ⟨_, _, _, hmem⟩ | ⟨name, _, pre, post, hpre⟩
    · exact hout hmem
    · exact hsave (by rw [hpre]; simp)
  · intro pre arg post s1 fx1 hargs hpre hcase
    rw [hargs]
    have happ := configureArgs_append env (arg :: post) pre {} [] s1 fx1 hpre
    rcases hcase with h | h | ⟨h, hpost⟩
    · obtain ⟨e, he⟩ := configureArgs_exit env arg post s1 fx1 h
      exact ⟨_, _, _, configure_of_thrown env _ _ _ _ (by rw [happ, he])⟩
    · exact ⟨_, _, _, configure_of_thrown env _ _ _ _
        (by rw [happ, configureArgs_unknown env arg post s1 fx1 h])⟩
    · obtain ⟨e, he⟩ := configureArgs_last env arg s1 fx1 (by
        simp only [List.mem_cons, List.mem_singleton, List.not_mem_nil, or_false] at h
        rcases h with h | h | h | h | h <;> subst h <;> decide)
      exact ⟨_, _, _, configure_of_thrown env _ _ _ _ (by rw [happ, hpost, he])⟩
  · intro cause s fx h hdr crc content running fuel
    simp only [main, h]
  · intro s fx h hdr crc content running fuel
    obtain ⟨⟨name, hname, _⟩, _⟩ := hA s fx h
    refine ⟨name, hname, ?_⟩
    simp only [main, h, hname]
    cases run hdr crc s (content name) running fuel <;> rfl

/-- Witness of C11: `-save firmware.syx` has no `-in`, and `configure`
throws; and of the two inputs of `-save firmware.syx -in first.bin -in
second.bin`, the input that `configure` leaves is the second, the one after
the last `-in` read. -/
theorem configure_acceptance_witness :
    (∃ cause s fx, configure
      ⟨fun _ => true, fun v => if v = "50" then 50 else 0, [], fun _ _ => false, fun _ => true⟩
      ["-save", "firmware.syx"] = .thrown cause s fx) ∧
    (({ fileout := some "firmware.syx", input := some "second.bin", blockDelay := 0 } : Sender).input
        = some "second.bin" ∧
      (fun _ : String => true) "second.bin" = true) :=
  ⟨(configure_acceptance
    ⟨fun _ => true, fun v => if v = "50" then 50 else 0, [], fun _ _ => false, fun _ => true⟩
    ["-save", "firmware.syx"]).2.2.2.1 (by decide),
   ((configure_acceptance
    ⟨fun _ => true, fun v => if v = "50" then 50 else 0, [], fun _ _ => false, fun _ => true⟩
    ["-save", "firmware.syx", "-in", "first.bin", "-in", "second.bin"]).2.2.1
      { fileout := some "firmware.syx", input := some "second.bin", blockDelay := 0 }
      [.deleteFile "firmware.syx", .createFile "firmware.syx"] (by decide)).2
      ["-save", "firmware.syx", "-in", "first.bin"] "second.bin" []
      { fileout := some "firmware.syx", input := some "first.bin" }
      [.deleteFile "firmware.syx", .createFile "firmware.syx"] rfl (by decide)
      (fun pre' name' post' _ _ hdec _ => by
        have hlen := congrArg List.length hdec
        simp only [List.length_append, List.length_cons, List.length_nil] at hlen ⊢
        omega)⟩

/-- Counterexample to C11 as stated: an argument list with two input files is
accepted, `configure` returns normally with the second input. -/
theorem configure_accepts_two_inputs :
    configure
        ⟨fun _ => true, fun v => if v = "50" then 50 else 0, [], fun _ _ => false, fun _ => true⟩
        ["-in", "first.bin", "-in", "second.bin", "-save", "firmware.syx"]
      = .ok { fileout := some "firmware.syx", input := some "second.bin", blockDelay := 0 }
          [.deleteFile "firmware.syx", .createFile "firmware.syx"] := by
  decide

/-! ### The length of the messages -/

set_option maxRecDepth 100000 in
/-- C12, the code at the failing inputs.  With `-s 16` the block size is 8 and
`binblock` 7; for an image of 7 bytes the metadata package has 13 bytes and the
one data package, which is the terminal one, has 3 + 5 + 8 + 5 = 21 bytes, more
than the 16 given with `-s`.  Without `-s` the block size is 250 - 8 = 242 and
`binblock` 211; for an image of 211 bytes the terminal package has
3 + 5 + 242 + 5 = 255 bytes, more than 250. -/
theorem run_exceeds_message_limit :
    (configure
        ⟨fun _ => true, fun v => if v = "16" then 16 else 0, [], fun _ _ => false, fun _ => true⟩
        ["-in", "firmware.bin", "-save", "firmware.syx", "-s", "16"]
      = .ok { fileout := some "firmware.syx", input := some "firmware.bin", blockDelay := 0,
              blockSize := 8 }
          [.deleteFile "firmware.syx", .createFile "firmware.syx"] ∧
      (run ⟨0x7d, 0x52, 0x10⟩ crc32
          { fileout := some "firmware.syx", input := some "firmware.bin", blockDelay := 0,
            blockSize := 8 }
          [1, 2, 3, 4, 5, 6, 7] (fun _ => true) 1).world.sent.map List.length = [13, 21] ∧
      (16 : Nat) < 21) ∧
    (configure
        ⟨fun _ => true, fun v => if v = "16" then 16 else 0, [], fun _ _ => false, fun _ => true⟩
        ["-in", "firmware.bin", "-save", "firmware.syx"]
      = .ok { fileout := some "firmware.syx", input := some "firmware.bin", blockDelay := 0,
              blockSize := 242 }
          [.deleteFile "firmware.syx", .createFile "firmware.syx"] ∧
      (run ⟨0x7d, 0x52, 0x10⟩ crc32
          { fileout := some "firmware.syx", input := some "firmware.bin", blockDelay := 0,
            blockSize := 242 }
          (List.replicate 211 0xFF) (fun _ => true) 1).world.sent.map List.length = [13, 255] ∧
      (250 : Nat) < 255) := by
  decide

end FirmwareSender
